import Mathlib

/-!
# Expression evaluator of `eval` (src/ast.go)

A shallow embedding of the recursive expression evaluator `astExpr` and of its
per-node handlers, followed by theorems about them.

Conventions of the embedding

* `reflect.Type`, `reflect.Value` and `constant.Value` are the carrier types
  `RT`, `RV` and `C`; everything the evaluator calls on them (the `reflect`,
  `go/constant`, `constanth`, `reflecth`, `tokenh` libraries) and every
  collaborator of the package that is declared outside `src/ast.go` is a field
  of `Host`.
* A Go result pair `(r, err *posError)` is a `Res`: `ok r` when `err == nil`,
  `err e` when `err != nil` (the value returned next to a non-nil error is nil
  or ignored by every caller), and `fault msg` when the call panics.
* The recursive call `expr.astExpr` is the parameter `ev` of every handler;
  `astExprFuel` ties the knot and `astExpr` runs it with enough fuel for the
  node's depth.
* Go's `int` is taken to be 64 bits wide: `wrapInt` is the wrap-around of
  signed machine arithmetic.
-/

namespace Eval

/-! ## Positions, tokens, kinds -/

/-- Source position, Go's token.Pos. -/
abbrev Pos := Int

/-- The zero position token.NoPos. -/
def NoPos : Pos := 0

/-- Lexical token code, Go's token.Token. -/
abbrev Token := Nat

/-- Channel direction of an ast.ChanType. -/
abbrev ChanDir := Nat

/-- The kinds of reflect.Kind. -/
inductive Kind where
  | Invalid | Bool | Int | Int8 | Int16 | Int32 | Int64
  | Uint | Uint8 | Uint16 | Uint32 | Uint64 | Uintptr
  | Float32 | Float64 | Complex64 | Complex128
  | Array | Chan | Func | Interface | Map | Ptr | Slice | String | Struct
  | UnsafePointer
  deriving DecidableEq, Repr

/-- The kinds of constant.Kind. -/
inductive ConstKind where
  | Unknown | Bool | String | Int | Float | Complex
  deriving DecidableEq, Repr

/-! ## Machine integers -/

/-- Largest value of a 64-bit Go int. -/
def maxInt : Int := 9223372036854775807

/-- Smallest value of a 64-bit Go int. -/
def minInt : Int := -9223372036854775808

/-- Wrap-around of signed 64-bit arithmetic. -/
def wrapInt (x : Int) : Int := (x + 9223372036854775808) % 18446744073709551616 - 9223372036854775808

/-! ## Go maps -/

/-- A Go map as an association list without repeated keys; the order of the
entries carries no meaning. -/
abbrev GoMap (K V : Type) := List (K × V)

/-- Map read with the comma-ok form: m[k]. -/
def GoMap.get {K V : Type} [DecidableEq K] : GoMap K V → K → Option V
  | [], _ => none
  | (k1, v1) :: m, k => if k1 = k then some v1 else GoMap.get m k

/-- Map write m[k] = v: overwrites the entry of an equal key. -/
def GoMap.set {K V : Type} [DecidableEq K] : GoMap K V → K → V → GoMap K V
  | [], k, v => [(k, v)]
  | (k1, v1) :: m, k, v => if k1 = k then (k, v) :: m else (k1, v1) :: GoMap.set m k v

/-- Map write m[k] = v of a map whose keys are compared by eq (Go's == on the
keys): the entry of the first key that eq finds equal to k is replaced,
otherwise an entry is added. -/
def GoMap.setBy {K V : Type} (eq : K → K → Bool) : GoMap K V → K → V → GoMap K V
  | [], k, v => [(k, v)]
  | (k1, v1) :: m, k, v =>
    if eq k1 k = true then (k, v) :: m else (k1, v1) :: GoMap.setBy eq m k v

/-! ## Syntax tree (go/ast) -/

/-- An *ast.Ident. -/
structure Ident where
  pos : Pos
  name : String
  deriving DecidableEq, Repr

/-- An *ast.BasicLit: position, token kind and literal text. -/
structure BasicLit where
  pos : Pos
  kind : Token
  value : String
  deriving DecidableEq, Repr

/-- An *ast.Field whose type expression is of type N: Names is nil (none) for
an anonymous field. -/
structure FieldOf (N : Type) where
  pos : Pos
  names : Option (List Ident)
  type : N
  tag : Option BasicLit

/-- An ast.Expr. Every node carries the position its Pos() method reports when
it returns (see Node.posPanics for the nodes on which it panics).
The constructor nilExpr is the nil interface value; a *ast.FieldList that is nil
is none. -/
inductive Node where
  | nilExpr : Node
  | Ident (pos : Pos) (name : String) : Node
  | SelectorExpr (pos : Pos) (x : Node) (sel : Option Ident) : Node
  | BinaryExpr (pos : Pos) (x : Node) (op : Token) (y : Node) : Node
  | BasicLit (pos : Pos) (kind : Token) (value : String) : Node
  | ParenExpr (pos : Pos) (x : Node) : Node
  | CallExpr (pos : Pos) (func : Node) (args : List Node) (ellipsis : Pos) : Node
  | StarExpr (pos : Pos) (x : Node) : Node
  | UnaryExpr (pos : Pos) (op : Token) (x : Node) : Node
  | Ellipsis (pos : Pos) (elt : Node) : Node
  | ChanType (pos : Pos) (dir : ChanDir) (value : Node) : Node
  | FuncType (pos : Pos) (params results : Option (List (FieldOf Node))) : Node
  | ArrayType (pos : Pos) (len : Node) (elt : Node) : Node
  | IndexExpr (pos : Pos) (x : Node) (index : Node) : Node
  | SliceExpr (pos : Pos) (x : Node) (low high max : Node) (slice3 : Bool) : Node
  | CompositeLit (pos : Pos) (type : Node) (elts : List Node) : Node
  | TypeAssertExpr (pos : Pos) (x : Node) (type : Node) : Node
  | MapType (pos : Pos) (key value : Node) : Node
  | StructType (pos : Pos) (fields : Option (List (FieldOf Node))) : Node
  | InterfaceType (pos : Pos) (methods : Option (List (FieldOf Node))) : Node
  | KeyValueExpr (pos : Pos) (key value : Node) : Node
  | FuncLit (pos : Pos) (type : Node) : Node
  | BadExpr (pos : Pos) : Node

/-- A field group of a field list. -/
abbrev Field := FieldOf Node

/-- The method Pos() of a node; the nil interface has no position. -/
def Node.pos : Node → Pos
  | .nilExpr => NoPos
  | .Ident p _ => p
  | .SelectorExpr p _ _ => p
  | .BinaryExpr p _ _ _ => p
  | .BasicLit p _ _ => p
  | .ParenExpr p _ => p
  | .CallExpr p _ _ _ => p
  | .StarExpr p _ => p
  | .UnaryExpr p _ _ => p
  | .Ellipsis p _ => p
  | .ChanType p _ _ => p
  | .FuncType p _ _ => p
  | .ArrayType p _ _ => p
  | .IndexExpr p _ _ => p
  | .SliceExpr p _ _ _ _ _ => p
  | .CompositeLit p _ _ => p
  | .TypeAssertExpr p _ _ => p
  | .MapType p _ _ => p
  | .StructType p _ => p
  | .InterfaceType p _ => p
  | .KeyValueExpr p _ _ => p
  | .FuncLit p _ => p
  | .BadExpr p => p

/-- Whether the method Pos() of go/ast panics on the node. A selector, binary,
call, index, slice and type assertion expression reads its position from its
first operand, a key:value pair from its key, a function literal from its type
and a composite literal from its type when it has one; the method call on a nil
child is a nil dereference. The other kinds keep their position in a field of
the node (a function type in its func keyword or in its parameter list). The
field pos of a node has no meaning when the method panics. A node
that has evaluated to a value has a position; the default branch of astExpr
attaches the position of a node that has not been evaluated. -/
def Node.posPanics : Node → Bool
  | .nilExpr => true
  | .SelectorExpr _ x _ => x.posPanics
  | .BinaryExpr _ x _ _ => x.posPanics
  | .CallExpr _ f _ _ => f.posPanics
  | .IndexExpr _ x _ => x.posPanics
  | .SliceExpr _ x _ _ _ _ => x.posPanics
  | .TypeAssertExpr _ x _ => x.posPanics
  | .CompositeLit _ .nilExpr _ => false
  | .CompositeLit _ t _ => t.posPanics
  | .KeyValueExpr _ k _ => k.posPanics
  | .FuncLit _ t => t.posPanics
  | _ => false

/-- Whether the dispatcher of astExpr lists the dynamic type of the node. -/
def Node.supported : Node → Bool
  | .Ident _ _ => true
  | .SelectorExpr _ _ _ => true
  | .BinaryExpr _ _ _ _ => true
  | .BasicLit _ _ _ => true
  | .ParenExpr _ _ => true
  | .CallExpr _ _ _ _ => true
  | .StarExpr _ _ => true
  | .UnaryExpr _ _ _ => true
  | .Ellipsis _ _ => true
  | .ChanType _ _ _ => true
  | .FuncType _ _ _ => true
  | .ArrayType _ _ _ => true
  | .IndexExpr _ _ _ => true
  | .SliceExpr _ _ _ _ _ _ => true
  | .CompositeLit _ _ _ => true
  | .TypeAssertExpr _ _ _ => true
  | .MapType _ _ _ => true
  | .StructType _ _ => true
  | .InterfaceType _ _ => true
  | _ => false

/-- The method NumFields of *ast.FieldList: a group without names counts once. -/
def numFields : Option (List Field) → Nat
  | none => 0
  | some l => (l.map (fun g =>
      match g.names with
      | none => 1
      | some ns => if ns.length = 0 then 1 else ns.length)).sum

mutual
/-- Nesting depth of a node. -/
def Node.depth : Node → Nat
  | .nilExpr => 0
  | .Ident _ _ => 0
  | .SelectorExpr _ x _ => x.depth + 1
  | .BinaryExpr _ x _ y => max x.depth y.depth + 1
  | .BasicLit _ _ _ => 0
  | .ParenExpr _ x => x.depth + 1
  | .CallExpr _ f as _ => max f.depth (depthList as) + 1
  | .StarExpr _ x => x.depth + 1
  | .UnaryExpr _ _ x => x.depth + 1
  | .Ellipsis _ x => x.depth + 1
  | .ChanType _ _ x => x.depth + 1
  | .FuncType _ ps rs => max (depthFieldsOpt ps) (depthFieldsOpt rs) + 1
  | .ArrayType _ l x => max l.depth x.depth + 1
  | .IndexExpr _ x i => max x.depth i.depth + 1
  | .SliceExpr _ x l h m _ => max (max x.depth l.depth) (max h.depth m.depth) + 1
  | .CompositeLit _ t es => max t.depth (depthList es) + 1
  | .TypeAssertExpr _ x t => max x.depth t.depth + 1
  | .MapType _ k v => max k.depth v.depth + 1
  | .StructType _ fs => depthFieldsOpt fs + 1
  | .InterfaceType _ ms => depthFieldsOpt ms + 1
  | .KeyValueExpr _ k v => max k.depth v.depth + 1
  | .FuncLit _ t => t.depth + 1
  | .BadExpr _ => 0
/-- Largest depth in a list of nodes. -/
def depthList : List Node → Nat
  | [] => 0
  | a :: as => max a.depth (depthList as)
/-- Largest depth of a field type in an optional field list. -/
def depthFieldsOpt : Option (List (FieldOf Node)) → Nat
  | none => 0
  | some l => depthFields l
/-- Largest depth of a field type in a field list. -/
def depthFields : List (FieldOf Node) → Nat
  | [] => 0
  | g :: gs => max g.type.depth (depthFields gs)
end

/-! ## Values (Value Model of the package) -/

section Model

variable (RT RV C : Type)

/-- The interface Data: nil, a regular reflect.Value, a typed constant (a
constant with the type it is assigned to) or an untyped constant. -/
inductive Data where
  | Nil : Data
  | Regular (v : RV) : Data
  | TypedConst (t : RT) (c : C) : Data
  | UntypedConst (c : C) : Data
  deriving DecidableEq

/-- The interface Value: data, a type, a package (its exported members by name)
or a built-in function (by name). -/
inductive Value where
  | Datas (d : Data RT RV C) : Value
  | Type (t : RT) : Value
  | Package (members : String → Option Value) : Value
  | BuiltInFunc (name : String) : Value

/-- The binding environment Args, a map from identifier to Value. -/
abbrev Args := String → Option (Value RT RV C)

/-- Modelled from the spec: the error constructors of the package (declared
outside src/ast.go) by name, each with the arguments it is called with; recovered
is newIntError applied to the text of a recovered panic and other stands for the
errors raised inside the collaborators. -/
inductive IntError where
  | identUndefined (name : String)
  | invAstSelector
  | invSelectorX (x : Value RT RV C)
  | interfaceMethodExpr
  | selectorUndefIdent (t : RT) (name : String)
  | syntaxInvBasLit (lit : String)
  | callNonFunc (f : Value RT RV C)
  | convertWithEllipsis (t : RT)
  | indirectInval (v : Value RT RV C)
  | arrayBoundInvBound (l : Data RT RV C)
  | arrayBoundNeg
  | invIndexOp (x i : Data RT RV C)
  | sliceInvType (x : Data RT RV C)
  | initMix
  | initStructInvFieldName
  | initArrayInvIndex
  | initArrayDupIndex (i : Int)
  | initMapMisKey
  | initInvType (t : RT)
  | typeAssertLeftInval (x : Data RT RV C)
  | typeAssertImpos (x : RV) (t : RT)
  | typeAssertFalse (x : RV) (t : RT)
  | invAstNilStructFields
  | invAstNonStringTag
  | invAstNilInterfaceMethods
  | unsupportedInterfaceType
  | notExpr (v : Value RT RV C)
  | notType (v : Value RT RV C)
  | invAstNil
  | invAstUnsupported (e : Node)
  | recovered (msg : String)
  | other (msg : String)

/-- A *posError: a message with the position it is attached to. -/
structure PosError where
  msg : IntError RT RV C
  pos : Pos

/-- Outcome of a handler: a result, a returned error, or a panic. -/
inductive Res (α : Type) where
  | ok (a : α) : Res α
  | err (e : PosError RT RV C) : Res α
  | fault (msg : String) : Res α

/-- A reflect.StructField as astStructType fills it in; Typ is none for the nil
reflect.Type of a descriptor that was never written. -/
structure StructField where
  Name : String
  PkgPath : String
  Typ : Option RT
  Tag : String
  Anonymous : Bool
  deriving DecidableEq

end Model

variable {RT RV C : Type}

/-- Sequencing of outcomes: errors and panics end the computation. -/
def Res.bind {α β : Type} (r : Res RT RV C α) (f : α → Res RT RV C β) : Res RT RV C β :=
  match r with
  | .ok a => f a
  | .err e => .err e
  | .fault m => .fault m

instance : Monad (Res RT RV C) where
  pure := Res.ok
  bind := Res.bind

/-- The result pair (r, *intError) of a collaborator. -/
abbrev IntRes (RT RV C : Type) (α : Type) := Except (IntError RT RV C) α

/-- The method pos of *intError: a nil error stays nil, a non-nil one is
positioned at p. -/
def IntRes.pos {α : Type} (r : IntRes RT RV C α) (p : Pos) : Res RT RV C α :=
  match r with
  | .ok a => .ok a
  | .error m => .err ⟨m, p⟩

/-- The function MakeDataUntypedConst. -/
def MakeDataUntypedConst (c : C) : Value RT RV C := .Datas (.UntypedConst c)

/-- The function MakeDataNil. -/
def MakeDataNil : Value RT RV C := .Datas .Nil

/-- The function MakeDataRegular. -/
def MakeDataRegular (v : RV) : Value RT RV C := .Datas (.Regular v)

/-- The function MakeType. -/
def MakeType (t : RT) : Value RT RV C := .Type t

/-- The function MakeBuiltInFunc. -/
def MakeBuiltInFunc (name : String) : Value RT RV C := .BuiltInFunc name

/-- The helper upT: lifts the Data of a collaborator result to a Value. -/
def upT (r : IntRes RT RV C (Data RT RV C)) : IntRes RT RV C (Value RT RV C) :=
  match r with
  | .ok d => .ok (.Datas d)
  | .error m => .error m


/-! ## Collaborators -/

/-- Everything src/ast.go calls that is declared elsewhere: the built-in tables,
the go/constant, constanth, reflect, reflecth and tokenh functions, and the
operator engine, call dispatcher and composite builders of the package. A
collaborator returning (r, *intError) is an IntRes; reflect functions that panic
return the panic text as Except.error. -/
structure Host (RT RV C : Type) where
  /-- Function isBuiltInFunc. -/
  isBuiltInFunc : String → Bool
  /-- Function isBuiltInType. -/
  isBuiltInType : String → Bool
  /-- Table builtInTypes, indexed as a Go map (total). -/
  builtInTypes : String → RT
  /-- Function constant.MakeBool. -/
  makeBool : Bool → C
  /-- Function constant.MakeFromLiteral (text, token kind); panics on a token
  kind other than INT, FLOAT, IMAG, CHAR and STRING. -/
  makeFromLiteral : String → Token → Except String C
  /-- Method Kind of constant.Value. -/
  constKind : C → ConstKind
  /-- Function constant.StringVal. -/
  constStringVal : C → String
  /-- Function constanth.IntVal: the int value and whether the constant is
  representable as an int. -/
  intVal : C → Int × Bool
  /-- Function constanth.StringVal. -/
  stringVal : C → String × Bool
  /-- Method AssignableTo of a typed constant (its type, its constant, the target). -/
  tcAssignableTo : RT → C → RT → Bool
  /-- Method Value of a typed constant. -/
  tcValue : RT → C → RV
  /-- Function reflecth.TypeInt. -/
  typeInt : RT
  /-- Function reflecth.TypeEmptyInterface. -/
  typeEmptyInterface : RT
  /-- Function reflecth.TypeAssert: the value, ok and valid. -/
  typeAssert : RV → RT → RV × Bool × Bool
  /-- Method Kind of reflect.Type. -/
  typeKind : RT → Kind
  /-- Function reflect.PtrTo. -/
  ptrTo : RT → RT
  /-- Function reflect.SliceOf. -/
  sliceOf : RT → RT
  /-- Function reflect.ArrayOf; panics when the size of the array would exceed
  the address space. -/
  arrayOf : Int → RT → Except String RT
  /-- Function reflect.ChanOf after reflecth.ChanDirFromAst; panics on an
  element type that is too large. -/
  chanOf : ChanDir → RT → Except String RT
  /-- Function reflect.FuncOf; panics on too many parameters and results, and on
  a variadic function whose last parameter is no slice. -/
  funcOf : List RT → List RT → Bool → Except String RT
  /-- Go's == on two Data interface values, the comparison a map keyed by Data
  makes between the key of an entry and a key evaluated later. It compares what
  the interface values hold, so two constants of the same value need not be
  equal: a constant held through a pointer (a string constant) is equal only to
  the same object, and every evaluation of a literal makes a new one. -/
  dataEq : Data RT RV C → Data RT RV C → Bool
  /-- Function reflect.MapOf; panics on a key type without equality. -/
  mapOf : RT → RT → Except String RT
  /-- Function reflect.StructOf; panics on an invalid field set. -/
  structOf : List (StructField RT) → Except String RT
  /-- Method MethodByName of reflect.Type, with the Func of the method found. -/
  typeMethodByName : RT → String → Option RV
  /-- Method Kind of reflect.Value. -/
  kind : RV → Kind
  /-- Method IsValid of reflect.Value. -/
  isValid : RV → Bool
  /-- Method Elem of reflect.Value. -/
  elem : RV → RV
  /-- Method MethodByName of reflect.Value; panics on the zero Value. -/
  methodByName : RV → String → Except String RV
  /-- Function reflect.ValueOf on a string. -/
  valueOfString : String → RV
  /-- Function fieldByName (value, name, package path). -/
  fieldByName : RV → String → String → RV
  /-- Function tokenh.IsComparison. -/
  isComparison : Token → Bool
  /-- Function tokenh.IsShift. -/
  isShift : Token → Bool
  /-- Function compareOp. -/
  compareOp : Data RT RV C → Token → Data RT RV C → IntRes RT RV C (Data RT RV C)
  /-- Function shiftOp. -/
  shiftOp : Data RT RV C → Token → Data RT RV C → IntRes RT RV C (Data RT RV C)
  /-- Function binaryOp. -/
  binaryOp : Data RT RV C → Token → Data RT RV C → IntRes RT RV C (Data RT RV C)
  /-- Function unaryOp. -/
  unaryOp : Token → Data RT RV C → IntRes RT RV C (Data RT RV C)
  /-- Function callRegular (function, arguments, ellipsis flag). -/
  callRegular : RV → List (Data RT RV C) → Bool → IntRes RT RV C (Value RT RV C)
  /-- Function callBuiltInFunc (name, arguments, ellipsis flag). -/
  callBuiltInFunc : String → List (Value RT RV C) → Bool → IntRes RT RV C (Value RT RV C)
  /-- Function convertCall. -/
  convertCall : RT → List (Data RT RV C) → IntRes RT RV C (Value RT RV C)
  /-- Function indexMap. -/
  indexMap : RV → Data RT RV C → IntRes RT RV C (Value RT RV C)
  /-- Function indexOther. -/
  indexOther : RV → Data RT RV C → IntRes RT RV C (Value RT RV C)
  /-- Function indexConstant. -/
  indexConstant : C → Data RT RV C → IntRes RT RV C (Value RT RV C)
  /-- Function getSliceIndex; the argument is nil (none) for an omitted bound. -/
  getSliceIndex : Option (Data RT RV C) → IntRes RT RV C Int
  /-- Function slice2. -/
  slice2 : RV → Int → Int → IntRes RT RV C (Value RT RV C)
  /-- Function slice3. -/
  slice3 : RV → Int → Int → Int → IntRes RT RV C (Value RT RV C)
  /-- Function compositeLitStructKeys (type, elements by field name, package path). -/
  compositeLitStructKeys : RT → GoMap String (Data RT RV C) → String → IntRes RT RV C (Value RT RV C)
  /-- Function compositeLitStructOrdered (type, elements in order, package path). -/
  compositeLitStructOrdered : RT → List (Data RT RV C) → String → IntRes RT RV C (Value RT RV C)
  /-- Function compositeLitArrayLike (type, elements by index). -/
  compositeLitArrayLike : RT → GoMap Int (Data RT RV C) → IntRes RT RV C (Value RT RV C)
  /-- Function compositeLitMap (type, elements by key). -/
  compositeLitMap : RT → GoMap (Data RT RV C) (Data RT RV C) → IntRes RT RV C (Value RT RV C)

/-- The recursive evaluator as the handlers see it. -/
abbrev Evaluator (RT RV C : Type) := Node → Args RT RV C → Res RT RV C (Value RT RV C)

/-! ## Handlers -/

section Handlers

variable [DecidableEq RT] [DecidableEq RV] [DecidableEq C]
variable (h : Host RT RV C) (pkgPath : String) (ev : Evaluator RT RV C)

/-- Method astIdent. -/
def astIdent (pos : Pos) (name : String) (args : Args RT RV C) : Res RT RV C (Value RT RV C) :=
  if name = "true" then .ok (MakeDataUntypedConst (h.makeBool true))
  else if name = "false" then .ok (MakeDataUntypedConst (h.makeBool false))
  else if name = "nil" then .ok MakeDataNil
  else if h.isBuiltInFunc name then .ok (MakeBuiltInFunc name)
  else if h.isBuiltInType name then .ok (MakeType (h.builtInTypes name))
  else
    match args name with
    | some r => .ok r
    | none => .err ⟨.identUndefined name, pos⟩

/-- Method astExprAsData: the result of astExpr must be of kind Datas. -/
def astExprAsData (e : Node) (args : Args RT RV C) : Res RT RV C (Data RT RV C) :=
  match ev e args with
  | .ok (.Datas d) => .ok d
  | .ok rValue => .err ⟨.notExpr rValue, e.pos⟩
  | .err er => .err er
  | .fault m => .fault m

/-- Method astExprAsType: the result of astExpr must be of kind Type. -/
def astExprAsType (e : Node) (args : Args RT RV C) : Res RT RV C RT :=
  match ev e args with
  | .ok (.Type t) => .ok t
  | .ok rValue => .err ⟨.notType rValue, e.pos⟩
  | .err er => .err er
  | .fault m => .fault m

/-- The part of astSelectorExpr after the pointer case: field of a struct, then
method of the value. -/
def selectorAfterDeref (pos : Pos) (name : String) (xV : RV) : Res RT RV C (Value RT RV C) :=
  if h.kind xV = Kind.Struct ∧ h.isValid (h.fieldByName xV name pkgPath) = true then
    .ok (MakeDataRegular (h.fieldByName xV name pkgPath))
  else
    match h.methodByName xV name with
    | .error m => .fault m
    | .ok method =>
      if h.isValid method then .ok (MakeDataRegular method)
      else .err ⟨.identUndefined ("." ++ name), pos⟩

/-- The Regular-data case of astSelectorExpr. -/
def selectorRegular (pos : Pos) (name : String) (xV : RV) : Res RT RV C (Value RT RV C) :=
  if h.kind xV = Kind.Ptr then
    match h.methodByName xV name with
    | .error m => .fault m
    | .ok method =>
      if h.isValid method then .ok (MakeDataRegular method)
      else selectorAfterDeref h pkgPath pos name (h.elem xV)
  else selectorAfterDeref h pkgPath pos name xV

/-- Method astSelectorExpr. -/
def astSelectorExpr (pos : Pos) (x : Node) (sel : Option Ident) (args : Args RT RV C) :
    Res RT RV C (Value RT RV C) :=
  match ev x args with
  | .err er => .err er
  | .fault m => .fault m
  | .ok xv =>
    match sel with
    | none => .err ⟨.invAstSelector, pos⟩
    | some s =>
      match xv with
      | .Package members =>
        match members s.name with
        | some r => .ok r
        | none => .err ⟨.identUndefined ("." ++ s.name), pos⟩
      | .Datas (.Regular xV) => selectorRegular h pkgPath pos s.name xV
      | .Datas _ => .err ⟨.invSelectorX xv, pos⟩
      | .Type xT =>
        if h.typeKind xT = Kind.Interface then .err ⟨.interfaceMethodExpr, pos⟩
        else
          match h.typeMethodByName xT s.name with
          | some f =>
            if h.isValid f then .ok (MakeDataRegular f)
            else .err ⟨.selectorUndefIdent xT s.name, pos⟩
          | none => .err ⟨.selectorUndefIdent xT s.name, pos⟩
      | .BuiltInFunc _ => .err ⟨.invSelectorX xv, pos⟩

/-- Method astBinaryExpr. -/
def astBinaryExpr (pos : Pos) (x : Node) (op : Token) (y : Node) (args : Args RT RV C) :
    Res RT RV C (Value RT RV C) := do
  let xd ← astExprAsData ev x args
  let yd ← astExprAsData ev y args
  if h.isComparison op then (upT (h.compareOp xd op yd)).pos pos
  else if h.isShift op then (upT (h.shiftOp xd op yd)).pos pos
  else (upT (h.binaryOp xd op yd)).pos pos

/-- Method astBasicLit; a panic of constant.MakeFromLiteral is not recovered. -/
def astBasicLit (pos : Pos) (kind : Token) (value : String) (_args : Args RT RV C) :
    Res RT RV C (Value RT RV C) :=
  match h.makeFromLiteral value kind with
  | .error m => .fault m
  | .ok rC =>
    if h.constKind rC = ConstKind.Unknown then .err ⟨.syntaxInvBasLit value, pos⟩
    else .ok (MakeDataUntypedConst rC)

/-- Method astParenExpr. -/
def astParenExpr (x : Node) (args : Args RT RV C) : Res RT RV C (Value RT RV C) :=
  ev x args

/-- The argument loop of astCallExpr for a callee that is no built-in function:
every argument as Data, stopping at the first failure. -/
def evalArgsAsData (args : Args RT RV C) : List Node → Res RT RV C (List (Data RT RV C))
  | [] => .ok []
  | a :: rest => do
    let d ← astExprAsData ev a args
    let ds ← evalArgsAsData args rest
    pure (d :: ds)

/-- The argument loop of astCallExpr for a built-in function: every argument
as a Value, stopping at the first failure. -/
def evalArgsAsValue (args : Args RT RV C) : List Node → Res RT RV C (List (Value RT RV C))
  | [] => .ok []
  | a :: rest => do
    let v ← ev a args
    let vs ← evalArgsAsValue args rest
    pure (v :: vs)

/-- Method astCallExpr. The flag passed on is e.Ellipsis != token.NoPos. -/
def astCallExpr (pos : Pos) (func : Node) (callArgs : List Node) (ellipsis : Pos)
    (args : Args RT RV C) : Res RT RV C (Value RT RV C) := do
  let f ← ev func args
  match f with
  | .BuiltInFunc name =>
    let eArgs ← evalArgsAsValue ev args callArgs
    (h.callBuiltInFunc name eArgs (decide (ellipsis ≠ NoPos))).pos pos
  | .Datas fD =>
    let eArgs ← evalArgsAsData ev args callArgs
    match fD with
    | .Regular fV => (h.callRegular fV eArgs (decide (ellipsis ≠ NoPos))).pos pos
    | _ => .err ⟨.callNonFunc f, pos⟩
  | .Type t =>
    let eArgs ← evalArgsAsData ev args callArgs
    if ellipsis ≠ NoPos then .err ⟨.convertWithEllipsis t, pos⟩
    else (h.convertCall t eArgs).pos pos
  | .Package _ =>
    let _eArgs ← evalArgsAsData ev args callArgs
    .err ⟨.callNonFunc f, pos⟩

/-- Method astStarExpr. -/
def astStarExpr (pos : Pos) (x : Node) (args : Args RT RV C) : Res RT RV C (Value RT RV C) := do
  let v ← ev x args
  match v with
  | .Type t => .ok (MakeType (h.ptrTo t))
  | .Datas (.Regular r) =>
    if h.kind r = Kind.Ptr then .ok (MakeDataRegular (h.elem r))
    else .err ⟨.indirectInval v, pos⟩
  | _ => .err ⟨.indirectInval v, pos⟩

/-- Method astUnaryExpr. -/
def astUnaryExpr (pos : Pos) (op : Token) (x : Node) (args : Args RT RV C) :
    Res RT RV C (Value RT RV C) := do
  let xd ← astExprAsData ev x args
  (upT (h.unaryOp op xd)).pos pos

/-- Method astChanType; a panic of reflect.ChanOf is not recovered. -/
def astChanType (dir : ChanDir) (value : Node) (args : Args RT RV C) :
    Res RT RV C (Value RT RV C) := do
  let t ← astExprAsType ev value args
  match h.chanOf dir t with
  | .error m => .fault m
  | .ok rT => .ok (MakeType rT)

/-- Method astEllipsis. -/
def astEllipsis (elt : Node) (args : Args RT RV C) : Res RT RV C (Value RT RV C) := do
  let t ← astExprAsType ev elt args
  pure (MakeType (h.sliceOf t))

/-- Modelled from the spec: method funcTranslateArgs (declared outside
src/ast.go) translates a field list into the ordered sequence of its types, one
per declared name or one for a group without names, resolving the type of each
group once; the variadic flag is set when an ellipsis is allowed and the type of
the last group is written with an ellipsis. -/
def funcTranslateArgs (fields : Option (List Field)) (ellipsisAllowed : Bool)
    (args : Args RT RV C) : Res RT RV C (List RT × Bool) :=
  match fields with
  | none => .ok ([], false)
  | some l =>
    let rec go : List Field → Res RT RV C (List RT × Bool)
      | [] => .ok ([], false)
      | g :: gs => do
        let t ← astExprAsType ev g.type args
        let (ts, variadic) ← go gs
        let n := match g.names with
          | none => 1
          | some ns => if ns.length = 0 then 1 else ns.length
        let last := match gs, g.type with
          | [], .Ellipsis _ _ => ellipsisAllowed
          | _, _ => false
        pure (List.replicate n t ++ ts, variadic || last)
    go l

/-- Method astFuncType; a panic of reflect.FuncOf is not recovered. -/
def astFuncType (params results : Option (List Field)) (args : Args RT RV C) :
    Res RT RV C (Value RT RV C) := do
  let (ins, variadic) ← funcTranslateArgs ev params true args
  let (outs, _) ← funcTranslateArgs ev results false args
  match h.funcOf ins outs variadic with
  | .error m => .fault m
  | .ok rT => .ok (MakeType rT)

/-- A call of reflect.ArrayOf outside any recover: a panic of the builder is a
fault of the caller. -/
def arrayOfCall (lInt : Int) (t : RT) : Res RT RV C RT :=
  match h.arrayOf lInt t with
  | .error m => .fault m
  | .ok rT => .ok rT

/-- The length check at the end of astArrayType and the call of the builder. -/
def arrayOfLen (pos : Pos) (t : RT) (lInt : Int) : Res RT RV C (Value RT RV C) :=
  if lInt < 0 then .err ⟨.arrayBoundNeg, pos⟩
  else do
    let rT ← arrayOfCall h lInt t
    pure (MakeType rT)

/-- Method astArrayType. -/
def astArrayType (pos : Pos) (len : Node) (elt : Node) (args : Args RT RV C) :
    Res RT RV C (Value RT RV C) := do
  let t ← astExprAsType ev elt args
  match len with
  | .nilExpr => pure (MakeType (h.sliceOf t))
  | _ =>
    let l ← astExprAsData ev len args
    match l with
    | .TypedConst ty c =>
      if (!h.tcAssignableTo ty c h.typeInt || !(h.intVal c).2) = true then
        .err ⟨.arrayBoundInvBound l, len.pos⟩
      else arrayOfLen h pos t (h.intVal c).1
    | .UntypedConst c =>
      if (!(h.intVal c).2) = true then .err ⟨.arrayBoundInvBound l, len.pos⟩
      else arrayOfLen h pos t (h.intVal c).1
    | _ => .err ⟨.arrayBoundInvBound l, len.pos⟩

/-- Method astIndexExpr. -/
def astIndexExpr (pos : Pos) (x : Node) (index : Node) (args : Args RT RV C) :
    Res RT RV C (Value RT RV C) := do
  let xd ← astExprAsData ev x args
  let i ← astExprAsData ev index args
  match xd with
  | .Regular xV =>
    if h.kind xV = Kind.Map then (h.indexMap xV i).pos pos
    else (h.indexOther xV i).pos pos
  | .TypedConst _ c => (h.indexConstant c i).pos pos
  | .UntypedConst c => (h.indexConstant c i).pos pos
  | .Nil => .err ⟨.invIndexOp xd i, pos⟩

/-- The closure indexResolve of astSliceExpr. -/
def indexResolve (e : Node) (args : Args RT RV C) : Res RT RV C Int :=
  match e with
  | .nilExpr => (h.getSliceIndex none).pos e.pos
  | _ => do
    let i ← astExprAsData ev e args
    (h.getSliceIndex (some i)).pos e.pos

/-- Method astSliceExpr. -/
def astSliceExpr (pos : Pos) (x low high max : Node) (slice3 : Bool) (args : Args RT RV C) :
    Res RT RV C (Value RT RV C) := do
  let xd ← astExprAsData ev x args
  let lowI ← indexResolve h ev low args
  let highI ← indexResolve h ev high args
  let maxI ← if slice3 then indexResolve h ev max args else pure 0
  let v ← (match xd with
    | .Regular xV => Res.ok xV
    | .TypedConst ty c =>
      if h.typeKind ty ≠ Kind.String then .err ⟨.sliceInvType xd, x.pos⟩
      else .ok (h.tcValue ty c)
    | .UntypedConst c =>
      if (!(h.stringVal c).2) = true then .err ⟨.sliceInvType xd, x.pos⟩
      else .ok (h.valueOfString (h.stringVal c).1)
    | .Nil => .err ⟨.sliceInvType xd, x.pos⟩)
  if slice3 then (h.slice3 v lowI highI maxI).pos pos
  else (h.slice2 v lowI highI).pos pos

/-- The type resolution at the head of astCompositeLit: the length of an array
type written with an ellipsis is the number of elements. -/
def compositeLitType (type : Node) (elts : List Node) (args : Args RT RV C) : Res RT RV C RT :=
  match type with
  | .ArrayType _ (.Ellipsis _ _) aElt => do
    let t ← astExprAsType ev aElt args
    arrayOfCall h (elts.length : Int) t
  | _ => astExprAsType ev type args

/-- The loop of astCompositeLit over the elements of a struct literal with keys. -/
def structKeysLoop (litPos : Pos) (args : Args RT RV C) :
    List Node → GoMap String (Data RT RV C) → Res RT RV C (GoMap String (Data RT RV C))
  | [], elts => .ok elts
  | e :: rest, elts =>
    match e with
    | .KeyValueExpr kvePos key value =>
      match key with
      | .Ident _ name => do
        let d ← astExprAsData ev value args
        structKeysLoop litPos args rest (elts.set name d)
      | _ => .err ⟨.initStructInvFieldName, kvePos⟩
    | _ => .err ⟨.initMix, litPos⟩

/-- The loop of astCompositeLit over the elements of a struct literal without keys. -/
def structOrderedLoop (litPos : Pos) (args : Args RT RV C) :
    List Node → Res RT RV C (List (Data RT RV C))
  | [] => .ok []
  | e :: rest =>
    match e with
    | .KeyValueExpr _ _ _ => .err ⟨.initMix, litPos⟩
    | _ => do
      let d ← astExprAsData ev e args
      let ds ← structOrderedLoop litPos args rest
      pure (d :: ds)

/-- The index a key of an array or slice literal stands for. -/
def arrayKeyIndex (kvePos : Pos) (v : Data RT RV C) : Res RT RV C Int :=
  match v with
  | .TypedConst ty c =>
    if ty ≠ h.typeInt then .err ⟨.initArrayInvIndex, kvePos⟩
    else if (!(h.intVal c).2 || decide ((h.intVal c).1 < 0)) = true then
      .err ⟨.initArrayInvIndex, kvePos⟩
    else .ok (h.intVal c).1
  | .UntypedConst c =>
    if (!(h.intVal c).2 || decide ((h.intVal c).1 < 0)) = true then
      .err ⟨.initArrayInvIndex, kvePos⟩
    else .ok (h.intVal c).1
  | _ => .err ⟨.initArrayInvIndex, kvePos⟩

/-- The loop of astCompositeLit over the elements of an array or slice literal;
elts is the map filled so far and nextIndex the running index. -/
def arrayLoop (args : Args RT RV C) :
    List Node → GoMap Int (Data RT RV C) → Int → Res RT RV C (GoMap Int (Data RT RV C))
  | [], elts, _ => .ok elts
  | e :: rest, elts, nextIndex =>
    match e with
    | .KeyValueExpr kvePos key value => do
      let v ← astExprAsData ev key args
      let idx ← arrayKeyIndex h kvePos v
      if (elts.get idx).isSome then .err ⟨.initArrayDupIndex idx, e.pos⟩
      else do
        let d ← astExprAsData ev value args
        arrayLoop args rest (elts.set idx d) (wrapInt (idx + 1))
    | _ =>
      if (elts.get nextIndex).isSome then .err ⟨.initArrayDupIndex nextIndex, e.pos⟩
      else do
        let d ← astExprAsData ev e args
        arrayLoop args rest (elts.set nextIndex d) (wrapInt (nextIndex + 1))

/-- The loop of astCompositeLit over the elements of a map literal; elts is a Go
map keyed by Data, so a write replaces the entry of a key that is == to the new
key and adds an entry otherwise. -/
def mapLoop (args : Args RT RV C) :
    List Node → GoMap (Data RT RV C) (Data RT RV C) →
      Res RT RV C (GoMap (Data RT RV C) (Data RT RV C))
  | [], elts => .ok elts
  | e :: rest, elts =>
    match e with
    | .KeyValueExpr _ key value => do
      let k ← astExprAsData ev key args
      let d ← astExprAsData ev value args
      mapLoop args rest (elts.setBy h.dataEq k d)
    | _ => .err ⟨.initMapMisKey, e.pos⟩

/-- Whether the struct literal is built by field name: an empty list, or a first
element that is a key:value pair. -/
def withKeys : List Node → Bool
  | [] => true
  | .KeyValueExpr _ _ _ :: _ => true
  | _ :: _ => false

/-- Method astCompositeLit. -/
def astCompositeLit (pos : Pos) (type : Node) (elts : List Node) (args : Args RT RV C) :
    Res RT RV C (Value RT RV C) := do
  let vT ← compositeLitType h ev type elts args
  match h.typeKind vT with
  | .Struct =>
    if withKeys elts then do
      let m ← structKeysLoop ev pos args elts []
      (h.compositeLitStructKeys vT m pkgPath).pos pos
    else do
      let l ← structOrderedLoop ev pos args elts
      (h.compositeLitStructOrdered vT l pkgPath).pos pos
  | .Array => do
    let m ← arrayLoop h ev args elts [] 0
    (h.compositeLitArrayLike vT m).pos pos
  | .Slice => do
    let m ← arrayLoop h ev args elts [] 0
    (h.compositeLitArrayLike vT m).pos pos
  | .Map => do
    let m ← mapLoop h ev args elts []
    (h.compositeLitMap vT m).pos pos
  | _ => .err ⟨.initInvType vT, type.pos⟩

/-- Method astTypeAssertExpr. -/
def astTypeAssertExpr (pos : Pos) (x : Node) (type : Node) (args : Args RT RV C) :
    Res RT RV C (Value RT RV C) := do
  let xd ← astExprAsData ev x args
  match xd with
  | .Regular xV =>
    if h.kind xV ≠ Kind.Interface then .err ⟨.typeAssertLeftInval xd, pos⟩
    else do
      let t ← astExprAsType ev type args
      if (!(h.typeAssert xV t).2.2) = true then .err ⟨.typeAssertImpos xV t, pos⟩
      else if (!(h.typeAssert xV t).2.1) = true then .err ⟨.typeAssertFalse xV t, pos⟩
      else .ok (MakeDataRegular (h.typeAssert xV t).1)
  | _ => .err ⟨.typeAssertLeftInval xd, pos⟩

/-- Method astMapType; a panic of reflect.MapOf is recovered into an error. -/
def astMapType (pos : Pos) (key value : Node) (args : Args RT RV C) :
    Res RT RV C (Value RT RV C) := do
  let k ← astExprAsType ev key args
  let v ← astExprAsType ev value args
  match h.mapOf k v with
  | .error rec => .err ⟨.recovered rec, pos⟩
  | .ok rT => .ok (MakeType rT)

/-- The closure extractTag of astStructType; it runs before the recover is
deferred, so a panic of constant.MakeFromLiteral is not recovered. -/
def extractTag (l : Option BasicLit) : Res RT RV C String :=
  match l with
  | none => .ok ""
  | some lit =>
    match h.makeFromLiteral lit.value lit.kind with
    | .error m => .fault m
    | .ok tagC =>
      if h.constKind tagC ≠ ConstKind.String then .err ⟨.invAstNonStringTag, lit.pos⟩
      else .ok (h.constStringVal tagC)

/-- The assignment to fields[i]: a panic when i is outside the slice. -/
def writeField (fields : List (StructField RT)) (i : Nat) (d : StructField RT) :
    Res RT RV C (List (StructField RT)) :=
  if i < fields.length then .ok (fields.set i d) else .fault "index out of range"

/-- The inner loop of astStructType over the names of a field group. -/
def namedFieldsLoop (fsT : RT) (tag : Option BasicLit) :
    List Ident → List (StructField RT) → Nat → Res RT RV C (List (StructField RT) × Nat)
  | [], fields, i => .ok (fields, i)
  | f :: fs, fields, i => do
    let fields1 ← writeField fields i ⟨f.name, pkgPath, some fsT, "", false⟩
    let t ← extractTag h tag
    let fields2 ← writeField fields1 i ⟨f.name, pkgPath, some fsT, t, false⟩
    namedFieldsLoop fsT tag fs fields2 (i + 1)

/-- The outer loop of astStructType over the field groups. -/
def structFieldsLoop (args : Args RT RV C) :
    List Field → List (StructField RT) → Nat → Res RT RV C (List (StructField RT) × Nat)
  | [], fields, i => .ok (fields, i)
  | fs :: rest, fields, i => do
    let fsT ← astExprAsType ev fs.type args
    match fs.names with
    | none =>
      let fields1 ← writeField fields i ⟨"", pkgPath, some fsT, "", true⟩
      let t ← extractTag h fs.tag
      let fields2 ← writeField fields1 i ⟨"", pkgPath, some fsT, t, true⟩
      structFieldsLoop args rest fields2 (i + 1)
    | some names =>
      let (fields1, i1) ← namedFieldsLoop h pkgPath fsT fs.tag names fields i
      structFieldsLoop args rest fields1 i1

/-- Method astStructType; a panic of reflect.StructOf is recovered into an error. -/
def astStructType (pos : Pos) (fieldList : Option (List Field)) (args : Args RT RV C) :
    Res RT RV C (Value RT RV C) :=
  match fieldList with
  | none => .err ⟨.invAstNilStructFields, pos⟩
  | some l => do
    let (fields, _) ← structFieldsLoop h pkgPath ev args l
      (List.replicate (numFields (some l)) ⟨"", "", none, "", false⟩) 0
    match h.structOf fields with
    | .error rec => .err ⟨.recovered rec, pos⟩
    | .ok rT => .ok (MakeType rT)

/-- Method astInterfaceType. -/
def astInterfaceType (pos : Pos) (methods : Option (List Field)) (_args : Args RT RV C) :
    Res RT RV C (Value RT RV C) :=
  match methods with
  | none => .err ⟨.invAstNilInterfaceMethods, pos⟩
  | some l =>
    if l.length ≠ 0 then .err ⟨.unsupportedInterfaceType, pos⟩
    else .ok (MakeType h.typeEmptyInterface)

/-- The default branch of the type switch of astExpr,
invAstUnsupportedError(e).pos(e): the position is read with e.Pos(), and a
panic of that method is not recovered. -/
def astUnsupported (e : Node) : Res RT RV C (Value RT RV C) :=
  if e.posPanics = true then
    .fault "runtime error: invalid memory address or nil pointer dereference"
  else .err ⟨.invAstUnsupported e, e.pos⟩

/-- The body of method astExpr, with ev for its recursive calls. -/
def astExprStep (e : Node) (args : Args RT RV C) : Res RT RV C (Value RT RV C) :=
  match e with
  | .nilExpr => .err ⟨.invAstNil, NoPos⟩
  | .Ident p name => astIdent h p name args
  | .SelectorExpr p x sel => astSelectorExpr h pkgPath ev p x sel args
  | .BinaryExpr p x op y => astBinaryExpr h ev p x op y args
  | .BasicLit p kind value => astBasicLit h p kind value args
  | .ParenExpr _ x => astParenExpr ev x args
  | .CallExpr p f as ell => astCallExpr h ev p f as ell args
  | .StarExpr p x => astStarExpr h ev p x args
  | .UnaryExpr p op x => astUnaryExpr h ev p op x args
  | .Ellipsis _ elt => astEllipsis h ev elt args
  | .ChanType _ dir value => astChanType h ev dir value args
  | .FuncType _ ps rs => astFuncType h ev ps rs args
  | .ArrayType p len elt => astArrayType h ev p len elt args
  | .IndexExpr p x i => astIndexExpr h ev p x i args
  | .SliceExpr p x lo hi mx s3 => astSliceExpr h ev p x lo hi mx s3 args
  | .CompositeLit p t es => astCompositeLit h pkgPath ev p t es args
  | .TypeAssertExpr p x t => astTypeAssertExpr h ev p x t args
  | .MapType p k v => astMapType h ev p k v args
  | .StructType p fs => astStructType h pkgPath ev p fs args
  | .InterfaceType p ms => astInterfaceType h p ms args
  | .KeyValueExpr _ _ _ => astUnsupported e
  | .FuncLit _ _ => astUnsupported e
  | .BadExpr _ => astUnsupported e

/-- Method astExpr unrolled to a recursion depth: the calls nested deeper than
the fuel exhaust the stack. -/
def astExprFuel : Nat → Evaluator RT RV C
  | 0 => fun _ _ => .fault "stack exhausted"
  | n + 1 => astExprStep h pkgPath (astExprFuel n)

/-- Method astExpr: the recursion is as deep as the node. -/
def astExpr (e : Node) (args : Args RT RV C) : Res RT RV C (Value RT RV C) :=
  astExprFuel h pkgPath (e.depth + 1) e args

end Handlers

/-! ## Notions used in the statements -/

/-- The value the field lookup and the last method lookup of astSelectorExpr run
on: the pointee of a pointer, the value itself otherwise. -/
def derefValue (h : Host RT RV C) (xV : RV) : RV :=
  if h.kind xV = Kind.Ptr then h.elem xV else xV

/-- Whether an element of a composite literal is a key:value pair. -/
def Node.isKeyValue : Node → Bool
  | .KeyValueExpr _ _ _ => true
  | _ => false

/-- The expression that gives the value of an element of a composite literal:
the value of a key:value pair, the element itself otherwise. -/
def eltValue : Node → Node
  | .KeyValueExpr _ _ value => value
  | e => e

section Notions

variable [DecidableEq RT] [DecidableEq RV] [DecidableEq C]
variable (h : Host RT RV C) (ev : Evaluator RT RV C)

/-- One element of an array or slice literal evaluated on its own, as the loop
of astCompositeLit evaluates it: the index its key stands for (none without a
key) and its value. -/
def arrayEltEval (args : Args RT RV C) (e : Node) : Res RT RV C (Option Int × Data RT RV C) :=
  match e with
  | .KeyValueExpr kvePos key value => do
    let v ← astExprAsData ev key args
    let idx ← arrayKeyIndex h kvePos v
    let d ← astExprAsData ev value args
    pure (some idx, d)
  | _ => do
    let d ← astExprAsData ev e args
    pure (none, d)

/-- One element of a map literal evaluated on its own: its key and its value. -/
def mapEltEval (args : Args RT RV C) (e : Node) : Res RT RV C (Data RT RV C × Data RT RV C) :=
  match e with
  | .KeyValueExpr _ key value => do
    let k ← astExprAsData ev key args
    let d ← astExprAsData ev value args
    pure (k, d)
  | _ => .err ⟨.initMapMisKey, e.pos⟩

end Notions

/-- The indices the specification assigns to the elements of an array or slice
literal, from their explicit indices: the explicit index when there is one,
otherwise one more than the index of the previous element; next is the index of
an element without key at the head of the list (0 for the whole literal). -/
def assignedIndices : List (Option Int) → Int → List Int
  | [], _ => []
  | ko :: rest, next => ko.getD next :: assignedIndices rest (ko.getD next + 1)

/-- The descriptors the specification gives for one field group with the
resolved type t and the parsed tag: one named descriptor per declared name, or
one anonymous descriptor with empty name when the group declares no name; each
carries the type, the tag and the package path. -/
def groupDescriptors (pkgPath : String) (g : Field) (t : RT) (tag : String) :
    List (StructField RT) :=
  match g.names with
  | none => [⟨"", pkgPath, some t, tag, true⟩]
  | some [] => [⟨"", pkgPath, some t, tag, true⟩]
  | some ns => ns.map (fun f => ⟨f.name, pkgPath, some t, tag, false⟩)

/-- The descriptors of the field groups in declaration order, from the resolved
type and the parsed tag of each group. -/
def structDescriptors (pkgPath : String) :
    List Field → List (RT × String) → List (StructField RT)
  | g :: gs, r :: rs => groupDescriptors pkgPath g r.1 r.2 ++ structDescriptors pkgPath gs rs
  | _, _ => []

/-- The types of the field groups of an optional field list, in order. -/
def fieldTypes : Option (List Field) → List Node
  | none => []
  | some l => l.map (fun g => g.type)

/-- The expression astCompositeLit resolves to get the type of the literal: the
element type for an array type written with an ellipsis, the type expression
itself otherwise. -/
def litTypeOperand : Node → Node
  | .ArrayType _ (.Ellipsis _ _) aElt => aElt
  | t => t

/-- The expressions astCompositeLit may evaluate for one element: key and value
of a key:value pair, the element itself otherwise. -/
def eltOperands : Node → List Node
  | .KeyValueExpr _ key value => [key, value]
  | e => [e]

/-- The expressions astCompositeLit may evaluate for its elements, in order. -/
def eltsOperands : List Node → List Node
  | [] => []
  | e :: rest => eltOperands e ++ eltsOperands rest

/-- The child nodes the handler of a node may hand to astExpr, astExprAsData or
astExprAsType, in the order in which the handler does so. -/
def Node.operands : Node → List Node
  | .SelectorExpr _ x _ => [x]
  | .BinaryExpr _ x _ y => [x, y]
  | .ParenExpr _ x => [x]
  | .CallExpr _ f as _ => f :: as
  | .StarExpr _ x => [x]
  | .UnaryExpr _ _ x => [x]
  | .Ellipsis _ x => [x]
  | .ChanType _ _ x => [x]
  | .FuncType _ ps rs => fieldTypes ps ++ fieldTypes rs
  | .ArrayType _ l x => [x, l]
  | .IndexExpr _ x i => [x, i]
  | .SliceExpr _ x l h m _ => [x, l, h, m]
  | .CompositeLit _ t es => litTypeOperand t :: eltsOperands es
  | .TypeAssertExpr _ x t => [x, t]
  | .MapType _ k v => [k, v]
  | .StructType _ fs => fieldTypes fs
  | _ => []

/-- The failure an outcome carries, whatever the type of the value: an error
(message and position) or a fault; none for a value. -/
def Res.failure {α : Type} : Res RT RV C α → Option (PosError RT RV C ⊕ String)
  | .ok _ => none
  | .err e => some (.inl e)
  | .fault m => some (.inr m)

/-- The evaluator ev2 returns every value that ev returns under args; where ev
fails, ev2 is free. -/
def AgreeOnValues (args : Args RT RV C) (ev ev2 : Evaluator RT RV C) : Prop :=
  ∀ c v, ev c args = .ok v → ev2 c args = .ok v

/-- A computation F that evaluates children through the evaluator it is given
propagates the first failure, when run with ev: either its outcome is computed
from children that evaluated to values only (it is the same with every evaluator
that returns these values), or there is a child c among those allowed by P whose
evaluation fails and whose failure is the outcome of F, unchanged, whatever the
children that failed evaluate to otherwise. -/
def FirstFailure {α : Type} (P : Node → Prop) (args : Args RT RV C)
    (F : Evaluator RT RV C → Res RT RV C α) (ev : Evaluator RT RV C) : Prop :=
  (∀ ev2, AgreeOnValues args ev ev2 → F ev2 = F ev) ∨
  (∃ c, P c ∧ (ev c args).failure ≠ none ∧
    ∀ ev2, AgreeOnValues args ev ev2 → (ev2 c args).failure ≠ none →
      (F ev2).failure = (ev2 c args).failure)

/-! ## A concrete host

A small instance of the collaborators, used to run the evaluator on concrete
inputs: one struct type S with the fields M and F, the pointer-receiver method M
and the value-receiver method V. The token codes are those of go/token (5 INT,
9 STRING, 13 SUB, 20 SHL, 21 SHR, 39 EQL, 40 LSS, 41 GTR, 44 NEQ, 45 LEQ,
46 GEQ); slice2 and slice3 answer with a value of 2 and of 3 parts. -/

/-- Type descriptors of the concrete host. -/
inductive DemoType where
  | int | int8 | string | emptyInterface | structS
  | ptr (t : DemoType)
  | slice (t : DemoType)
  | array (n : Int) (t : DemoType)
  | chan (d : Nat) (t : DemoType)
  | map (k v : DemoType)
  | func (nIn nOut : Nat) (variadic : Bool)
  | structOf (n : Nat)
  deriving DecidableEq, Repr

/-- Constants of the concrete host. -/
inductive DemoConst where
  | unknown
  | bool (b : Bool)
  | int (i : Int)
  | str (s : String)
  deriving DecidableEq, Repr

/-- Values of the concrete host: invalid is the zero reflect.Value, ptrS a
non-nil and nilPtrS a nil pointer to S, method a bound method, field a field of
S, built the result of a builder or call (its type and the number of parts),
arr the result of the array builder (its type and the indices it was given). -/
inductive DemoValue where
  | invalid
  | int (i : Int)
  | str (s : String)
  | structS
  | ptrS
  | nilPtrS
  | method (onPtr : Bool) (name : String)
  | field (name : String)
  | iface (dyn : DemoValue)
  | built (t : DemoType) (n : Nat)
  | arr (t : DemoType) (indices : List Int)
  deriving DecidableEq, Repr

/-- Data of the concrete host. -/
abbrev DemoData := Data DemoType DemoValue DemoConst

/-- Size in bytes of a value of the concrete types, on a 64-bit machine. -/
def DemoType.size : DemoType → Nat
  | .int => 8
  | .int8 => 1
  | .string => 16
  | .emptyInterface => 16
  | .structS => 16
  | .ptr _ => 8
  | .slice _ => 24
  | .array n t => n.toNat * t.size
  | .chan _ _ => 8
  | .map _ _ => 8
  | .func _ _ _ => 8
  | .structOf n => 8 * n

/-- Method Kind of the concrete types. -/
def DemoType.kind : DemoType → Kind
  | .int => Kind.Int
  | .int8 => Kind.Int8
  | .string => Kind.String
  | .emptyInterface => Kind.Interface
  | .structS => Kind.Struct
  | .ptr _ => Kind.Ptr
  | .slice _ => Kind.Slice
  | .array _ _ => Kind.Array
  | .chan _ _ => Kind.Chan
  | .map _ _ => Kind.Map
  | .func _ _ _ => Kind.Func
  | .structOf _ => Kind.Struct

/-- Method Kind of the concrete values. -/
def DemoValue.kind : DemoValue → Kind
  | .invalid => Kind.Invalid
  | .int _ => Kind.Int
  | .str _ => Kind.String
  | .structS => Kind.Struct
  | .ptrS => Kind.Ptr
  | .nilPtrS => Kind.Ptr
  | .method _ _ => Kind.Func
  | .field _ => Kind.Int
  | .iface _ => Kind.Interface
  | .built t _ => t.kind
  | .arr t _ => t.kind

/-- Method MethodByName of the concrete values: it panics on the zero Value. -/
def DemoValue.methodByName (v : DemoValue) (name : String) : Except String DemoValue :=
  match v with
  | .invalid => .error "reflect: call of reflect.Value.MethodByName on zero Value"
  | .ptrS => if name = "M" ∨ name = "V" then .ok (.method true name) else .ok .invalid
  | .nilPtrS => if name = "M" ∨ name = "V" then .ok (.method true name) else .ok .invalid
  | .structS => if name = "V" then .ok (.method false name) else .ok .invalid
  | _ => .ok .invalid

/-- Method Elem of the concrete values: the zero Value for a nil pointer. -/
def DemoValue.elem : DemoValue → DemoValue
  | .ptrS => .structS
  | .iface d => d
  | _ => .invalid

/-- Function constanth.IntVal on the concrete constants. -/
def DemoConst.intVal : DemoConst → Int × Bool
  | .int i => if minInt ≤ i ∧ i ≤ maxInt then (i, true) else (0, false)
  | _ => (0, false)

/-- Function constant.MakeFromLiteral on the concrete constants: a decimal
integer literal (token 5) or a string literal (token 9); the other literal kinds
(6 FLOAT, 7 IMAG, 8 CHAR) are not read, and any other token kind panics. -/
def DemoConst.makeFromLiteral (value : String) (kind : Token) : Except String DemoConst :=
  if kind = 5 then
    if value.data.all (fun c => decide (48 ≤ c.toNat ∧ c.toNat ≤ 57)) ∧ value.data ≠ [] then
      .ok (.int (value.data.foldl (fun acc c => acc * 10 + ((c.toNat : Int) - 48)) 0))
    else .ok .unknown
  else if kind = 9 then .ok (.str value)
  else if kind = 6 ∨ kind = 7 ∨ kind = 8 then .ok .unknown
  else .error "token is not a valid literal kind"

/-- The concrete host. -/
def demoHost : Host DemoType DemoValue DemoConst where
  isBuiltInFunc := fun n => n = "len" || n = "new"
  isBuiltInType := fun n => n = "int" || n = "int8" || n = "string"
  builtInTypes := fun n => if n = "int8" then .int8 else if n = "string" then .string else .int
  makeBool := .bool
  makeFromLiteral := DemoConst.makeFromLiteral
  constKind := fun c =>
    match c with
    | .unknown => ConstKind.Unknown
    | .bool _ => ConstKind.Bool
    | .int _ => ConstKind.Int
    | .str _ => ConstKind.String
  constStringVal := fun c =>
    match c with
    | .str s => s
    | _ => ""
  intVal := DemoConst.intVal
  stringVal := fun c =>
    match c with
    | .str s => (s, true)
    | _ => ("", false)
  tcAssignableTo := fun t _ target => decide (t = target)
  tcValue := fun t c =>
    match c with
    | .int i => .int i
    | .str s => .str s
    | _ => .built t 0
  typeInt := .int
  typeEmptyInterface := .emptyInterface
  typeAssert := fun v t =>
    match v with
    | .iface (.int i) => if t = .int then (.int i, true, true) else (.invalid, false, true)
    | _ => (.invalid, false, true)
  typeKind := DemoType.kind
  ptrTo := .ptr
  sliceOf := .slice
  arrayOf := fun n t =>
    if 0 < t.size ∧ 18446744073709551615 / t.size < n.toNat then
      .error "reflect.ArrayOf: array size would exceed virtual address space"
    else .ok (.array n t)
  chanOf := fun d t =>
    if 65536 ≤ t.size then .error "reflect.ChanOf: element size too large"
    else .ok (.chan d t)
  funcOf := fun ins outs variadic =>
    if variadic = true ∧ (ins.getLast?.map DemoType.kind) ≠ some Kind.Slice then
      .error "reflect.FuncOf: last arg of variadic func must be slice"
    else if 128 < ins.length + outs.length then .error "reflect.FuncOf: too many arguments"
    else .ok (.func ins.length outs.length variadic)
  dataEq := fun a b =>
    match a with
    | .UntypedConst (.str _) => false
    | .TypedConst _ (.str _) => false
    | _ => decide (a = b)
  mapOf := fun k v =>
    match k with
    | .slice _ => .error "reflect.MapOf: invalid key type"
    | .map _ _ => .error "reflect.MapOf: invalid key type"
    | .func _ _ _ => .error "reflect.MapOf: invalid key type"
    | _ => .ok (.map k v)
  structOf := fun fields =>
    if fields.any (fun f => f.Typ.isNone) then .error "reflect.StructOf: field has no type"
    else if (fields.map (fun f => f.Name)).Nodup then .ok (.structOf fields.length)
    else .error "reflect.StructOf: duplicate field"
  typeMethodByName := fun t n =>
    match t with
    | .structS => if n = "V" then some (.method false n) else none
    | .ptr .structS => if n = "M" ∨ n = "V" then some (.method true n) else none
    | _ => none
  kind := DemoValue.kind
  isValid := fun v => decide (v ≠ .invalid)
  elem := DemoValue.elem
  methodByName := DemoValue.methodByName
  valueOfString := .str
  fieldByName := fun v n _ =>
    match v with
    | .structS => if n = "M" ∨ n = "F" then .field n else .invalid
    | _ => .invalid
  isComparison := fun t => t = 39 || t = 40 || t = 41 || t = 44 || t = 45 || t = 46
  isShift := fun t => t = 20 || t = 21
  compareOp := fun _ _ _ => .error (.other "compare")
  shiftOp := fun _ _ _ => .error (.other "shift")
  binaryOp := fun _ _ _ => .error (.other "binary")
  unaryOp := fun op d =>
    match d with
    | .UntypedConst (.int i) =>
      if op = 13 then .ok (.UntypedConst (.int (-i))) else .error (.other "unary")
    | _ => .error (.other "unary")
  callRegular := fun _ ds _ => .ok (.Datas (.Regular (.built .int ds.length)))
  callBuiltInFunc := fun _ vs _ => .ok (.Datas (.Regular (.built .int vs.length)))
  convertCall := fun t ds => .ok (.Datas (.Regular (.built t ds.length)))
  indexMap := fun _ _ => .error (.other "index")
  indexOther := fun _ _ => .error (.other "index")
  indexConstant := fun _ _ => .error (.other "index")
  getSliceIndex := fun _ => .ok 0
  slice2 := fun _ _ _ => .ok (.Datas (.Regular (.built .string 2)))
  slice3 := fun _ _ _ _ => .ok (.Datas (.Regular (.built .string 3)))
  compositeLitStructKeys := fun t m _ => .ok (.Datas (.Regular (.built t m.length)))
  compositeLitStructOrdered := fun t l _ => .ok (.Datas (.Regular (.built t l.length)))
  compositeLitArrayLike := fun t m => .ok (.Datas (.Regular (.arr t (m.map Prod.fst))))
  compositeLitMap := fun t m => .ok (.Datas (.Regular (.built t m.length)))

/-- A binding environment of the concrete host: it binds the reserved names
true and nil, the name len of a built-in function, the name int of a built-in
type, the variables p (a pointer to S), q (a nil pointer to S), s, a and b, the
type S, the typed constant one8 (1 of type int8) and the variable i (an
interface value that holds the int 5). -/
def demoArgs : Args DemoType DemoValue DemoConst := fun n =>
  if n = "true" then some (.Datas (.Regular (.int 7)))
  else if n = "nil" then some (.Datas (.Regular (.int 8)))
  else if n = "len" then some (.Datas (.Regular (.int 9)))
  else if n = "int" then some (.Datas (.Regular (.int 10)))
  else if n = "p" then some (.Datas (.Regular .ptrS))
  else if n = "q" then some (.Datas (.Regular .nilPtrS))
  else if n = "s" then some (.Datas (.Regular .structS))
  else if n = "a" then some (.Datas (.Regular (.int 1)))
  else if n = "b" then some (.Datas (.Regular (.int 2)))
  else if n = "S" then some (.Type .structS)
  else if n = "one8" then some (.Datas (.TypedConst .int8 (.int 1)))
  else if n = "i" then some (.Datas (.Regular (.iface (.int 5))))
  else none

/-! ## Theorems -/

set_option linter.unusedSectionVars false
set_option linter.unusedVariables false
set_option linter.unreachableTactic false
set_option linter.unnecessarySeqFocus false
set_option linter.unusedTactic false

section Fixpoint

variable [DecidableEq RT] [DecidableEq RV] [DecidableEq C]
variable (h : Host RT RV C) (pkgPath : String) {ev ev2 : Evaluator RT RV C}

theorem astExprAsData_congr {c : Node} (hc : ev c = ev2 c) (args : Args RT RV C) :
    astExprAsData ev c args = astExprAsData ev2 c args := by
  simp only [astExprAsData, hc]

theorem astExprAsType_congr {c : Node} (hc : ev c = ev2 c) (args : Args RT RV C) :
    astExprAsType ev c args = astExprAsType ev2 c args := by
  simp only [astExprAsType, hc]

theorem depth_le_depthList {c : Node} {l : List Node} (hc : c ∈ l) : c.depth ≤ depthList l := by
  induction l with
  | nil => cases hc
  | cons a as ih =>
    simp only [depthList]
    rcases List.mem_cons.mp hc with rfl | hm
    · exact le_max_left _ _
    · exact le_trans (ih hm) (le_max_right _ _)

theorem evalArgsAsData_congr (args : Args RT RV C) (l : List Node)
    (hl : ∀ c, c.depth ≤ depthList l → ev c = ev2 c) :
    evalArgsAsData ev args l = evalArgsAsData ev2 args l := by
  induction l with
  | nil => rfl
  | cons a as ih =>
    have ha : ev a = ev2 a := hl a (by simp [depthList])
    have has := ih (fun c hc => hl c (by simp only [depthList]; exact le_trans hc (le_max_right _ _)))
    simp only [evalArgsAsData, astExprAsData_congr ha, has]

theorem evalArgsAsValue_congr (args : Args RT RV C) (l : List Node)
    (hl : ∀ c, c.depth ≤ depthList l → ev c = ev2 c) :
    evalArgsAsValue ev args l = evalArgsAsValue ev2 args l := by
  induction l with
  | nil => rfl
  | cons a as ih =>
    have ha : ev a = ev2 a := hl a (by simp [depthList])
    have has := ih (fun c hc => hl c (by simp only [depthList]; exact le_trans hc (le_max_right _ _)))
    simp only [evalArgsAsValue, ha, has]

theorem depthList_cons_left (a : Node) (l : List Node) : a.depth ≤ depthList (a :: l) := by
  simp [depthList]

theorem depthList_cons_right (a : Node) (l : List Node) : depthList l ≤ depthList (a :: l) := by
  simp [depthList]

theorem structKeysLoop_congr (litPos : Pos) (args : Args RT RV C) (l : List Node)
    (hl : ∀ c, c.depth < depthList l → ev c = ev2 c) (m : GoMap String (Data RT RV C)) :
    structKeysLoop ev litPos args l m = structKeysLoop ev2 litPos args l m := by
  induction l generalizing m with
  | nil => rfl
  | cons a as ih =>
    have has := ih (fun c hc => hl c (lt_of_lt_of_le hc (depthList_cons_right a as)))
    cases a <;> try rfl
    case KeyValueExpr kp key value =>
      cases key <;> try rfl
      case Ident ip name =>
        have hv : ev value = ev2 value := hl value (by
          refine lt_of_lt_of_le ?_ (depthList_cons_left _ as)
          simp [Node.depth])
        simp only [structKeysLoop, astExprAsData_congr hv, has]

theorem structOrderedLoop_congr (litPos : Pos) (args : Args RT RV C) (l : List Node)
    (hl : ∀ c, c.depth ≤ depthList l → ev c = ev2 c) :
    structOrderedLoop ev litPos args l = structOrderedLoop ev2 litPos args l := by
  induction l with
  | nil => rfl
  | cons a as ih =>
    have ha : ev a = ev2 a := hl a (depthList_cons_left a as)
    have has := ih (fun c hc => hl c (le_trans hc (depthList_cons_right a as)))
    cases a <;> simp only [structOrderedLoop, astExprAsData_congr ha, has]

theorem arrayLoop_congr (args : Args RT RV C) (l : List Node)
    (hl : ∀ c, c.depth ≤ depthList l → ev c = ev2 c) (m : GoMap Int (Data RT RV C)) (n : Int) :
    arrayLoop h ev args l m n = arrayLoop h ev2 args l m n := by
  induction l generalizing m n with
  | nil => rfl
  | cons a as ih =>
    have ha : ev a = ev2 a := hl a (depthList_cons_left a as)
    have has := ih (fun c hc => hl c (le_trans hc (depthList_cons_right a as)))
    cases a
    case KeyValueExpr kp key value =>
      have hk : ev key = ev2 key := hl key (by
        refine le_trans ?_ (depthList_cons_left _ as)
        simp only [Node.depth]; omega)
      have hv : ev value = ev2 value := hl value (by
        refine le_trans ?_ (depthList_cons_left _ as)
        simp only [Node.depth]; omega)
      simp only [arrayLoop, astExprAsData_congr hk, astExprAsData_congr hv, has]
    all_goals simp only [arrayLoop, astExprAsData_congr ha, has]

theorem mapLoop_congr (args : Args RT RV C) (l : List Node)
    (hl : ∀ c, c.depth < depthList l → ev c = ev2 c)
    (m : GoMap (Data RT RV C) (Data RT RV C)) :
    mapLoop h ev args l m = mapLoop h ev2 args l m := by
  induction l generalizing m with
  | nil => rfl
  | cons a as ih =>
    have has := ih (fun c hc => hl c (lt_of_lt_of_le hc (depthList_cons_right a as)))
    cases a <;> try rfl
    case KeyValueExpr kp key value =>
      have hk : ev key = ev2 key := hl key (by
        refine lt_of_lt_of_le ?_ (depthList_cons_left _ as)
        simp only [Node.depth]; omega)
      have hv : ev value = ev2 value := hl value (by
        refine lt_of_lt_of_le ?_ (depthList_cons_left _ as)
        simp only [Node.depth]; omega)
      simp only [mapLoop, astExprAsData_congr hk, astExprAsData_congr hv, has]

theorem funcTranslateArgs_go_congr (allowed : Bool) (args : Args RT RV C) (l : List Field)
    (hl : ∀ c, c.depth ≤ depthFields l → ev c = ev2 c) :
    funcTranslateArgs.go ev allowed args l = funcTranslateArgs.go ev2 allowed args l := by
  induction l with
  | nil => rfl
  | cons g gs ih =>
    have hg : ev g.type = ev2 g.type := hl g.type (by simp [depthFields])
    have hgs := ih (fun c hc => hl c (by
      simp only [depthFields]; exact le_trans hc (le_max_right _ _)))
    simp only [funcTranslateArgs.go, astExprAsType_congr hg, hgs]

theorem funcTranslateArgs_congr (allowed : Bool) (args : Args RT RV C)
    (fl : Option (List Field))
    (hl : ∀ c, c.depth ≤ depthFieldsOpt fl → ev c = ev2 c) :
    funcTranslateArgs ev fl allowed args = funcTranslateArgs ev2 fl allowed args := by
  cases fl with
  | none => rfl
  | some l =>
    simp only [funcTranslateArgs]
    exact funcTranslateArgs_go_congr allowed args l (fun c hc => hl c (by simpa [depthFieldsOpt] using hc))

theorem structFieldsLoop_congr (args : Args RT RV C) (l : List Field)
    (hl : ∀ c, c.depth ≤ depthFields l → ev c = ev2 c) (fields : List (StructField RT)) (i : Nat) :
    structFieldsLoop h pkgPath ev args l fields i = structFieldsLoop h pkgPath ev2 args l fields i := by
  induction l generalizing fields i with
  | nil => rfl
  | cons g gs ih =>
    have hg : ev g.type = ev2 g.type := hl g.type (by simp [depthFields])
    have hgs := ih (fun c hc => hl c (by
      simp only [depthFields]; exact le_trans hc (le_max_right _ _)))
    simp only [structFieldsLoop, astExprAsType_congr hg, hgs]

theorem compositeLitType_congr (type : Node) (elts : List Node) (args : Args RT RV C)
    (hl : ∀ c, c.depth ≤ type.depth → ev c = ev2 c) :
    compositeLitType h ev type elts args = compositeLitType h ev2 type elts args := by
  have ht : ev type = ev2 type := hl type (le_refl _)
  unfold compositeLitType
  split
  · rename_i p q r aElt
    have he : ev aElt = ev2 aElt := hl aElt (by simp only [Node.depth]; omega)
    simp only [astExprAsType_congr he]
  · simp only [astExprAsType_congr ht]

theorem astCompositeLit_congr (pos : Pos) (type : Node) (elts : List Node) (args : Args RT RV C)
    (hl : ∀ c, c.depth ≤ max type.depth (depthList elts) → ev c = ev2 c) :
    astCompositeLit h pkgPath ev pos type elts args
      = astCompositeLit h pkgPath ev2 pos type elts args := by
  have h1 := compositeLitType_congr h type elts args
    (fun c hc => hl c (le_trans hc (le_max_left _ _)))
  have hle : ∀ c, c.depth ≤ depthList elts → ev c = ev2 c :=
    fun c hc => hl c (le_trans hc (le_max_right _ _))
  have hlt : ∀ c, c.depth < depthList elts → ev c = ev2 c := fun c hc => hle c (le_of_lt hc)
  simp only [astCompositeLit, h1, structKeysLoop_congr pos args elts hlt,
    structOrderedLoop_congr pos args elts hle, arrayLoop_congr h args elts hle,
    mapLoop_congr h args elts hlt]

theorem indexResolve_congr (e : Node) (args : Args RT RV C) (he : ev e = ev2 e) :
    indexResolve h ev e args = indexResolve h ev2 e args := by
  cases e <;> simp only [indexResolve, astExprAsData_congr he]

/-- The body of astExpr reads the recursive evaluator only at nodes nested
strictly inside the node it is run on. -/
theorem astExprStep_congr (e : Node) (args : Args RT RV C)
    (hl : ∀ c, c.depth < e.depth → ev c = ev2 c) :
    astExprStep h pkgPath ev e args = astExprStep h pkgPath ev2 e args := by
  cases e with
  | nilExpr => rfl
  | Ident p n => rfl
  | BasicLit p k v => rfl
  | KeyValueExpr p k v => rfl
  | FuncLit p t => rfl
  | BadExpr p => rfl
  | InterfaceType p ms => rfl
  | SelectorExpr p x sel =>
    have hx : ev x = ev2 x := hl x (by simp [Node.depth])
    simp only [astExprStep, astSelectorExpr, hx]
  | BinaryExpr p x op y =>
    have hx : ev x = ev2 x := hl x (by simp only [Node.depth]; omega)
    have hy : ev y = ev2 y := hl y (by simp only [Node.depth]; omega)
    simp only [astExprStep, astBinaryExpr, astExprAsData_congr hx, astExprAsData_congr hy]
  | ParenExpr p x =>
    have hx : ev x = ev2 x := hl x (by simp [Node.depth])
    simp only [astExprStep, astParenExpr, hx]
  | CallExpr p f as ell =>
    have hf : ev f = ev2 f := hl f (by simp only [Node.depth]; omega)
    have has : ∀ c, c.depth ≤ depthList as → ev c = ev2 c :=
      fun c hc => hl c (by simp only [Node.depth]; omega)
    simp only [astExprStep, astCallExpr, hf, evalArgsAsData_congr args as has,
      evalArgsAsValue_congr args as has]
  | StarExpr p x =>
    have hx : ev x = ev2 x := hl x (by simp [Node.depth])
    simp only [astExprStep, astStarExpr, hx]
  | UnaryExpr p op x =>
    have hx : ev x = ev2 x := hl x (by simp [Node.depth])
    simp only [astExprStep, astUnaryExpr, astExprAsData_congr hx]
  | Ellipsis p x =>
    have hx : ev x = ev2 x := hl x (by simp [Node.depth])
    simp only [astExprStep, astEllipsis, astExprAsType_congr hx]
  | ChanType p d x =>
    have hx : ev x = ev2 x := hl x (by simp [Node.depth])
    simp only [astExprStep, astChanType, astExprAsType_congr hx]
  | FuncType p ps rs =>
    have h1 := funcTranslateArgs_congr true args ps
      (fun c hc => hl c (by simp only [Node.depth]; omega))
    have h2 := funcTranslateArgs_congr false args rs
      (fun c hc => hl c (by simp only [Node.depth]; omega))
    simp only [astExprStep, astFuncType, h1, h2]
  | ArrayType p l x =>
    have hx : ev x = ev2 x := hl x (by simp only [Node.depth]; omega)
    have hlen : ev l = ev2 l := hl l (by simp only [Node.depth]; omega)
    simp only [astExprStep, astArrayType, astExprAsType_congr hx, astExprAsData_congr hlen]
  | IndexExpr p x i =>
    have hx : ev x = ev2 x := hl x (by simp only [Node.depth]; omega)
    have hi : ev i = ev2 i := hl i (by simp only [Node.depth]; omega)
    simp only [astExprStep, astIndexExpr, astExprAsData_congr hx, astExprAsData_congr hi]
  | SliceExpr p x lo hi mx s3 =>
    have hx : ev x = ev2 x := hl x (by simp only [Node.depth]; omega)
    have h1 := indexResolve_congr h lo args (hl lo (by simp only [Node.depth]; omega))
    have h2 := indexResolve_congr h hi args (hl hi (by simp only [Node.depth]; omega))
    have h3 := indexResolve_congr h mx args (hl mx (by simp only [Node.depth]; omega))
    simp only [astExprStep, astSliceExpr, astExprAsData_congr hx, h1, h2, h3]
  | CompositeLit p t es =>
    simp only [astExprStep]
    exact astCompositeLit_congr h pkgPath p t es args
      (fun c hc => hl c (by simp only [Node.depth]; omega))
  | TypeAssertExpr p x t =>
    have hx : ev x = ev2 x := hl x (by simp only [Node.depth]; omega)
    have ht : ev t = ev2 t := hl t (by simp only [Node.depth]; omega)
    simp only [astExprStep, astTypeAssertExpr, astExprAsData_congr hx, astExprAsType_congr ht]
  | MapType p k v =>
    have hk : ev k = ev2 k := hl k (by simp only [Node.depth]; omega)
    have hv : ev v = ev2 v := hl v (by simp only [Node.depth]; omega)
    simp only [astExprStep, astMapType, astExprAsType_congr hk, astExprAsType_congr hv]
  | StructType p fs =>
    cases fs with
    | none => rfl
    | some l =>
      have h1 : ∀ fields i, structFieldsLoop h pkgPath ev args l fields i
          = structFieldsLoop h pkgPath ev2 args l fields i :=
        structFieldsLoop_congr h pkgPath args l
          (fun c hc => hl c (by simp only [Node.depth, depthFieldsOpt]; omega))
      simp only [astExprStep, astStructType, h1]

/-- Any two amounts of fuel above the depth of a node give the same outcome. -/
theorem astExprFuel_stable (n : Nat) : ∀ (m : Nat) (e : Node), e.depth < n → e.depth < m →
    astExprFuel h pkgPath n e = astExprFuel h pkgPath m e := by
  induction n with
  | zero => intro m e hn; omega
  | succ n ih =>
    intro m e hn hm
    cases m with
    | zero => omega
    | succ m =>
      funext args
      simp only [astExprFuel]
      exact astExprStep_congr h pkgPath e args
        (fun c hc => ih m c (by omega) (by omega))

/-- Method astExpr satisfies its defining equation: it is the body run with
astExpr itself for the recursive calls. -/
theorem astExpr_eq (e : Node) (args : Args RT RV C) :
    astExpr h pkgPath e args = astExprStep h pkgPath (astExpr h pkgPath) e args := by
  unfold astExpr
  simp only [astExprFuel]
  apply astExprStep_congr
  intro c hc
  funext a
  exact congrFun (astExprFuel_stable h pkgPath e.depth (c.depth + 1) c hc (by omega)) a

end Fixpoint

/-! ### Outcomes -/

section Outcomes

variable {α β : Type}

@[simp] theorem Res.ok_bind (a : α) (f : α → Res RT RV C β) : (Res.ok a >>= f) = f a := rfl

@[simp] theorem Res.err_bind (e : PosError RT RV C) (f : α → Res RT RV C β) :
    ((Res.err e : Res RT RV C α) >>= f) = .err e := rfl

@[simp] theorem Res.fault_bind (m : String) (f : α → Res RT RV C β) :
    ((Res.fault m : Res RT RV C α) >>= f) = .fault m := rfl

@[simp] theorem Res.pure_eq (a : α) : (pure a : Res RT RV C α) = .ok a := rfl

theorem Res.bind_ne_ok (r : Res RT RV C α) (f : α → Res RT RV C β)
    (hr : ∀ a, r ≠ .ok a) : ∀ b, (r >>= f) ≠ .ok b := by
  intro b
  cases r with
  | ok a => exact absurd rfl (hr a)
  | err e => simp
  | fault m => simp

theorem Res.bind_err_of_not_ok_not_fault (r : Res RT RV C α) (f : α → Res RT RV C β)
    (hr : ∀ a, r ≠ .ok a) (hf : ∀ m, r ≠ .fault m) : ∃ e, (r >>= f) = .err e := by
  cases r with
  | ok a => exact absurd rfl (hr a)
  | err e => exact ⟨e, rfl⟩
  | fault m => exact absurd rfl (hf m)

theorem astExprAsData_ne_fault {ev : Evaluator RT RV C} {c : Node} {args : Args RT RV C}
    (hc : ∀ m, ev c args ≠ .fault m) : ∀ m, astExprAsData ev c args ≠ .fault m := by
  intro m
  unfold astExprAsData
  cases hr : ev c args with
  | ok v => cases v <;> simp
  | err e => simp
  | fault m2 => exact absurd hr (hc m2)

end Outcomes

/-! ### Propagation of the first failure -/

section Propagation

variable [DecidableEq RT] [DecidableEq RV] [DecidableEq C]
variable {α β : Type} {P : Node → Prop} {args : Args RT RV C} {ev : Evaluator RT RV C}

theorem firstFailure_const (r : Res RT RV C α) : FirstFailure P args (fun _ => r) ev :=
  Or.inl (fun _ _ => rfl)

theorem firstFailure_eval {c : Node} (hc : P c) :
    FirstFailure P args (fun ev2 => ev2 c args) ev := by
  cases hr : ev c args with
  | ok v => exact Or.inl (fun ev2 h2 => (h2 c v hr).trans hr.symm)
  | err e => exact Or.inr ⟨c, hc, by rw [hr]; simp [Res.failure], fun ev2 _ _ => rfl⟩
  | fault m => exact Or.inr ⟨c, hc, by rw [hr]; simp [Res.failure], fun ev2 _ _ => rfl⟩

theorem Res.failure_bind_of_failure (r : Res RT RV C α) (f : α → Res RT RV C β)
    (hr : r.failure ≠ none) : (r >>= f).failure = r.failure := by
  cases r with
  | ok a => exact absurd rfl hr
  | err e => rfl
  | fault m => rfl

theorem firstFailure_bind {G : Evaluator RT RV C → Res RT RV C α}
    {K : α → Evaluator RT RV C → Res RT RV C β}
    (hG : FirstFailure P args G ev) (hK : ∀ a, FirstFailure P args (K a) ev) :
    FirstFailure P args (fun ev2 => G ev2 >>= fun a => K a ev2) ev := by
  rcases hG with hA | ⟨c, hc, hf, hB⟩
  · cases hr : G ev with
    | ok a =>
      rcases hK a with kA | ⟨c, hc, hf, kB⟩
      · refine Or.inl (fun ev2 h2 => ?_)
        simp only [hA ev2 h2, hr, Res.ok_bind]
        exact kA ev2 h2
      · refine Or.inr ⟨c, hc, hf, fun ev2 h2 hf2 => ?_⟩
        simp only [hA ev2 h2, hr, Res.ok_bind]
        exact kB ev2 h2 hf2
    | err e =>
      refine Or.inl (fun ev2 h2 => ?_)
      simp only [hA ev2 h2, hr, Res.err_bind]
    | fault m =>
      refine Or.inl (fun ev2 h2 => ?_)
      simp only [hA ev2 h2, hr, Res.fault_bind]
  · refine Or.inr ⟨c, hc, hf, fun ev2 h2 hf2 => ?_⟩
    have h3 := hB ev2 h2 hf2
    show (G ev2 >>= fun a => K a ev2).failure = _
    rw [Res.failure_bind_of_failure _ _ (by rw [h3]; exact hf2), h3]

theorem firstFailure_ite (c : Prop) [Decidable c] {A B : Evaluator RT RV C → Res RT RV C α}
    (hA : FirstFailure P args A ev) (hB : FirstFailure P args B ev) :
    FirstFailure P args (fun ev2 => if c then A ev2 else B ev2) ev := by
  by_cases hc : c
  · simpa only [hc, if_true] using hA
  · simpa only [hc, if_false] using hB

theorem firstFailure_asData {c : Node} (hc : P c) :
    FirstFailure P args (fun ev2 => astExprAsData ev2 c args) ev := by
  have heq : (fun ev2 : Evaluator RT RV C => astExprAsData ev2 c args)
      = fun ev2 => ev2 c args >>= fun v => astExprAsData (fun _ _ => .ok v) c args := by
    funext ev2
    unfold astExprAsData
    cases ev2 c args <;> rfl
  rw [heq]
  exact firstFailure_bind (firstFailure_eval hc) (fun _ => firstFailure_const _)

theorem firstFailure_asType {c : Node} (hc : P c) :
    FirstFailure P args (fun ev2 => astExprAsType ev2 c args) ev := by
  have heq : (fun ev2 : Evaluator RT RV C => astExprAsType ev2 c args)
      = fun ev2 => ev2 c args >>= fun v => astExprAsType (fun _ _ => .ok v) c args := by
    funext ev2
    unfold astExprAsType
    cases ev2 c args <;> rfl
  rw [heq]
  exact firstFailure_bind (firstFailure_eval hc) (fun _ => firstFailure_const _)

variable (h : Host RT RV C) (pkgPath : String)

theorem mem_eltsOperands_cons_right {c a : Node} {l : List Node} (hc : c ∈ eltsOperands l) :
    c ∈ eltsOperands (a :: l) := by
  simp only [eltsOperands, List.mem_append]
  exact Or.inr hc

theorem mem_eltsOperands_cons_left {c a : Node} {l : List Node} (hc : c ∈ eltOperands a) :
    c ∈ eltsOperands (a :: l) := by
  simp only [eltsOperands, List.mem_append]
  exact Or.inl hc

theorem firstFailure_evalArgsAsData (l : List Node) (hl : ∀ c ∈ l, P c) :
    FirstFailure P args (fun ev2 => evalArgsAsData ev2 args l) ev := by
  induction l with
  | nil =>
    simp only [evalArgsAsData]
    exact firstFailure_const _
  | cons a as ih =>
    simp only [evalArgsAsData]
    exact firstFailure_bind (firstFailure_asData (hl a (List.mem_cons_self _ _)))
      (fun d => firstFailure_bind (ih (fun c hc => hl c (List.mem_cons_of_mem _ hc)))
        (fun ds => firstFailure_const _))

theorem firstFailure_evalArgsAsValue (l : List Node) (hl : ∀ c ∈ l, P c) :
    FirstFailure P args (fun ev2 => evalArgsAsValue ev2 args l) ev := by
  induction l with
  | nil =>
    simp only [evalArgsAsValue]
    exact firstFailure_const _
  | cons a as ih =>
    simp only [evalArgsAsValue]
    exact firstFailure_bind (firstFailure_eval (hl a (List.mem_cons_self _ _)))
      (fun d => firstFailure_bind (ih (fun c hc => hl c (List.mem_cons_of_mem _ hc)))
        (fun ds => firstFailure_const _))

theorem firstFailure_astSelectorExpr (pos : Pos) (x : Node) (sel : Option Ident) (hx : P x) :
    FirstFailure P args (fun ev2 => astSelectorExpr h pkgPath ev2 pos x sel args) ev := by
  have heq : (fun ev2 : Evaluator RT RV C => astSelectorExpr h pkgPath ev2 pos x sel args)
      = fun ev2 => ev2 x args >>= fun v =>
          astSelectorExpr h pkgPath (fun _ _ => .ok v) pos x sel args := by
    funext ev2
    unfold astSelectorExpr
    cases ev2 x args <;> rfl
  rw [heq]
  exact firstFailure_bind (firstFailure_eval hx) (fun _ => firstFailure_const _)

theorem firstFailure_astBinaryExpr (pos : Pos) (x : Node) (op : Token) (y : Node)
    (hx : P x) (hy : P y) :
    FirstFailure P args (fun ev2 => astBinaryExpr h ev2 pos x op y args) ev := by
  simp only [astBinaryExpr]
  exact firstFailure_bind (firstFailure_asData hx)
    (fun _ => firstFailure_bind (firstFailure_asData hy) (fun _ => firstFailure_const _))

theorem firstFailure_astCallExpr (pos : Pos) (func : Node) (callArgs : List Node) (ell : Pos)
    (hf : P func) (has : ∀ c ∈ callArgs, P c) :
    FirstFailure P args (fun ev2 => astCallExpr h ev2 pos func callArgs ell args) ev := by
  simp only [astCallExpr]
  refine firstFailure_bind (firstFailure_eval hf) (fun f => ?_)
  cases f <;> dsimp only <;>
    first
    | exact firstFailure_bind (firstFailure_evalArgsAsData _ has) (fun _ => firstFailure_const _)
    | exact firstFailure_bind (firstFailure_evalArgsAsValue _ has) (fun _ => firstFailure_const _)

theorem firstFailure_astStarExpr (pos : Pos) (x : Node) (hx : P x) :
    FirstFailure P args (fun ev2 => astStarExpr h ev2 pos x args) ev := by
  simp only [astStarExpr]
  exact firstFailure_bind (firstFailure_eval hx) (fun _ => firstFailure_const _)

theorem firstFailure_astUnaryExpr (pos : Pos) (op : Token) (x : Node) (hx : P x) :
    FirstFailure P args (fun ev2 => astUnaryExpr h ev2 pos op x args) ev := by
  simp only [astUnaryExpr]
  exact firstFailure_bind (firstFailure_asData hx) (fun _ => firstFailure_const _)

theorem firstFailure_astChanType (dir : ChanDir) (x : Node) (hx : P x) :
    FirstFailure P args (fun ev2 => astChanType h ev2 dir x args) ev := by
  simp only [astChanType]
  exact firstFailure_bind (firstFailure_asType hx) (fun _ => firstFailure_const _)

theorem firstFailure_astEllipsis (x : Node) (hx : P x) :
    FirstFailure P args (fun ev2 => astEllipsis h ev2 x args) ev := by
  simp only [astEllipsis]
  exact firstFailure_bind (firstFailure_asType hx) (fun _ => firstFailure_const _)

theorem firstFailure_funcTranslateArgs_go (allowed : Bool) (l : List Field)
    (hl : ∀ c ∈ fieldTypes (some l), P c) :
    FirstFailure P args (fun ev2 => funcTranslateArgs.go ev2 allowed args l) ev := by
  induction l with
  | nil =>
    simp only [funcTranslateArgs.go]
    exact firstFailure_const _
  | cons g gs ih =>
    simp only [funcTranslateArgs.go]
    refine firstFailure_bind (firstFailure_asType (hl g.type (by simp [fieldTypes]))) (fun t => ?_)
    refine firstFailure_bind (ih (fun c hc => hl c ?_)) (fun x => firstFailure_const _)
    simp only [fieldTypes, List.map_cons, List.mem_cons] at hc ⊢
    exact Or.inr hc

theorem firstFailure_funcTranslateArgs (allowed : Bool) (fl : Option (List Field))
    (hl : ∀ c ∈ fieldTypes fl, P c) :
    FirstFailure P args (fun ev2 => funcTranslateArgs ev2 fl allowed args) ev := by
  cases fl with
  | none =>
    simp only [funcTranslateArgs]
    exact firstFailure_const _
  | some l =>
    simp only [funcTranslateArgs]
    exact firstFailure_funcTranslateArgs_go allowed l hl

theorem firstFailure_astFuncType (ps rs : Option (List Field))
    (hps : ∀ c ∈ fieldTypes ps, P c) (hrs : ∀ c ∈ fieldTypes rs, P c) :
    FirstFailure P args (fun ev2 => astFuncType h ev2 ps rs args) ev := by
  simp only [astFuncType]
  refine firstFailure_bind (firstFailure_funcTranslateArgs true ps hps) (fun x => ?_)
  exact firstFailure_bind (firstFailure_funcTranslateArgs false rs hrs)
    (fun _ => firstFailure_const _)

theorem firstFailure_astArrayType (pos : Pos) (len elt : Node) (hlen : P len) (helt : P elt) :
    FirstFailure P args (fun ev2 => astArrayType h ev2 pos len elt args) ev := by
  simp only [astArrayType]
  refine firstFailure_bind (firstFailure_asType helt) (fun t => ?_)
  cases len <;> dsimp only <;>
    first
    | exact firstFailure_const _
    | exact firstFailure_bind (firstFailure_asData hlen) (fun _ => firstFailure_const _)

theorem firstFailure_astIndexExpr (pos : Pos) (x i : Node) (hx : P x) (hi : P i) :
    FirstFailure P args (fun ev2 => astIndexExpr h ev2 pos x i args) ev := by
  simp only [astIndexExpr]
  exact firstFailure_bind (firstFailure_asData hx)
    (fun _ => firstFailure_bind (firstFailure_asData hi) (fun _ => firstFailure_const _))

theorem firstFailure_indexResolve (e : Node) (he : P e) :
    FirstFailure P args (fun ev2 => indexResolve h ev2 e args) ev := by
  cases e <;> simp only [indexResolve] <;>
    first
    | exact firstFailure_const _
    | exact firstFailure_bind (firstFailure_asData he) (fun _ => firstFailure_const _)

theorem firstFailure_astSliceExpr (pos : Pos) (x lo hi mx : Node) (s3 : Bool)
    (hx : P x) (hlo : P lo) (hhi : P hi) (hmx : P mx) :
    FirstFailure P args (fun ev2 => astSliceExpr h ev2 pos x lo hi mx s3 args) ev := by
  simp only [astSliceExpr]
  refine firstFailure_bind (firstFailure_asData hx) (fun xd => ?_)
  refine firstFailure_bind (firstFailure_indexResolve h lo hlo) (fun lowI => ?_)
  refine firstFailure_bind (firstFailure_indexResolve h hi hhi) (fun highI => ?_)
  refine firstFailure_ite (s3 = true) ?_ ?_
  · exact firstFailure_bind (firstFailure_indexResolve h mx hmx) (fun _ => firstFailure_const _)
  · exact firstFailure_const _

theorem firstFailure_compositeLitType (type : Node) (elts : List Node)
    (ht : P (litTypeOperand type)) :
    FirstFailure P args (fun ev2 => compositeLitType h ev2 type elts args) ev := by
  have key : ∀ t : Node, P t →
      FirstFailure P args (fun ev2 => astExprAsType ev2 t args) ev :=
    fun t ht => firstFailure_asType ht
  cases type
  case ArrayType p len aElt =>
    cases len
    case Ellipsis q r =>
      simp only [compositeLitType]
      exact firstFailure_bind (firstFailure_asType ht) (fun _ => firstFailure_const _)
    all_goals
      simp only [compositeLitType]
      exact key _ ht
  all_goals
    simp only [compositeLitType]
    exact key _ ht

theorem firstFailure_structKeysLoop (litPos : Pos) (l : List Node)
    (hl : ∀ c ∈ eltsOperands l, P c) (m : GoMap String (Data RT RV C)) :
    FirstFailure P args (fun ev2 => structKeysLoop ev2 litPos args l m) ev := by
  induction l generalizing m with
  | nil =>
    simp only [structKeysLoop]
    exact firstFailure_const _
  | cons a as ih =>
    have has := ih (fun c hc => hl c (mem_eltsOperands_cons_right hc))
    cases a
    case KeyValueExpr kp key value =>
      have hv : P value := hl value (mem_eltsOperands_cons_left (by simp [eltOperands]))
      cases key
      case Ident ip name =>
        simp only [structKeysLoop]
        exact firstFailure_bind (firstFailure_asData hv) (fun d => has _)
      all_goals
        simp only [structKeysLoop]
        exact firstFailure_const _
    all_goals
      simp only [structKeysLoop]
      exact firstFailure_const _

theorem firstFailure_structOrderedLoop (litPos : Pos) (l : List Node)
    (hl : ∀ c ∈ eltsOperands l, P c) :
    FirstFailure P args (fun ev2 => structOrderedLoop ev2 litPos args l) ev := by
  induction l with
  | nil =>
    simp only [structOrderedLoop]
    exact firstFailure_const _
  | cons a as ih =>
    have has := ih (fun c hc => hl c (mem_eltsOperands_cons_right hc))
    cases a
    case KeyValueExpr kp key value =>
      simp only [structOrderedLoop]
      exact firstFailure_const _
    all_goals
      simp only [structOrderedLoop]
      exact firstFailure_bind
        (firstFailure_asData (hl _ (mem_eltsOperands_cons_left (by simp [eltOperands]))))
        (fun d => firstFailure_bind has (fun _ => firstFailure_const _))

theorem firstFailure_arrayLoop (l : List Node)
    (hl : ∀ c ∈ eltsOperands l, P c) (m : GoMap Int (Data RT RV C)) (n : Int) :
    FirstFailure P args (fun ev2 => arrayLoop h ev2 args l m n) ev := by
  induction l generalizing m n with
  | nil =>
    simp only [arrayLoop]
    exact firstFailure_const _
  | cons a as ih =>
    have has := ih (fun c hc => hl c (mem_eltsOperands_cons_right hc))
    cases a
    case KeyValueExpr kp key value =>
      have hk : P key := hl key (mem_eltsOperands_cons_left (by simp [eltOperands]))
      have hv : P value := hl value (mem_eltsOperands_cons_left (by simp [eltOperands]))
      simp only [arrayLoop]
      refine firstFailure_bind (firstFailure_asData hk) (fun v => ?_)
      refine firstFailure_bind (firstFailure_const _) (fun idx => ?_)
      refine firstFailure_ite _ (firstFailure_const _) ?_
      exact firstFailure_bind (firstFailure_asData hv) (fun d => has _ _)
    all_goals
      simp only [arrayLoop]
      refine firstFailure_ite _ (firstFailure_const _) ?_
      exact firstFailure_bind
        (firstFailure_asData (hl _ (mem_eltsOperands_cons_left (by simp [eltOperands]))))
        (fun d => has _ _)

theorem firstFailure_mapLoop (l : List Node)
    (hl : ∀ c ∈ eltsOperands l, P c) (m : GoMap (Data RT RV C) (Data RT RV C)) :
    FirstFailure P args (fun ev2 => mapLoop h ev2 args l m) ev := by
  induction l generalizing m with
  | nil =>
    simp only [mapLoop]
    exact firstFailure_const _
  | cons a as ih =>
    have has := ih (fun c hc => hl c (mem_eltsOperands_cons_right hc))
    cases a
    case KeyValueExpr kp key value =>
      have hk : P key := hl key (mem_eltsOperands_cons_left (by simp [eltOperands]))
      have hv : P value := hl value (mem_eltsOperands_cons_left (by simp [eltOperands]))
      simp only [mapLoop]
      refine firstFailure_bind (firstFailure_asData hk) (fun k => ?_)
      exact firstFailure_bind (firstFailure_asData hv) (fun d => has _)
    all_goals
      simp only [mapLoop]
      exact firstFailure_const _

theorem firstFailure_astCompositeLit (pos : Pos) (type : Node) (elts : List Node)
    (ht : P (litTypeOperand type)) (hl : ∀ c ∈ eltsOperands elts, P c) :
    FirstFailure P args (fun ev2 => astCompositeLit h pkgPath ev2 pos type elts args) ev := by
  simp only [astCompositeLit]
  refine firstFailure_bind (firstFailure_compositeLitType h type elts ht) (fun vT => ?_)
  cases h.typeKind vT <;> dsimp only <;>
    first
    | exact firstFailure_const _
    | exact firstFailure_bind (firstFailure_arrayLoop h elts hl _ _) (fun _ => firstFailure_const _)
    | exact firstFailure_bind (firstFailure_mapLoop h elts hl _) (fun _ => firstFailure_const _)
    | exact firstFailure_ite _
        (firstFailure_bind (firstFailure_structKeysLoop pos elts hl _) (fun _ => firstFailure_const _))
        (firstFailure_bind (firstFailure_structOrderedLoop pos elts hl) (fun _ => firstFailure_const _))

theorem firstFailure_astTypeAssertExpr (pos : Pos) (x type : Node) (hx : P x) (ht : P type) :
    FirstFailure P args (fun ev2 => astTypeAssertExpr h ev2 pos x type args) ev := by
  simp only [astTypeAssertExpr]
  refine firstFailure_bind (firstFailure_asData hx) (fun xd => ?_)
  cases xd <;> dsimp only <;>
    first
    | exact firstFailure_const _
    | exact firstFailure_ite _ (firstFailure_const _)
        (firstFailure_bind (firstFailure_asType ht) (fun _ => firstFailure_const _))

theorem firstFailure_astMapType (pos : Pos) (key value : Node) (hk : P key) (hv : P value) :
    FirstFailure P args (fun ev2 => astMapType h ev2 pos key value args) ev := by
  simp only [astMapType]
  exact firstFailure_bind (firstFailure_asType hk)
    (fun _ => firstFailure_bind (firstFailure_asType hv) (fun _ => firstFailure_const _))

theorem firstFailure_structFieldsLoop (l : List Field)
    (hl : ∀ c ∈ fieldTypes (some l), P c) (fields : List (StructField RT)) (i : Nat) :
    FirstFailure P args (fun ev2 => structFieldsLoop h pkgPath ev2 args l fields i) ev := by
  induction l generalizing fields i with
  | nil =>
    simp only [structFieldsLoop]
    exact firstFailure_const _
  | cons g gs ih =>
    have hgs := ih (fun c hc => hl c (by
      simp only [fieldTypes, List.map_cons, List.mem_cons] at hc ⊢
      exact Or.inr hc))
    have hg : P g.type := hl g.type (by simp [fieldTypes])
    simp only [structFieldsLoop]
    refine firstFailure_bind (firstFailure_asType hg) (fun fsT => ?_)
    cases g.names <;> dsimp only
    · refine firstFailure_bind (firstFailure_const _) (fun f1 => ?_)
      refine firstFailure_bind (firstFailure_const _) (fun t => ?_)
      exact firstFailure_bind (firstFailure_const _) (fun f2 => hgs _ _)
    · exact firstFailure_bind (firstFailure_const _) (fun x => hgs _ _)

theorem firstFailure_astStructType (pos : Pos) (fl : Option (List Field))
    (hl : ∀ c ∈ fieldTypes fl, P c) :
    FirstFailure P args (fun ev2 => astStructType h pkgPath ev2 pos fl args) ev := by
  cases fl with
  | none =>
    simp only [astStructType]
    exact firstFailure_const _
  | some l =>
    simp only [astStructType]
    exact firstFailure_bind (firstFailure_structFieldsLoop h pkgPath l hl _ _)
      (fun _ => firstFailure_const _)

/-- The body of astExpr propagates the first failure among the operands of the
node it is run on. -/
theorem firstFailure_astExprStep (e : Node) :
    FirstFailure (fun c => c ∈ e.operands) args
      (fun ev2 => astExprStep h pkgPath ev2 e args) ev := by
  cases e with
  | nilExpr => simp only [astExprStep]; exact firstFailure_const _
  | Ident p n => simp only [astExprStep]; exact firstFailure_const _
  | BasicLit p k v => simp only [astExprStep]; exact firstFailure_const _
  | KeyValueExpr p k v => simp only [astExprStep]; exact firstFailure_const _
  | FuncLit p t => simp only [astExprStep]; exact firstFailure_const _
  | BadExpr p => simp only [astExprStep]; exact firstFailure_const _
  | InterfaceType p ms => simp only [astExprStep]; exact firstFailure_const _
  | SelectorExpr p x sel =>
    simp only [astExprStep]
    exact firstFailure_astSelectorExpr h pkgPath p x sel (by simp [Node.operands])
  | BinaryExpr p x op y =>
    simp only [astExprStep]
    exact firstFailure_astBinaryExpr h p x op y (by simp [Node.operands])
      (by simp [Node.operands])
  | ParenExpr p x =>
    simp only [astExprStep, astParenExpr]
    exact firstFailure_eval (by simp [Node.operands])
  | CallExpr p f as ell =>
    simp only [astExprStep]
    exact firstFailure_astCallExpr h p f as ell (by simp [Node.operands])
      (fun c hc => by simp [Node.operands, hc])
  | StarExpr p x =>
    simp only [astExprStep]
    exact firstFailure_astStarExpr h p x (by simp [Node.operands])
  | UnaryExpr p op x =>
    simp only [astExprStep]
    exact firstFailure_astUnaryExpr h p op x (by simp [Node.operands])
  | Ellipsis p x =>
    simp only [astExprStep]
    exact firstFailure_astEllipsis h x (by simp [Node.operands])
  | ChanType p d x =>
    simp only [astExprStep]
    exact firstFailure_astChanType h d x (by simp [Node.operands])
  | FuncType p ps rs =>
    simp only [astExprStep]
    exact firstFailure_astFuncType h ps rs
      (fun c hc => by simp [Node.operands, hc]) (fun c hc => by simp [Node.operands, hc])
  | ArrayType p l x =>
    simp only [astExprStep]
    exact firstFailure_astArrayType h p l x (by simp [Node.operands]) (by simp [Node.operands])
  | IndexExpr p x i =>
    simp only [astExprStep]
    exact firstFailure_astIndexExpr h p x i (by simp [Node.operands]) (by simp [Node.operands])
  | SliceExpr p x lo hi mx s3 =>
    simp only [astExprStep]
    exact firstFailure_astSliceExpr h p x lo hi mx s3 (by simp [Node.operands])
      (by simp [Node.operands]) (by simp [Node.operands]) (by simp [Node.operands])
  | CompositeLit p t es =>
    simp only [astExprStep]
    exact firstFailure_astCompositeLit h pkgPath p t es (by simp [Node.operands])
      (fun c hc => by simp [Node.operands, hc])
  | TypeAssertExpr p x t =>
    simp only [astExprStep]
    exact firstFailure_astTypeAssertExpr h p x t (by simp [Node.operands])
      (by simp [Node.operands])
  | MapType p k v =>
    simp only [astExprStep]
    exact firstFailure_astMapType h p k v (by simp [Node.operands]) (by simp [Node.operands])
  | StructType p fs =>
    simp only [astExprStep]
    exact firstFailure_astStructType h pkgPath p fs (fun c hc => by simp [Node.operands, hc])

theorem astExprAsData_err {c : Node} {er : PosError RT RV C} (hc : ev c args = .err er) :
    astExprAsData ev c args = .err er := by
  simp only [astExprAsData, hc]

theorem astExprAsType_err {c : Node} {er : PosError RT RV C} (hc : ev c args = .err er) :
    astExprAsType ev c args = .err er := by
  simp only [astExprAsType, hc]

theorem compositeLitType_err (type : Node) (elts : List Node) {er : PosError RT RV C}
    (hc : ev (litTypeOperand type) args = .err er) :
    compositeLitType h ev type elts args = .err er := by
  have ht := astExprAsType_err hc
  cases type
  case ArrayType p len aElt =>
    cases len
    case Ellipsis q r =>
      simp only [litTypeOperand] at ht
      simp only [compositeLitType, ht, Res.err_bind]
    all_goals
      simp only [litTypeOperand] at ht
      simp only [compositeLitType, ht]
  all_goals
    simp only [litTypeOperand] at ht
    simp only [compositeLitType, ht]

theorem funcTranslateArgs_nil (allowed : Bool) (fl : Option (List Field))
    (hfl : fieldTypes fl = []) :
    funcTranslateArgs ev fl allowed args = .ok ([], false) := by
  cases fl with
  | none => rfl
  | some l =>
    cases l with
    | nil => rfl
    | cons g gs => simp [fieldTypes] at hfl

theorem funcTranslateArgs_head_err (allowed : Bool) (fl : Option (List Field)) {c : Node}
    {er : PosError RT RV C} (hh : (fieldTypes fl).head? = some c) (hc : ev c args = .err er) :
    funcTranslateArgs ev fl allowed args = .err er := by
  cases fl with
  | none => simp [fieldTypes] at hh
  | some l =>
    cases l with
    | nil => simp [fieldTypes] at hh
    | cons g gs =>
      simp only [fieldTypes, List.map_cons, List.head?_cons, Option.some.injEq] at hh
      subst hh
      simp only [funcTranslateArgs, funcTranslateArgs.go, astExprAsType_err hc, Res.err_bind]

/-- The error of the first operand of a node is the outcome of the node. -/
theorem astExpr_head_operand_err (e c : Node) (args : Args RT RV C) (er : PosError RT RV C)
    (hh : e.operands.head? = some c) (hc : astExpr h pkgPath c args = .err er) :
    astExpr h pkgPath e args = .err er := by
  have hd := astExprAsData_err hc
  have ht := astExprAsType_err hc
  rw [astExpr_eq]
  cases e with
  | nilExpr => simp [Node.operands] at hh
  | Ident p n => simp [Node.operands] at hh
  | BasicLit p k v => simp [Node.operands] at hh
  | KeyValueExpr p k v => simp [Node.operands] at hh
  | FuncLit p t => simp [Node.operands] at hh
  | BadExpr p => simp [Node.operands] at hh
  | InterfaceType p ms => simp [Node.operands] at hh
  | SelectorExpr p x sel =>
    simp only [Node.operands, List.head?_cons, Option.some.injEq] at hh
    subst hh
    simp only [astExprStep, astSelectorExpr, hc]
  | BinaryExpr p x op y =>
    simp only [Node.operands, List.head?_cons, Option.some.injEq] at hh
    subst hh
    simp only [astExprStep, astBinaryExpr, hd, Res.err_bind]
  | ParenExpr p x =>
    simp only [Node.operands, List.head?_cons, Option.some.injEq] at hh
    subst hh
    simp only [astExprStep, astParenExpr, hc]
  | CallExpr p f as ell =>
    simp only [Node.operands, List.head?_cons, Option.some.injEq] at hh
    subst hh
    simp only [astExprStep, astCallExpr, hc, Res.err_bind]
  | StarExpr p x =>
    simp only [Node.operands, List.head?_cons, Option.some.injEq] at hh
    subst hh
    simp only [astExprStep, astStarExpr, hc, Res.err_bind]
  | UnaryExpr p op x =>
    simp only [Node.operands, List.head?_cons, Option.some.injEq] at hh
    subst hh
    simp only [astExprStep, astUnaryExpr, hd, Res.err_bind]
  | Ellipsis p x =>
    simp only [Node.operands, List.head?_cons, Option.some.injEq] at hh
    subst hh
    simp only [astExprStep, astEllipsis, ht, Res.err_bind]
  | ChanType p d x =>
    simp only [Node.operands, List.head?_cons, Option.some.injEq] at hh
    subst hh
    simp only [astExprStep, astChanType, ht, Res.err_bind]
  | FuncType p ps rs =>
    simp only [Node.operands] at hh
    simp only [astExprStep, astFuncType]
    cases hps : fieldTypes ps with
    | nil =>
      rw [hps, List.nil_append] at hh
      rw [funcTranslateArgs_nil true ps hps, Res.ok_bind]
      dsimp only
      rw [funcTranslateArgs_head_err false rs hh hc, Res.err_bind]
    | cons a l =>
      have hh2 : (fieldTypes ps).head? = some c := by
        rw [hps, List.cons_append, List.head?_cons] at hh
        rw [hps, List.head?_cons]
        exact hh
      rw [funcTranslateArgs_head_err true ps hh2 hc, Res.err_bind]
  | ArrayType p l x =>
    simp only [Node.operands, List.head?_cons, Option.some.injEq] at hh
    subst hh
    simp only [astExprStep, astArrayType, ht, Res.err_bind]
  | IndexExpr p x i =>
    simp only [Node.operands, List.head?_cons, Option.some.injEq] at hh
    subst hh
    simp only [astExprStep, astIndexExpr, hd, Res.err_bind]
  | SliceExpr p x lo hi mx s3 =>
    simp only [Node.operands, List.head?_cons, Option.some.injEq] at hh
    subst hh
    simp only [astExprStep, astSliceExpr, hd, Res.err_bind]
  | CompositeLit p t es =>
    simp only [Node.operands, List.head?_cons, Option.some.injEq] at hh
    subst hh
    simp only [astExprStep, astCompositeLit, compositeLitType_err h t es hc, Res.err_bind]
  | TypeAssertExpr p x t =>
    simp only [Node.operands, List.head?_cons, Option.some.injEq] at hh
    subst hh
    simp only [astExprStep, astTypeAssertExpr, hd, Res.err_bind]
  | MapType p k v =>
    simp only [Node.operands, List.head?_cons, Option.some.injEq] at hh
    subst hh
    simp only [astExprStep, astMapType, ht, Res.err_bind]
  | StructType p fs =>
    cases fs with
    | none => simp [Node.operands, fieldTypes] at hh
    | some l =>
      cases l with
      | nil => simp [Node.operands, fieldTypes] at hh
      | cons g gs =>
        simp only [Node.operands, fieldTypes, List.map_cons, List.head?_cons,
          Option.some.injEq] at hh
        subst hh
        simp only [astExprStep, astStructType, structFieldsLoop, ht, Res.err_bind]

theorem agreeOnValues_refl (args : Args RT RV C) (ev : Evaluator RT RV C) :
    AgreeOnValues args ev ev :=
  fun _ _ hv => hv

theorem Res.failure_eq_err {r : Res RT RV C α} {s : Res RT RV C β} {er : PosError RT RV C}
    (hr : r = .err er) (hs : r.failure = s.failure) : s = .err er := by
  subst hr
  cases s with
  | ok a => simp [Res.failure] at hs
  | err e =>
    simp only [Res.failure, Option.some.injEq, Sum.inl.injEq] at hs
    rw [hs]
  | fault m => simp [Res.failure] at hs

end Propagation

/-! ### Positions of evaluated nodes -/

section Positions
variable [DecidableEq RT] [DecidableEq RV] [DecidableEq C]
variable (h : Host RT RV C) (pkgPath : String)

theorem astExprAsData_ok_eval {ev : Evaluator RT RV C} {c : Node} {args : Args RT RV C}
    {d : Data RT RV C} (hc : astExprAsData ev c args = .ok d) :
    ev c args = .ok (.Datas d) := by
  unfold astExprAsData at hc
  cases hr : ev c args with
  | ok v =>
    rw [hr] at hc
    cases v <;> simp at hc
    rw [hc]
  | err er => rw [hr] at hc; simp at hc
  | fault m => rw [hr] at hc; simp at hc

theorem astExprAsType_ok_eval {ev : Evaluator RT RV C} {c : Node} {args : Args RT RV C}
    {t : RT} (hc : astExprAsType ev c args = .ok t) :
    ev c args = .ok (.Type t) := by
  unfold astExprAsType at hc
  cases hr : ev c args with
  | ok v =>
    rw [hr] at hc
    cases v <;> simp at hc
    rw [hc]
  | err er => rw [hr] at hc; simp at hc
  | fault m => rw [hr] at hc; simp at hc

theorem Res.bind_ok_inv {α β : Type} {r : Res RT RV C α} {f : α → Res RT RV C β} {b : β}
    (hb : (r >>= f) = .ok b) : ∃ a, r = .ok a ∧ f a = .ok b := by
  cases r with
  | ok a => exact ⟨a, rfl, hb⟩
  | err e => simp at hb
  | fault m => simp at hb

theorem astExpr_ok_pos_returns_depth (n : Nat) : ∀ (e : Node) (args : Args RT RV C)
    (v : Value RT RV C), e.depth ≤ n → astExpr h pkgPath e args = .ok v →
    e.posPanics = false := by
  induction n with
  | zero =>
    intro e args v hd he
    cases e <;> first
      | rfl
      | (simp only [Node.depth] at hd; omega)
      | (rw [astExpr_eq] at he; simp [astExprStep] at he)
  | succ n ih =>
    intro e args v hd he
    rw [astExpr_eq] at he
    cases e with
    | nilExpr => simp [astExprStep] at he
    | Ident p nm => rfl
    | BasicLit p k val => rfl
    | ParenExpr p x => rfl
    | StarExpr p x => rfl
    | UnaryExpr p op x => rfl
    | Ellipsis p x => rfl
    | ChanType p d x => rfl
    | FuncType p ps rs => rfl
    | ArrayType p l x => rfl
    | MapType p k val => rfl
    | StructType p fs => rfl
    | InterfaceType p ms => rfl
    | BadExpr p => rfl
    | KeyValueExpr p k val =>
      simp only [astExprStep, astUnsupported] at he
      split at he <;> simp at he
    | FuncLit p t =>
      simp only [astExprStep, astUnsupported] at he
      split at he <;> simp at he
    | SelectorExpr p x sel =>
      simp only [Node.depth] at hd
      simp only [astExprStep, astSelectorExpr] at he
      cases hx : astExpr h pkgPath x args with
      | ok xv => exact ih x args xv (by omega) hx
      | err er => rw [hx] at he; simp at he
      | fault m => rw [hx] at he; simp at he
    | BinaryExpr p x op y =>
      simp only [Node.depth] at hd
      simp only [astExprStep, astBinaryExpr] at he
      obtain ⟨xd, hx, _⟩ := Res.bind_ok_inv he
      exact ih x args _ (by omega) (astExprAsData_ok_eval hx)
    | CallExpr p f as ell =>
      simp only [Node.depth] at hd
      simp only [astExprStep, astCallExpr] at he
      obtain ⟨fv, hf, _⟩ := Res.bind_ok_inv he
      exact ih f args _ (by omega) hf
    | IndexExpr p x i =>
      simp only [Node.depth] at hd
      simp only [astExprStep, astIndexExpr] at he
      obtain ⟨xd, hx, _⟩ := Res.bind_ok_inv he
      exact ih x args _ (by omega) (astExprAsData_ok_eval hx)
    | SliceExpr p x lo hi mx s3 =>
      simp only [Node.depth] at hd
      simp only [astExprStep, astSliceExpr] at he
      obtain ⟨xd, hx, _⟩ := Res.bind_ok_inv he
      exact ih x args _ (by omega) (astExprAsData_ok_eval hx)
    | TypeAssertExpr p x t =>
      simp only [Node.depth] at hd
      simp only [astExprStep, astTypeAssertExpr] at he
      obtain ⟨xd, hx, _⟩ := Res.bind_ok_inv he
      exact ih x args _ (by omega) (astExprAsData_ok_eval hx)
    | CompositeLit p t es =>
      simp only [Node.depth] at hd
      simp only [astExprStep, astCompositeLit] at he
      obtain ⟨vT, hT, _⟩ := Res.bind_ok_inv he
      have ht : t.depth ≤ n := by
        have := le_max_left t.depth (depthList es)
        omega
      cases t
      case nilExpr => rfl
      case ArrayType tp len aElt => rfl
      all_goals
        simp only [compositeLitType] at hT
        have key := ih _ args _ ht (astExprAsType_ok_eval hT)
        exact key

/-- A node that evaluates to a value has a position: the method Pos() returns on
it, for the child it reads its position from has been evaluated to a value. -/
theorem astExpr_ok_pos_returns (e : Node) (args : Args RT RV C) (v : Value RT RV C)
    (he : astExpr h pkgPath e args = .ok v) : e.posPanics = false :=
  astExpr_ok_pos_returns_depth h pkgPath e.depth e args v (le_refl _) he

end Positions

/-! ### Identifiers -/

section Claims

variable [DecidableEq RT] [DecidableEq RV] [DecidableEq C]
variable (h : Host RT RV C) (pkgPath : String)

/-- C1: whatever the binding environment holds, also a binding of the names
true, false or nil, astIdent resolves the identifier true to the untyped boolean
constant true, false to the untyped boolean constant false and nil to the nil
data value, each without error (so never to the binding of that name); the same
holds through the dispatcher astExpr. -/
theorem astIdent_reserved_names (pos : Pos) (args : Args RT RV C) :
    astIdent h pos "true" args = .ok (MakeDataUntypedConst (h.makeBool true)) ∧
    astIdent h pos "false" args = .ok (MakeDataUntypedConst (h.makeBool false)) ∧
    astIdent h pos "nil" args = .ok MakeDataNil ∧
    astExpr h pkgPath (.Ident pos "true") args = .ok (MakeDataUntypedConst (h.makeBool true)) ∧
    astExpr h pkgPath (.Ident pos "false") args = .ok (MakeDataUntypedConst (h.makeBool false)) ∧
    astExpr h pkgPath (.Ident pos "nil") args = .ok MakeDataNil := by
  refine ⟨rfl, rfl, rfl, rfl, rfl, rfl⟩

/-- C2: for a name other than true, false and nil, astIdent resolves in a fixed
order: a built-in function name gives the built-in function whatever Args binds;
otherwise a built-in type name gives that type whatever Args binds; otherwise
the binding of Args when there is one; and the result is an error exactly when
the name is in none of the three, the error then being undefined identifier at
the position of the identifier. -/
theorem astIdent_resolution_order (pos : Pos) (name : String) (args : Args RT RV C)
    (hn : name ≠ "true" ∧ name ≠ "false" ∧ name ≠ "nil") :
    (h.isBuiltInFunc name = true → astIdent h pos name args = .ok (MakeBuiltInFunc name)) ∧
    (h.isBuiltInFunc name = false → h.isBuiltInType name = true →
      astIdent h pos name args = .ok (MakeType (h.builtInTypes name))) ∧
    (∀ v, h.isBuiltInFunc name = false → h.isBuiltInType name = false → args name = some v →
      astIdent h pos name args = .ok v) ∧
    ((∃ e, astIdent h pos name args = .err e) ↔
      (h.isBuiltInFunc name = false ∧ h.isBuiltInType name = false ∧ args name = none)) ∧
    (h.isBuiltInFunc name = false → h.isBuiltInType name = false → args name = none →
      astIdent h pos name args = .err ⟨.identUndefined name, pos⟩) := by
  obtain ⟨h1, h2, h3⟩ := hn
  refine ⟨?_, ?_, ?_, ?_, ?_⟩
  · intro hf
    simp [astIdent, h1, h2, h3, hf]
  · intro hf ht
    simp [astIdent, h1, h2, h3, hf, ht]
  · intro v hf ht hv
    simp [astIdent, h1, h2, h3, hf, ht, hv]
  · constructor
    · rintro ⟨e, he⟩
      cases hf : h.isBuiltInFunc name
      · cases ht : h.isBuiltInType name
        · cases hv : args name with
          | none => exact ⟨rfl, rfl, rfl⟩
          | some v => simp [astIdent, h1, h2, h3, hf, ht, hv] at he
        · simp [astIdent, h1, h2, h3, hf, ht] at he
      · simp [astIdent, h1, h2, h3, hf] at he
    · rintro ⟨hf, ht, hv⟩
      exact ⟨⟨.identUndefined name, pos⟩, by simp [astIdent, h1, h2, h3, hf, ht, hv]⟩
  · intro hf ht hv
    simp [astIdent, h1, h2, h3, hf, ht, hv]

/-- Witness of C2: the name len is a built-in function of the concrete host and
is bound in the environment; it resolves to the built-in function. -/
theorem astIdent_resolution_order_witness :
    demoArgs "len" = some (.Datas (.Regular (.int 9))) ∧
    astIdent demoHost 3 "len" demoArgs = .ok (MakeBuiltInFunc "len") :=
  ⟨rfl, (astIdent_resolution_order demoHost 3 "len" demoArgs
    ⟨by decide, by decide, by decide⟩).1 rfl⟩

/-! ### Dispatcher -/

/-- C3 is not met by the code on hand-built nodes. On a non-nil node of a kind
the dispatcher does not list (a key:value pair, a function literal, a bad
expression) and for every Args: (1) when the method Pos() returns on the node,
astExpr returns the unsupported syntax error positioned at the node, no value
and no fault; (2) when the method Pos() panics on the node, as on a key:value
pair without key or a function literal without type, astExpr faults with that
panic, for invAstUnsupportedError(e).pos(e) reads the position of the node and
nothing recovers the panic. -/
theorem astExpr_unsupported_kind (e : Node) (args : Args RT RV C)
    (hnil : e ≠ .nilExpr) (hk : e.supported = false) :
    (e.posPanics = false →
      astExpr h pkgPath e args = .err ⟨.invAstUnsupported e, e.pos⟩) ∧
    (e.posPanics = true →
      astExpr h pkgPath e args
        = .fault "runtime error: invalid memory address or nil pointer dereference") := by
  rw [astExpr_eq]
  cases e <;> first
    | exact absurd rfl hnil
    | (simp [Node.supported] at hk; done)
    | (refine ⟨fun hp => ?_, fun hp => ?_⟩ <;> simp only [astExprStep, astUnsupported, hp] <;>
        simp)

/-- The failing input of C3: the key:value pair built by hand without key and
value faults, where a function literal with a type gives the error at its
position. -/
theorem astExpr_unsupported_kind_witness :
    astExpr demoHost "pkg" (.FuncLit 4 (.FuncType 4 none none)) demoArgs
      = .err ⟨.invAstUnsupported (.FuncLit 4 (.FuncType 4 none none)), 4⟩ ∧
    astExpr demoHost "pkg" (.KeyValueExpr 0 .nilExpr .nilExpr) demoArgs
      = .fault "runtime error: invalid memory address or nil pointer dereference" ∧
    astExpr demoHost "pkg" (.FuncLit 0 .nilExpr) demoArgs
      = .fault "runtime error: invalid memory address or nil pointer dereference" :=
  ⟨(astExpr_unsupported_kind demoHost "pkg" (.FuncLit 4 (.FuncType 4 none none)) demoArgs
      (by intro hc; cases hc) rfl).1 rfl,
   (astExpr_unsupported_kind demoHost "pkg" (.KeyValueExpr 0 .nilExpr .nilExpr) demoArgs
      (by intro hc; cases hc) rfl).2 rfl,
   (astExpr_unsupported_kind demoHost "pkg" (.FuncLit 0 .nilExpr) demoArgs
      (by intro hc; cases hc) rfl).2 rfl⟩

/-! ### Selectors -/

/-- Try-order of astSelectorExpr on Regular data, for the lookups that return:
the first hit in the order (1) method of the pointer, when the value is a
pointer; (2) visible field of the struct reached after dereferencing a pointer;
(3) method of the dereferenced value; and the undefined identifier error,
positioned at the selector, exactly when the three lookups return without a hit.
A lookup misses when it returns the invalid Value; a lookup that panics is
neither a hit nor a miss. In particular (1) does not look at the fields: a
pointer with a method M gives the method also when the struct has a field M. -/
theorem astSelectorExpr_try_order (pos : Pos) (x : Node) (sp : Pos) (name : String)
    (args : Args RT RV C) (xV : RV)
    (hx : astExpr h pkgPath x args = .ok (.Datas (.Regular xV))) :
    (∀ m, h.kind xV = Kind.Ptr → h.methodByName xV name = .ok m → h.isValid m = true →
      astExpr h pkgPath (.SelectorExpr pos x (some ⟨sp, name⟩)) args = .ok (MakeDataRegular m)) ∧
    ((h.kind xV = Kind.Ptr → ∃ m, h.methodByName xV name = .ok m ∧ h.isValid m = false) →
      h.kind (derefValue h xV) = Kind.Struct →
      h.isValid (h.fieldByName (derefValue h xV) name pkgPath) = true →
      astExpr h pkgPath (.SelectorExpr pos x (some ⟨sp, name⟩)) args
        = .ok (MakeDataRegular (h.fieldByName (derefValue h xV) name pkgPath))) ∧
    (∀ m, (h.kind xV = Kind.Ptr → ∃ m, h.methodByName xV name = .ok m ∧ h.isValid m = false) →
      ¬ (h.kind (derefValue h xV) = Kind.Struct ∧
          h.isValid (h.fieldByName (derefValue h xV) name pkgPath) = true) →
      h.methodByName (derefValue h xV) name = .ok m → h.isValid m = true →
      astExpr h pkgPath (.SelectorExpr pos x (some ⟨sp, name⟩)) args = .ok (MakeDataRegular m)) ∧
    (astExpr h pkgPath (.SelectorExpr pos x (some ⟨sp, name⟩)) args
        = .err ⟨.identUndefined ("." ++ name), pos⟩ ↔
      ((h.kind xV = Kind.Ptr → ∃ m, h.methodByName xV name = .ok m ∧ h.isValid m = false) ∧
        ¬ (h.kind (derefValue h xV) = Kind.Struct ∧
          h.isValid (h.fieldByName (derefValue h xV) name pkgPath) = true) ∧
        ∃ m, h.methodByName (derefValue h xV) name = .ok m ∧ h.isValid m = false)) := by
  have hsel : astExpr h pkgPath (.SelectorExpr pos x (some ⟨sp, name⟩)) args
      = selectorRegular h pkgPath pos name xV := by
    rw [astExpr_eq]
    simp only [astExprStep, astSelectorExpr, hx]
  rw [hsel]
  unfold selectorRegular selectorAfterDeref derefValue
  by_cases hp : h.kind xV = Kind.Ptr
  · simp only [hp, if_true]
    cases hm : h.methodByName xV name with
    | error msg => simp
    | ok m0 =>
      cases hv : h.isValid m0
      · by_cases hf : h.kind (h.elem xV) = Kind.Struct ∧
            h.isValid (h.fieldByName (h.elem xV) name pkgPath) = true
        · simp [hv, hf, MakeDataRegular]
        · have hf2 : h.kind (h.elem xV) = Kind.Struct →
              h.isValid (h.fieldByName (h.elem xV) name pkgPath) = false := by simpa using hf
          cases hm2 : h.methodByName (h.elem xV) name with
          | error msg => simp [hv, hf] <;> first | exact hf2 | (intro ha hb; exact absurd ⟨ha, hb⟩ hf)
          | ok m1 =>
            cases hv1 : h.isValid m1
            · simp [hv, hf, hv1] <;> first | exact hf2 | (intro ha hb; exact absurd ⟨ha, hb⟩ hf)
            · simp [hv, hf, hv1, MakeDataRegular] <;> first | exact hf2 | (intro ha hb; exact absurd ⟨ha, hb⟩ hf)
      · simp [hv, MakeDataRegular]
  · simp only [hp, if_false]
    by_cases hf : h.kind xV = Kind.Struct ∧ h.isValid (h.fieldByName xV name pkgPath) = true
    · simp [hf, MakeDataRegular]
    · have hf2 : h.kind xV = Kind.Struct →
          h.isValid (h.fieldByName xV name pkgPath) = false := by simpa using hf
      cases hm2 : h.methodByName xV name with
      | error msg => simp [hf] <;> first | exact hf2 | (intro ha hb; exact absurd ⟨ha, hb⟩ hf)
      | ok m1 =>
        cases hv1 : h.isValid m1
        · simp [hf, hv1] <;> first | exact hf2 | (intro ha hb; exact absurd ⟨ha, hb⟩ hf)
        · simp [hf, hv1, MakeDataRegular] <;> first | exact hf2 | (intro ha hb; exact absurd ⟨ha, hb⟩ hf)

/-- The try-order at work: p is a pointer to the struct S, which has the field M,
and the pointer has the method M: p.M is the method. -/
theorem astSelectorExpr_try_order_witness :
    demoHost.isValid (demoHost.fieldByName (demoHost.elem .ptrS) "M" "pkg") = true ∧
    astExpr demoHost "pkg" (.SelectorExpr 1 (.Ident 3 "p") (some ⟨4, "M"⟩)) demoArgs
      = .ok (MakeDataRegular (.method true "M")) :=
  ⟨rfl, (astSelectorExpr_try_order demoHost "pkg" 1 (.Ident 3 "p") 4 "M" demoArgs .ptrS rfl).1
    (.method true "M") rfl rfl rfl⟩

/-- C4 fails on a nil pointer: q is a nil pointer to S and Z is neither a method
nor a field. The pointer has no method Z, dereferencing it gives the zero Value,
which is no struct, and the last method lookup panics on the zero Value: all
three lookups find nothing, yet astSelectorExpr returns no undefined identifier
error, it faults. -/
theorem astSelectorExpr_nil_pointer_fault :
    astExpr demoHost "pkg" (.Ident 3 "q") demoArgs = .ok (.Datas (.Regular .nilPtrS)) ∧
    demoHost.kind .nilPtrS = Kind.Ptr ∧
    demoHost.methodByName .nilPtrS "Z" = .ok .invalid ∧
    demoHost.elem .nilPtrS = .invalid ∧
    demoHost.kind .invalid = Kind.Invalid ∧
    astExpr demoHost "pkg" (.SelectorExpr 1 (.Ident 3 "q") (some ⟨4, "Z"⟩)) demoArgs
      = .fault "reflect: call of reflect.Value.MethodByName on zero Value" :=
  ⟨rfl, rfl, rfl, rfl, rfl, rfl⟩

/-! ### Composite literals: struct -/

theorem structKeysLoop_ok_all_keyed {ev : Evaluator RT RV C} (litPos : Pos) (args : Args RT RV C)
    (l : List Node) : ∀ (m m2 : GoMap String (Data RT RV C)),
    structKeysLoop ev litPos args l m = .ok m2 → ∀ e ∈ l, e.isKeyValue = true := by
  induction l with
  | nil => intro m m2 _ e he; cases he
  | cons a as ih =>
    intro m m2 hm e he
    cases a <;> try (simp [structKeysLoop] at hm; done)
    case KeyValueExpr kp key value =>
      rcases List.mem_cons.mp he with rfl | he2
      · rfl
      · cases key <;> try (simp [structKeysLoop] at hm; done)
        case Ident ip name =>
          simp only [structKeysLoop] at hm
          cases hd : astExprAsData ev value args with
          | ok d =>
            rw [hd] at hm
            exact ih _ _ hm e he2
          | err er => rw [hd] at hm; simp at hm
          | fault msg => rw [hd] at hm; simp at hm

theorem structOrderedLoop_ok_none_keyed {ev : Evaluator RT RV C} (litPos : Pos)
    (args : Args RT RV C) (l : List Node) : ∀ (ds : List (Data RT RV C)),
    structOrderedLoop ev litPos args l = .ok ds → ∀ e ∈ l, e.isKeyValue = false := by
  induction l with
  | nil => intro ds _ e he; cases he
  | cons a as ih =>
    intro ds hm e he
    have hrest : ∀ ds2, structOrderedLoop ev litPos args as = .ok ds2 →
        ∀ e ∈ as, e.isKeyValue = false := ih
    cases a
    case KeyValueExpr kp key value => simp [structOrderedLoop] at hm
    all_goals
      simp only [structOrderedLoop] at hm
      rcases List.mem_cons.mp he with rfl | he2
      · rfl
      · revert hm
        cases astExprAsData ev _ args with
        | ok d =>
          cases hr : structOrderedLoop ev litPos args as with
          | ok ds2 => intro _; exact hrest ds2 hr e he2
          | err er => simp
          | fault msg => simp
        | err er => simp
        | fault msg => simp

theorem structKeysLoop_ne_fault {ev : Evaluator RT RV C} (litPos : Pos) (args : Args RT RV C)
    (l : List Node) (hl : ∀ e ∈ l, ∀ msg, ev (eltValue e) args ≠ .fault msg) :
    ∀ (m : GoMap String (Data RT RV C)) (msg : String),
      structKeysLoop ev litPos args l m ≠ .fault msg := by
  induction l with
  | nil => intro m msg; simp [structKeysLoop]
  | cons a as ih =>
    intro m msg
    have has := ih (fun e he => hl e (List.mem_cons_of_mem _ he))
    have ha := hl a (List.mem_cons_self _ _)
    cases a <;> try (simp [structKeysLoop]; done)
    case KeyValueExpr kp key value =>
      cases key <;> try (simp [structKeysLoop]; done)
      case Ident ip name =>
        simp only [structKeysLoop]
        have hv := astExprAsData_ne_fault (fun m2 => ha m2)
        simp only [eltValue] at hv
        cases hd : astExprAsData ev value args with
        | ok d => simpa using has _ msg
        | err er => simp
        | fault m2 => exact absurd hd (hv m2)

theorem structOrderedLoop_ne_fault {ev : Evaluator RT RV C} (litPos : Pos) (args : Args RT RV C)
    (l : List Node) (hl : ∀ e ∈ l, ∀ msg, ev (eltValue e) args ≠ .fault msg) :
    ∀ (msg : String), structOrderedLoop ev litPos args l ≠ .fault msg := by
  induction l with
  | nil => intro msg; simp [structOrderedLoop]
  | cons a as ih =>
    intro msg
    have has := ih (fun e he => hl e (List.mem_cons_of_mem _ he))
    have ha := hl a (List.mem_cons_self _ _)
    cases a
    case KeyValueExpr kp key value => simp [structOrderedLoop]
    all_goals
      simp only [structOrderedLoop]
      have hv := astExprAsData_ne_fault (fun m2 => ha m2)
      simp only [eltValue] at hv
      revert hv
      cases astExprAsData ev _ args with
      | ok d =>
        intro _
        cases hr : structOrderedLoop ev litPos args as with
        | ok ds2 => simp
        | err er => simp
        | fault m2 => exact absurd hr (has m2)
      | err er => simp
      | fault m2 => intro hv; exact absurd rfl (hv m2)

/-- The struct case of astCompositeLit once the type is resolved. -/
theorem astCompositeLit_struct_eq (pos : Pos) (type : Node) (elts : List Node)
    (args : Args RT RV C) (vT : RT)
    (hT : compositeLitType h (astExpr h pkgPath) type elts args = .ok vT)
    (hk : h.typeKind vT = Kind.Struct) :
    astExpr h pkgPath (.CompositeLit pos type elts) args =
      if withKeys elts = true then
        (structKeysLoop (astExpr h pkgPath) pos args elts [] >>= fun m =>
          (h.compositeLitStructKeys vT m pkgPath).pos pos)
      else
        (structOrderedLoop (astExpr h pkgPath) pos args elts >>= fun l =>
          (h.compositeLitStructOrdered vT l pkgPath).pos pos) := by
  rw [astExpr_eq]
  simp only [astExprStep, astCompositeLit, hT, Res.ok_bind, hk]

/-- C5: in a composite literal whose type resolves to a struct type and whose
elements hold both a key:value pair and an element that is no key:value pair,
astCompositeLit never returns a value, and it returns an error whenever the
evaluation of no element value panics; neither loop over the elements completes,
so neither struct builder is called on a mixed list. -/
theorem astCompositeLit_struct_mixed (pos : Pos) (type : Node) (elts : List Node)
    (args : Args RT RV C) (vT : RT)
    (hT : compositeLitType h (astExpr h pkgPath) type elts args = .ok vT)
    (hk : h.typeKind vT = Kind.Struct)
    (hkv : ∃ e ∈ elts, e.isKeyValue = true) (hnkv : ∃ e ∈ elts, e.isKeyValue = false) :
    (∀ v, astExpr h pkgPath (.CompositeLit pos type elts) args ≠ .ok v) ∧
    ((∀ e ∈ elts, ∀ msg, astExpr h pkgPath (eltValue e) args ≠ .fault msg) →
      ∃ er, astExpr h pkgPath (.CompositeLit pos type elts) args = .err er) ∧
    (∀ m, structKeysLoop (astExpr h pkgPath) pos args elts [] ≠ .ok m) ∧
    (∀ l, structOrderedLoop (astExpr h pkgPath) pos args elts ≠ .ok l) := by
  obtain ⟨e1, he1, hk1⟩ := hkv
  obtain ⟨e2, he2, hk2⟩ := hnkv
  have hkeys : ∀ m, structKeysLoop (astExpr h pkgPath) pos args elts [] ≠ .ok m := by
    intro m hm
    have := structKeysLoop_ok_all_keyed pos args elts [] m hm e2 he2
    rw [hk2] at this
    cases this
  have hord : ∀ l, structOrderedLoop (astExpr h pkgPath) pos args elts ≠ .ok l := by
    intro l hl
    have := structOrderedLoop_ok_none_keyed pos args elts l hl e1 he1
    rw [hk1] at this
    cases this
  rw [astCompositeLit_struct_eq h pkgPath pos type elts args vT hT hk]
  refine ⟨?_, ?_, hkeys, hord⟩
  · intro v
    split
    · exact Res.bind_ne_ok _ _ hkeys v
    · exact Res.bind_ne_ok _ _ hord v
  · intro hnf
    split
    · exact Res.bind_err_of_not_ok_not_fault _ _ hkeys
        (structKeysLoop_ne_fault pos args elts hnf [])
    · exact Res.bind_err_of_not_ok_not_fault _ _ hord
        (structOrderedLoop_ne_fault pos args elts hnf)

/-- Witness of C5: the literal S{F: a, b} is rejected with the mixture error. -/
theorem astCompositeLit_struct_mixed_witness :
    astExpr demoHost "pkg" (.CompositeLit 1 (.Ident 1 "S")
        [.KeyValueExpr 3 (.Ident 3 "F") (.Ident 5 "a"), .Ident 8 "b"]) demoArgs
      = .err ⟨.initMix, 1⟩ ∧
    ∀ v, astExpr demoHost "pkg" (.CompositeLit 1 (.Ident 1 "S")
        [.KeyValueExpr 3 (.Ident 3 "F") (.Ident 5 "a"), .Ident 8 "b"]) demoArgs ≠ .ok v :=
  ⟨rfl, (astCompositeLit_struct_mixed demoHost "pkg" 1 (.Ident 1 "S")
    [.KeyValueExpr 3 (.Ident 3 "F") (.Ident 5 "a"), .Ident 8 "b"] demoArgs .structS rfl rfl
    ⟨_, List.mem_cons_self _ _, rfl⟩
    ⟨_, List.mem_cons_of_mem _ (List.mem_cons_self _ _), rfl⟩).1⟩

/-! ### Composite literals: array type written with an ellipsis -/

theorem astExpr_Ellipsis_ne_data (p : Pos) (x : Node) (args : Args RT RV C)
    (l : Data RT RV C) : astExpr h pkgPath (.Ellipsis p x) args ≠ .ok (.Datas l) := by
  rw [astExpr_eq]
  simp only [astExprStep, astEllipsis]
  cases astExprAsType (astExpr h pkgPath) x args <;> simp [MakeType]

/-- Method astArrayType on a length expression that evaluates to a constant,
typed or untyped, accepted as the length n: the element type, then the call of
the array builder. -/
theorem astArrayType_const_len (tpos : Pos) (lenNode T : Node) (args : Args RT RV C)
    (l : Data RT RV C) (n : Int) (hn : 0 ≤ n)
    (hlen : astExpr h pkgPath lenNode args = .ok (.Datas l))
    (hl : (∃ c, l = .UntypedConst c ∧ h.intVal c = (n, true)) ∨
      (∃ ty c, l = .TypedConst ty c ∧ h.tcAssignableTo ty c h.typeInt = true ∧
        h.intVal c = (n, true))) :
    astExpr h pkgPath (.ArrayType tpos lenNode T) args =
      (astExprAsType (astExpr h pkgPath) T args >>= fun t =>
        arrayOfCall h n t >>= fun rT => .ok (MakeType rT)) := by
  have hnil : lenNode ≠ .nilExpr := by
    rintro rfl
    rw [astExpr_eq] at hlen
    simp [astExprStep] at hlen
  have hd : astExprAsData (astExpr h pkgPath) lenNode args = .ok l := by
    simp only [astExprAsData, hlen]
  have hneg : ¬ n < 0 := not_lt.mpr hn
  rw [astExpr_eq]
  simp only [astExprStep, astArrayType]
  cases astExprAsType (astExpr h pkgPath) T args with
  | err er => rfl
  | fault msg => rfl
  | ok t =>
    simp only [Res.ok_bind]
    rcases hl with ⟨c, rfl, hc⟩ | ⟨ty, c, rfl, hty, hc⟩
    · cases lenNode <;> first
        | exact absurd rfl hnil
        | (simp only [hd, hc, arrayOfLen, hneg, Res.ok_bind, Bool.not_true, if_false]
           first | rfl | simp)
    · cases lenNode <;> first
        | exact absurd rfl hnil
        | (simp only [hd, hc, hty, arrayOfLen, hneg, Res.ok_bind, Bool.not_true, Bool.or_self,
             if_false]
           first | rfl | simp)

/-- C6: a composite literal whose type is written with an ellipsis, [...]T, gives
the same outcome (the same value, the same error) as the same element list
under the explicit type [n]T, where the length expression evaluates to a
constant accepted as n and n is the number of elements; and when T resolves to
t the target type is what the array builder gives for the length n over t (the
builder is called outside any recover, so its panic is a fault of both forms). -/
theorem astCompositeLit_ellipsis_array (pos tpos epos : Pos) (eElt lenNode T : Node)
    (elts : List Node) (args : Args RT RV C) (l : Data RT RV C)
    (hlen : astExpr h pkgPath lenNode args = .ok (.Datas l))
    (hl : (∃ c, l = .UntypedConst c ∧ h.intVal c = ((elts.length : Int), true)) ∨
      (∃ ty c, l = .TypedConst ty c ∧ h.tcAssignableTo ty c h.typeInt = true ∧
        h.intVal c = ((elts.length : Int), true))) :
    astExpr h pkgPath (.CompositeLit pos (.ArrayType tpos (.Ellipsis epos eElt) T) elts) args
      = astExpr h pkgPath (.CompositeLit pos (.ArrayType tpos lenNode T) elts) args ∧
    (∀ t, astExpr h pkgPath T args = .ok (.Type t) →
      compositeLitType h (astExpr h pkgPath) (.ArrayType tpos (.Ellipsis epos eElt) T) elts args
        = arrayOfCall h (elts.length : Int) t) := by
  have harr := astArrayType_const_len h pkgPath tpos lenNode T args l (elts.length : Int)
    (Int.natCast_nonneg _) hlen hl
  have hty : compositeLitType h (astExpr h pkgPath) (.ArrayType tpos lenNode T) elts args
      = compositeLitType h (astExpr h pkgPath) (.ArrayType tpos (.Ellipsis epos eElt) T)
          elts args := by
    have hgen : compositeLitType h (astExpr h pkgPath) (.ArrayType tpos lenNode T) elts args
        = astExprAsType (astExpr h pkgPath) (.ArrayType tpos lenNode T) args := by
      cases lenNode <;> first
        | rfl
        | exact absurd hlen (astExpr_Ellipsis_ne_data h pkgPath _ _ args l)
    rw [hgen]
    simp only [compositeLitType, astExprAsType, harr]
    cases hT : astExpr h pkgPath T args with
    | ok v =>
      cases v <;> first
        | (rename_i t
           cases hr : arrayOfCall h (elts.length : Int) t <;> simp_all [MakeType])
        | simp
    | err er => simp
    | fault msg => simp
  refine ⟨?_, ?_⟩
  · rw [astExpr_eq, astExpr_eq (e := .CompositeLit pos (.ArrayType tpos lenNode T) elts)]
    simp only [astExprStep, astCompositeLit, hty, Node.pos]
  · intro t ht
    simp [compositeLitType, astExprAsType, ht]

/-- Witness of C6: [...]int{a, b} against [2]int{a, b}. -/
theorem astCompositeLit_ellipsis_array_witness :
    astExpr demoHost "pkg" (.CompositeLit 1 (.ArrayType 1 (.Ellipsis 2 .nilExpr) (.Ident 5 "int"))
        [.Ident 9 "a", .Ident 12 "b"]) demoArgs
      = astExpr demoHost "pkg" (.CompositeLit 1 (.ArrayType 1 (.BasicLit 2 5 "2") (.Ident 5 "int"))
        [.Ident 9 "a", .Ident 12 "b"]) demoArgs ∧
    astExpr demoHost "pkg" (.CompositeLit 1 (.ArrayType 1 (.Ellipsis 2 .nilExpr) (.Ident 5 "int"))
        [.Ident 9 "a", .Ident 12 "b"]) demoArgs
      = .ok (.Datas (.Regular (.arr (.array 2 .int) [0, 1]))) :=
  ⟨(astCompositeLit_ellipsis_array demoHost "pkg" 1 1 2 .nilExpr (.BasicLit 2 5 "2")
      (.Ident 5 "int") [.Ident 9 "a", .Ident 12 "b"] demoArgs (.UntypedConst (.int 2)) rfl
      (Or.inl ⟨_, rfl, rfl⟩)).1, rfl⟩

/-! ### Composite literals: array and slice -/

theorem GoMap.get_set_self {K V : Type} [DecidableEq K] (m : GoMap K V) (k : K) (v : V) :
    (GoMap.set m k v).get k = some v := by
  induction m with
  | nil => simp [GoMap.set, GoMap.get]
  | cons a as ih =>
    obtain ⟨k1, v1⟩ := a
    by_cases hk : k1 = k
    · simp [GoMap.set, GoMap.get, hk]
    · simp [GoMap.set, GoMap.get, hk, ih]

theorem GoMap.get_set_ne {K V : Type} [DecidableEq K] (m : GoMap K V) (k k2 : K) (v : V)
    (hne : k2 ≠ k) : (GoMap.set m k v).get k2 = m.get k2 := by
  induction m with
  | nil => simp [GoMap.set, GoMap.get, Ne.symm hne]
  | cons a as ih =>
    obtain ⟨k1, v1⟩ := a
    by_cases hk : k1 = k
    · subst hk
      simp [GoMap.set, GoMap.get, Ne.symm hne]
    · by_cases hk2 : k1 = k2
      · subst hk2
        simp [GoMap.set, GoMap.get, hk]
      · simp [GoMap.set, GoMap.get, hk, hk2, ih]

theorem GoMap.set_of_get_none {K V : Type} [DecidableEq K] (m : GoMap K V) (k : K) (v : V)
    (hm : m.get k = none) : GoMap.set m k v = m ++ [(k, v)] := by
  induction m with
  | nil => rfl
  | cons a as ih =>
    obtain ⟨k1, v1⟩ := a
    by_cases hk : k1 = k
    · simp [GoMap.get, hk] at hm
    · simp only [GoMap.get, hk, if_false] at hm
      simp [GoMap.set, hk, ih hm]

theorem wrapInt_succ (i : Int) (h0 : 0 ≤ i) (h1 : i < maxInt) : wrapInt (i + 1) = i + 1 := by
  unfold maxInt at h1
  unfold wrapInt
  omega

/-- The index a key stands for is accepted exactly for an untyped constant, or a
typed constant of type int, that IntVal converts to a non-negative int. -/
theorem arrayKeyIndex_ok_iff (kvePos : Pos) (v : Data RT RV C) (k : Int) :
    arrayKeyIndex h kvePos v = .ok k ↔
      ((∃ c, v = .UntypedConst c ∧ h.intVal c = (k, true)) ∨
        (∃ c, v = .TypedConst h.typeInt c ∧ h.intVal c = (k, true))) ∧ 0 ≤ k := by
  cases v with
  | Nil => simp [arrayKeyIndex]
  | Regular r => simp [arrayKeyIndex]
  | UntypedConst c =>
    rcases hc : h.intVal c with ⟨i, b⟩
    cases b <;> by_cases hi : i < 0 <;> simp [arrayKeyIndex, hc, hi] <;> intro hik <;> omega
  | TypedConst ty c =>
    rcases hc : h.intVal c with ⟨i, b⟩
    by_cases hty : ty = h.typeInt
    · cases b <;> by_cases hi : i < 0 <;> simp [arrayKeyIndex, hc, hi, hty] <;> intro hik <;> omega
    · simp [arrayKeyIndex, hty]

theorem arrayEltEval_key_nonneg {ev : Evaluator RT RV C} (args : Args RT RV C) (e : Node)
    (k : Int) (d : Data RT RV C) (he : arrayEltEval h ev args e = .ok (some k, d)) : 0 ≤ k := by
  cases e
  case KeyValueExpr kp key value =>
    simp only [arrayEltEval] at he
    cases hv : astExprAsData ev key args with
    | ok v =>
      rw [hv] at he
      simp only [Res.ok_bind] at he
      cases hi : arrayKeyIndex h kp v with
      | ok idx =>
        rw [hi] at he
        simp only [Res.ok_bind] at he
        cases hd : astExprAsData ev value args with
        | ok d2 =>
          rw [hd] at he
          simp only [Res.ok_bind, Res.pure_eq, Res.ok.injEq, Prod.mk.injEq, Option.some.injEq] at he
          rw [← he.1]
          exact ((arrayKeyIndex_ok_iff h kp v idx).mp hi).2
        | err er => rw [hd] at he; simp at he
        | fault msg => rw [hd] at he; simp at he
      | err er => rw [hi] at he; simp at he
      | fault msg => rw [hi] at he; simp at he
    | err er => rw [hv] at he; simp at he
    | fault msg => rw [hv] at he; simp at he
  all_goals
    simp only [arrayEltEval] at he
    revert he
    cases astExprAsData ev _ args <;> simp

/-- One turn of the loop over an array or slice literal on an element that
evaluates: the duplicate check on its index, then the write and the increment. -/
theorem arrayLoop_cons_eval {ev : Evaluator RT RV C} (args : Args RT RV C) (e : Node)
    (rest : List Node) (m : GoMap Int (Data RT RV C)) (next : Int) (ko : Option Int)
    (d : Data RT RV C) (he : arrayEltEval h ev args e = .ok (ko, d)) :
    arrayLoop h ev args (e :: rest) m next =
      if (m.get (ko.getD next)).isSome = true then
        .err ⟨.initArrayDupIndex (ko.getD next), e.pos⟩
      else arrayLoop h ev args rest (m.set (ko.getD next) d) (wrapInt (ko.getD next + 1)) := by
  cases e
  case KeyValueExpr kp key value =>
    simp only [arrayEltEval] at he
    cases hv : astExprAsData ev key args with
    | ok v =>
      rw [hv] at he
      simp only [Res.ok_bind] at he
      cases hi : arrayKeyIndex h kp v with
      | ok idx =>
        rw [hi] at he
        simp only [Res.ok_bind] at he
        cases hd : astExprAsData ev value args with
        | ok d2 =>
          rw [hd] at he
          simp only [Res.ok_bind, Res.pure_eq, Res.ok.injEq, Prod.mk.injEq] at he
          obtain ⟨rfl, rfl⟩ := he
          simp [arrayLoop, hv, hi, hd, Node.pos]
        | err er => rw [hd] at he; simp at he
        | fault msg => rw [hd] at he; simp at he
      | err er => rw [hi] at he; simp at he
      | fault msg => rw [hi] at he; simp at he
    | err er => rw [hv] at he; simp at he
    | fault msg => rw [hv] at he; simp at he
  all_goals
    simp only [arrayEltEval] at he
    simp only [arrayLoop]
    revert he
    cases astExprAsData ev _ args with
    | ok d2 =>
      intro he
      simp only [Res.ok_bind, Res.pure_eq, Res.ok.injEq, Prod.mk.injEq] at he
      obtain ⟨rfl, rfl⟩ := he
      simp
    | err er => simp
    | fault msg => simp

theorem assignedIndices_length (ks : List (Option Int)) : ∀ next,
    (assignedIndices ks next).length = ks.length := by
  induction ks with
  | nil => intro next; rfl
  | cons k ks ih => intro next; simp [assignedIndices, ih]

/-- The loop over an array or slice literal whose elements all evaluate, when the
assigned indices are pairwise different and not yet in the map: every element is
written at its assigned index. -/
theorem arrayLoop_fresh {ev : Evaluator RT RV C} (args : Args RT RV C)
    (elts : List Node) (rs : List (Option Int × Data RT RV C))
    (hev : List.Forall₂ (fun e r => arrayEltEval h ev args e = .ok r) elts rs) :
    ∀ (m : GoMap Int (Data RT RV C)) (next : Int), 0 ≤ next →
      (∀ i ∈ assignedIndices (rs.map Prod.fst) next, i < maxInt) →
      (assignedIndices (rs.map Prod.fst) next).Nodup →
      (∀ i ∈ assignedIndices (rs.map Prod.fst) next, m.get i = none) →
      arrayLoop h ev args elts m next
        = .ok (m ++ (assignedIndices (rs.map Prod.fst) next).zip (rs.map Prod.snd)) := by
  induction hev with
  | nil => intro m next _ _ _ _; simp [arrayLoop, assignedIndices]
  | @cons e r elts rs he _ ih =>
    intro m next hnext hmax hnd hfresh
    obtain ⟨ko, d⟩ := r
    simp only [List.map_cons, assignedIndices, List.mem_cons, forall_eq_or_imp,
      List.nodup_cons] at hmax hnd hfresh
    have hidx : 0 ≤ ko.getD next := by
      cases ko with
      | none => exact hnext
      | some k => exact arrayEltEval_key_nonneg h args e k d he
    rw [arrayLoop_cons_eval h args e elts m next ko d he]
    simp only [hfresh.1, Option.isSome_none, Bool.false_eq_true, if_false]
    rw [wrapInt_succ _ hidx hmax.1, GoMap.set_of_get_none m _ d hfresh.1]
    rw [ih (m ++ [(ko.getD next, d)]) (ko.getD next + 1) (by omega) hmax.2 hnd.2]
    · simp [assignedIndices]
    · intro i hi
      have hne : i ≠ ko.getD next := fun hc => hnd.1 (hc ▸ hi)
      rw [← GoMap.set_of_get_none m _ d hfresh.1, GoMap.get_set_ne _ _ _ _ hne]
      exact hfresh.2 i hi

/-- The loop over an array or slice literal whose elements all evaluate, at the
first element whose assigned index is already taken: the duplicate index error
positioned at that element. -/
theorem arrayLoop_dup {ev : Evaluator RT RV C} (args : Args RT RV C)
    (elts : List Node) (rs : List (Option Int × Data RT RV C))
    (hev : List.Forall₂ (fun e r => arrayEltEval h ev args e = .ok r) elts rs) :
    ∀ (m : GoMap Int (Data RT RV C)) (next : Int) (i : Nat) (k : Int) (e : Node), 0 ≤ next →
      (∀ j ∈ assignedIndices (rs.map Prod.fst) next, j < maxInt) →
      (assignedIndices (rs.map Prod.fst) next)[i]? = some k → elts[i]? = some e →
      ((assignedIndices (rs.map Prod.fst) next).take i).Nodup →
      (∀ j ∈ (assignedIndices (rs.map Prod.fst) next).take i, m.get j = none) →
      (k ∈ (assignedIndices (rs.map Prod.fst) next).take i ∨ (m.get k).isSome = true) →
      arrayLoop h ev args elts m next = .err ⟨.initArrayDupIndex k, e.pos⟩ := by
  induction hev with
  | nil => intro m next i k e _ _ hk; simp [assignedIndices] at hk
  | @cons e0 r elts rs he _ ih =>
    intro m next i k e hnext hmax hk hel hnd hfresh hdup
    obtain ⟨ko, d⟩ := r
    simp only [List.map_cons, assignedIndices] at hmax hk hnd hfresh hdup
    have hidx : 0 ≤ ko.getD next := by
      cases ko with
      | none => exact hnext
      | some k => exact arrayEltEval_key_nonneg h args e0 k d he
    rw [arrayLoop_cons_eval h args e0 elts m next ko d he]
    cases i with
    | zero =>
      simp only [List.getElem?_cons_zero, Option.some.injEq] at hk hel
      subst hk; subst hel
      simp only [List.take_zero, List.not_mem_nil, false_or] at hdup
      simp [hdup]
    | succ j =>
      simp only [List.getElem?_cons_succ] at hk hel
      simp only [List.take_succ_cons, List.nodup_cons, List.mem_cons, forall_eq_or_imp] at hnd hfresh hdup
      have hm0 := hmax _ (List.mem_cons_self _ _)
      simp only [hfresh.1, Option.isSome_none, Bool.false_eq_true, if_false]
      rw [wrapInt_succ _ hidx hm0]
      apply ih _ _ j k e (by omega) (fun j hj => hmax j (List.mem_cons_of_mem _ hj)) hk hel hnd.2
      · intro j2 hj2
        have hne : j2 ≠ ko.getD next := fun hc => hnd.1 (hc ▸ hj2)
        rw [GoMap.get_set_ne _ _ _ _ hne]
        exact hfresh.2 j2 hj2
      · rcases hdup with (rfl | hin) | hsome
        · right; simp [GoMap.get_set_self]
        · left; exact hin
        · right
          by_cases hkk : k = ko.getD next
          · subst hkk; simp [GoMap.get_set_self]
          · rw [GoMap.get_set_ne _ _ _ _ hkk]; exact hsome

/-- The array and slice case of astCompositeLit once the type is resolved. -/
theorem astCompositeLit_arrayLike_eq (pos : Pos) (type : Node) (elts : List Node)
    (args : Args RT RV C) (vT : RT)
    (hT : compositeLitType h (astExpr h pkgPath) type elts args = .ok vT)
    (hk : h.typeKind vT = Kind.Array ∨ h.typeKind vT = Kind.Slice) :
    astExpr h pkgPath (.CompositeLit pos type elts) args =
      (arrayLoop h (astExpr h pkgPath) args elts [] 0 >>= fun m =>
        (h.compositeLitArrayLike vT m).pos pos) := by
  rw [astExpr_eq]
  rcases hk with hk | hk <;> simp only [astExprStep, astCompositeLit, hT, Res.ok_bind, hk]

theorem assignedIndices_unkeyed (ks : List (Option Int)) (hks : ∀ k ∈ ks, k = none) :
    ∀ next, assignedIndices ks next = (List.range ks.length).map (fun (i : Nat) => next + (i : Int)) := by
  induction ks with
  | nil => intro next; rfl
  | cons k ks ih =>
    intro next
    have hk : k = none := hks k (List.mem_cons_self _ _)
    subst hk
    rw [assignedIndices, ih (fun k hk => hks k (List.mem_cons_of_mem _ hk))]
    simp only [Option.getD_none, List.length_cons, List.range_succ_eq_map, List.map_cons,
      List.map_map, Nat.cast_zero, add_zero, List.cons.injEq, true_and]
    apply List.map_congr_left
    intro i _
    simp only [Function.comp, Nat.cast_succ]
    ring

/-- C7 (amended): in a composite literal of array or slice type whose elements
all evaluate, and as long as no assigned index is the largest machine integer,
each element is assigned the index of its key or else one more than the index of
the previous element (0 for the first): when these indices are pairwise
different the builder receives exactly the map from them to the values; at the
first element whose index is already taken astCompositeLit returns the duplicate
index error positioned at that element; and a list without keys is assigned the
indices 0 to n-1. -/
theorem astCompositeLit_array_indices (pos : Pos) (type : Node) (elts : List Node)
    (args : Args RT RV C) (vT : RT) (rs : List (Option Int × Data RT RV C))
    (hT : compositeLitType h (astExpr h pkgPath) type elts args = .ok vT)
    (hk : h.typeKind vT = Kind.Array ∨ h.typeKind vT = Kind.Slice)
    (hev : List.Forall₂ (fun e r => arrayEltEval h (astExpr h pkgPath) args e = .ok r) elts rs)
    (hmax : ∀ i ∈ assignedIndices (rs.map Prod.fst) 0, i < maxInt) :
    ((assignedIndices (rs.map Prod.fst) 0).Nodup →
      astExpr h pkgPath (.CompositeLit pos type elts) args =
        (h.compositeLitArrayLike vT
          ((assignedIndices (rs.map Prod.fst) 0).zip (rs.map Prod.snd))).pos pos) ∧
    (∀ (i : Nat) (k : Int) (e : Node),
      (assignedIndices (rs.map Prod.fst) 0)[i]? = some k → elts[i]? = some e →
      ((assignedIndices (rs.map Prod.fst) 0).take i).Nodup →
      k ∈ (assignedIndices (rs.map Prod.fst) 0).take i →
      astExpr h pkgPath (.CompositeLit pos type elts) args
        = .err ⟨.initArrayDupIndex k, e.pos⟩) ∧
    ((∀ r ∈ rs, r.1 = none) →
      assignedIndices (rs.map Prod.fst) 0 = (List.range rs.length).map (fun (i : Nat) => (i : Int))) := by
  rw [astCompositeLit_arrayLike_eq h pkgPath pos type elts args vT hT hk]
  refine ⟨?_, ?_, ?_⟩
  · intro hnd
    rw [arrayLoop_fresh h args elts rs hev [] 0 (le_refl 0) hmax hnd
      (fun i _ => rfl)]
    simp
  · intro i k e hki hei hnd hin
    rw [arrayLoop_dup h args elts rs hev [] 0 i k e (le_refl 0) hmax hki hei hnd
      (fun j _ => rfl) (Or.inl hin)]
    simp
  · intro hnone
    have := assignedIndices_unkeyed (rs.map Prod.fst)
      (by simpa using hnone) 0
    simpa using this

/-- Witness of C7 (amended): in the slice literal []int{3: a, b} the builder is
given the indices 3 and 4. -/
theorem astCompositeLit_array_indices_witness :
    astExpr demoHost "pkg" (.CompositeLit 1 (.ArrayType 1 .nilExpr (.Ident 3 "int"))
        [.KeyValueExpr 7 (.BasicLit 7 5 "3") (.Ident 10 "a"), .Ident 13 "b"]) demoArgs
      = .ok (.Datas (.Regular (.arr (.slice .int) [3, 4]))) :=
  (astCompositeLit_array_indices demoHost "pkg" 1 (.ArrayType 1 .nilExpr (.Ident 3 "int"))
    [.KeyValueExpr 7 (.BasicLit 7 5 "3") (.Ident 10 "a"), .Ident 13 "b"] demoArgs (.slice .int)
    [(some 3, .Regular (.int 1)), (none, .Regular (.int 2))] rfl (Or.inr rfl)
    (List.Forall₂.cons rfl (List.Forall₂.cons rfl List.Forall₂.nil))
    (by decide)).1 (by decide)

/-- C7 as stated fails: in the slice literal []int{9223372036854775807: a, b},
whose key is the largest machine integer, both elements evaluate and the
specification assigns b the index one more than the key, but the running index
wraps around and the builder is given the smallest machine integer for b. -/
theorem astCompositeLit_array_index_wraps :
    List.Forall₂
      (fun e r => arrayEltEval demoHost (astExpr demoHost "pkg") demoArgs e = .ok r)
      [.KeyValueExpr 7 (.BasicLit 7 5 "9223372036854775807") (.Ident 28 "a"), .Ident 31 "b"]
      [(some 9223372036854775807, .Regular (.int 1)), (none, .Regular (.int 2))] ∧
    assignedIndices [some 9223372036854775807, none] 0
      = [9223372036854775807, 9223372036854775808] ∧
    astExpr demoHost "pkg" (.CompositeLit 1 (.ArrayType 1 .nilExpr (.Ident 3 "int"))
        [.KeyValueExpr 7 (.BasicLit 7 5 "9223372036854775807") (.Ident 28 "a"), .Ident 31 "b"]) demoArgs
      = .ok (.Datas (.Regular (.arr (.slice .int)
          [9223372036854775807, -9223372036854775808]))) ∧
    astExpr demoHost "pkg" (.CompositeLit 1 (.ArrayType 1 .nilExpr (.Ident 3 "int"))
        [.KeyValueExpr 7 (.BasicLit 7 5 "9223372036854775807") (.Ident 28 "a"), .Ident 31 "b"]) demoArgs
      ≠ (demoHost.compositeLitArrayLike (.slice .int)
          ((assignedIndices [some 9223372036854775807, none] 0).zip
            [.Regular (.int 1), .Regular (.int 2)])).pos 1 := by
  refine ⟨List.Forall₂.cons rfl (List.Forall₂.cons rfl List.Forall₂.nil), rfl, rfl, ?_⟩
  intro hc
  have h2 : astExpr demoHost "pkg" (.CompositeLit 1 (.ArrayType 1 .nilExpr (.Ident 3 "int"))
        [.KeyValueExpr 7 (.BasicLit 7 5 "9223372036854775807") (.Ident 28 "a"), .Ident 31 "b"]) demoArgs
      = .ok (.Datas (.Regular (.arr (.slice .int)
          [9223372036854775807, -9223372036854775808]))) := rfl
  rw [h2] at hc
  simp [demoHost, IntRes.pos, assignedIndices] at hc

theorem arrayKeyIndex_ok_or_err (kvePos : Pos) (v : Data RT RV C) :
    (∃ k, arrayKeyIndex h kvePos v = .ok k) ∨
      arrayKeyIndex h kvePos v = .err ⟨.initArrayInvIndex, kvePos⟩ := by
  unfold arrayKeyIndex
  cases v with
  | Nil => right; rfl
  | Regular r => right; rfl
  | UntypedConst c =>
    simp only
    split
    · right; rfl
    · left; exact ⟨_, rfl⟩
  | TypedConst ty c =>
    simp only
    split
    · right; rfl
    · split
      · right; rfl
      · left; exact ⟨_, rfl⟩

/-- C8 (amended): a key of an array or slice literal is accepted as the explicit
index k of its element exactly when it evaluates to an untyped constant, or to a
typed constant whose type is int, that IntVal converts to the non-negative int
k; the element is then written at k, after the duplicate check on k; every
other key (no constant, a typed constant of another type, a constant that is
negative or not representable) ends the literal with the invalid index error
positioned at the element. -/
theorem astCompositeLit_array_key (kvePos : Pos) (key value : Node) (rest : List Node)
    (m : GoMap Int (Data RT RV C)) (next : Int) (args : Args RT RV C) (v : Data RT RV C)
    (hkey : astExprAsData (astExpr h pkgPath) key args = .ok v) :
    (∀ k, (arrayKeyIndex h kvePos v = .ok k ↔
      ((∃ c, v = .UntypedConst c ∧ h.intVal c = (k, true)) ∨
        (∃ c, v = .TypedConst h.typeInt c ∧ h.intVal c = (k, true))) ∧ 0 ≤ k)) ∧
    (∀ k, arrayKeyIndex h kvePos v = .ok k →
      arrayLoop h (astExpr h pkgPath) args (.KeyValueExpr kvePos key value :: rest) m next =
        if (m.get k).isSome = true then .err ⟨.initArrayDupIndex k, kvePos⟩
        else (astExprAsData (astExpr h pkgPath) value args >>= fun d =>
          arrayLoop h (astExpr h pkgPath) args rest (m.set k d) (wrapInt (k + 1)))) ∧
    ((∀ k, arrayKeyIndex h kvePos v ≠ .ok k) →
      arrayLoop h (astExpr h pkgPath) args (.KeyValueExpr kvePos key value :: rest) m next
        = .err ⟨.initArrayInvIndex, kvePos⟩) := by
  refine ⟨fun k => arrayKeyIndex_ok_iff h kvePos v k, ?_, ?_⟩
  · intro k hk
    simp only [arrayLoop, hkey, Res.ok_bind, hk, Node.pos]
  · intro hno
    rcases arrayKeyIndex_ok_or_err h kvePos v with ⟨k, hk⟩ | herr
    · exact absurd hk (hno k)
    · simp only [arrayLoop, hkey, Res.ok_bind, herr, Res.err_bind]

/-- Witness of C8 (amended): in []int{3: a} the untyped constant 3 is accepted as
the index 3. -/
theorem astCompositeLit_array_key_witness :
    arrayKeyIndex demoHost 7 (.UntypedConst (.int 3)) = .ok 3 ∧
    arrayLoop demoHost (astExpr demoHost "pkg") demoArgs
        [.KeyValueExpr 7 (.BasicLit 7 5 "3") (.Ident 10 "a")] [] 0
      = .ok [(3, .Regular (.int 1))] :=
  ⟨rfl, ((astCompositeLit_array_key demoHost "pkg" 7 (.BasicLit 7 5 "3") (.Ident 10 "a") [] [] 0
    demoArgs (.UntypedConst (.int 3)) rfl).2.1 3 rfl).trans rfl⟩

/-- C8 as stated fails: the key one8 evaluates to the typed constant 1 of type
int8, which IntVal converts to the non-negative int 1, and the literal is
rejected with the invalid index error. -/
theorem astCompositeLit_array_typed_key_rejected :
    astExpr demoHost "pkg" (.Ident 7 "one8") demoArgs
      = .ok (.Datas (.TypedConst .int8 (.int 1))) ∧
    demoHost.intVal (.int 1) = (1, true) ∧
    astExpr demoHost "pkg" (.CompositeLit 1 (.ArrayType 1 .nilExpr (.Ident 3 "int"))
        [.KeyValueExpr 7 (.Ident 7 "one8") (.Ident 10 "a")]) demoArgs
      = .err ⟨.initArrayInvIndex, 7⟩ :=
  ⟨rfl, rfl, rfl⟩

/-! ### Composite literals: map -/

theorem GoMap.keys_set {K V : Type} [DecidableEq K] (m : GoMap K V) (k : K) (v : V) :
    (GoMap.set m k v).map Prod.fst
      = if k ∈ m.map Prod.fst then m.map Prod.fst else m.map Prod.fst ++ [k] := by
  induction m with
  | nil => simp [GoMap.set]
  | cons a as ih =>
    obtain ⟨k1, v1⟩ := a
    by_cases hk : k1 = k
    · subst hk
      simp [GoMap.set]
    · have hk2 : ¬ k = k1 := fun hc => hk hc.symm
      simp only [GoMap.set, hk, if_false, List.map_cons, ih, List.mem_cons, hk2, false_or]
      split <;> simp

theorem GoMap.keys_set_nodup {K V : Type} [DecidableEq K] (m : GoMap K V) (k : K) (v : V)
    (hm : (m.map Prod.fst).Nodup) : ((GoMap.set m k v).map Prod.fst).Nodup := by
  rw [GoMap.keys_set]
  split
  · exact hm
  · rename_i hk
    exact List.Nodup.append hm (List.nodup_singleton k) (by simpa using hk)

theorem GoMap.mem_keys_of_get {K V : Type} [DecidableEq K] (m : GoMap K V) (k : K) (v : V)
    (hm : m.get k = some v) : k ∈ m.map Prod.fst := by
  induction m with
  | nil => simp [GoMap.get] at hm
  | cons a as ih =>
    obtain ⟨k1, v1⟩ := a
    by_cases hk : k1 = k
    · simp [hk]
    · simp only [GoMap.get, hk, if_false] at hm
      simp [ih hm]

/-- The map the writes of a list of entries, in order, leave behind. -/
theorem GoMap.foldl_set_get {K V : Type} [DecidableEq K] (post : List (K × V)) (k : K) (d : V)
    (hpost : ∀ r ∈ post, r.1 ≠ k) : ∀ (m : GoMap K V), m.get k = some d →
      (post.foldl (fun m r => GoMap.set m r.1 r.2) m).get k = some d := by
  induction post with
  | nil => intro m hm; exact hm
  | cons r post ih =>
    intro m hm
    simp only [List.foldl_cons]
    apply ih (fun r2 hr2 => hpost r2 (List.mem_cons_of_mem _ hr2))
    rw [GoMap.get_set_ne _ _ _ _ (Ne.symm (hpost r (List.mem_cons_self _ _)))]
    exact hm

theorem GoMap.foldl_set_nodup {K V : Type} [DecidableEq K] (rs : List (K × V)) :
    ∀ (m : GoMap K V), (m.map Prod.fst).Nodup →
      ((rs.foldl (fun m r => GoMap.set m r.1 r.2) m).map Prod.fst).Nodup := by
  induction rs with
  | nil => intro m hm; exact hm
  | cons r rs ih =>
    intro m hm
    simp only [List.foldl_cons]
    exact ih _ (GoMap.keys_set_nodup m r.1 r.2 hm)

theorem GoMap.setBy_of_no_match {K V : Type} (eq : K → K → Bool) (m : GoMap K V) (k : K)
    (v : V) (hm : ∀ e ∈ m, eq e.1 k = false) : GoMap.setBy eq m k v = m ++ [(k, v)] := by
  induction m with
  | nil => rfl
  | cons a as ih =>
    obtain ⟨k1, v1⟩ := a
    have h1 : eq k1 k = false := hm (k1, v1) (List.mem_cons_self _ _)
    simp only [GoMap.setBy, h1, Bool.false_eq_true, if_false, List.cons_append,
      ih (fun e he => hm e (List.mem_cons_of_mem _ he))]

theorem GoMap.setBy_of_first_match {K V : Type} (eq : K → K → Bool) (pre : GoMap K V)
    (k1 : K) (v1 : V) (post : GoMap K V) (k : K) (v : V)
    (hpre : ∀ e ∈ pre, eq e.1 k = false) (h1 : eq k1 k = true) :
    GoMap.setBy eq (pre ++ (k1, v1) :: post) k v = pre ++ (k, v) :: post := by
  induction pre with
  | nil => simp only [List.nil_append, GoMap.setBy, h1, if_true]
  | cons a as ih =>
    obtain ⟨k0, v0⟩ := a
    have h0 : eq k0 k = false := hpre (k0, v0) (List.mem_cons_self _ _)
    simp only [List.cons_append, GoMap.setBy, h0, Bool.false_eq_true, if_false,
      List.append_eq, ih (fun e he => hpre e (List.mem_cons_of_mem _ he))]

theorem GoMap.setBy_eq_set {K V : Type} [DecidableEq K] (eq : K → K → Bool) (m : GoMap K V)
    (k : K) (v : V) (hm : ∀ e ∈ m, eq e.1 k = decide (e.1 = k)) :
    GoMap.setBy eq m k v = GoMap.set m k v := by
  induction m with
  | nil => rfl
  | cons a as ih =>
    obtain ⟨k1, v1⟩ := a
    have h1 : eq k1 k = decide (k1 = k) := hm (k1, v1) (List.mem_cons_self _ _)
    simp only [GoMap.setBy, GoMap.set, h1, decide_eq_true_eq,
      ih (fun e he => hm e (List.mem_cons_of_mem _ he))]

theorem GoMap.mem_keys_set {K V : Type} [DecidableEq K] (m : GoMap K V) (k : K) (v : V)
    (a : K) (ha : a ∈ (GoMap.set m k v).map Prod.fst) : a ∈ m.map Prod.fst ∨ a = k := by
  rw [GoMap.keys_set] at ha
  split at ha
  · exact Or.inl ha
  · rcases List.mem_append.mp ha with hm | hk
    · exact Or.inl hm
    · exact Or.inr (List.mem_singleton.mp hk)

/-- Where the keys are compared by value, the writes of a map keyed by == are
the writes of a map keyed by the equality of the values. -/
theorem GoMap.foldl_setBy_eq_set {K V : Type} [DecidableEq K] (eq : K → K → Bool)
    (rs : List (K × V)) : ∀ (m : GoMap K V),
    (∀ a ∈ m.map Prod.fst ++ rs.map Prod.fst, ∀ b ∈ rs.map Prod.fst, eq a b = decide (a = b)) →
    rs.foldl (fun m r => GoMap.setBy eq m r.1 r.2) m
      = rs.foldl (fun m r => GoMap.set m r.1 r.2) m := by
  induction rs with
  | nil => intro m _; rfl
  | cons r rs ih =>
    intro m hval
    have h1 : GoMap.setBy eq m r.1 r.2 = GoMap.set m r.1 r.2 :=
      GoMap.setBy_eq_set eq m r.1 r.2 (fun e he =>
        hval e.1 (List.mem_append.mpr (Or.inl (List.mem_map_of_mem Prod.fst he))) r.1
          (by simp))
    simp only [List.foldl_cons, h1]
    apply ih
    intro a ha b hb
    have hb2 : b ∈ (r :: rs).map Prod.fst := by
      simp only [List.map_cons, List.mem_cons]
      exact Or.inr hb
    refine hval a ?_ b hb2
    rcases List.mem_append.mp ha with ha1 | ha2
    · rcases GoMap.mem_keys_set m r.1 r.2 a ha1 with hm | hk
      · exact List.mem_append.mpr (Or.inl hm)
      · subst hk
        exact List.mem_append.mpr (Or.inr (by simp))
    · refine List.mem_append.mpr (Or.inr ?_)
      simp only [List.map_cons, List.mem_cons]
      exact Or.inr ha2

/-- Where no key is == to an earlier one, every write adds an entry. -/
theorem GoMap.foldl_setBy_fresh {K V : Type} (eq : K → K → Bool) (rs : List (K × V)) :
    ∀ (m : GoMap K V), (∀ e ∈ m, ∀ r ∈ rs, eq e.1 r.1 = false) →
    rs.Pairwise (fun a b => eq a.1 b.1 = false) →
    rs.foldl (fun m r => GoMap.setBy eq m r.1 r.2) m = m ++ rs := by
  induction rs with
  | nil => intro m _ _; simp
  | cons r rs ih =>
    intro m hm hp
    have hr : GoMap.setBy eq m r.1 r.2 = m ++ [(r.1, r.2)] :=
      GoMap.setBy_of_no_match eq m r.1 r.2 (fun e he => hm e he r (List.mem_cons_self _ _))
    rw [List.pairwise_cons] at hp
    simp only [List.foldl_cons, hr]
    rw [ih _ ?_ hp.2]
    · simp
    · intro e he r2 hr2
      rcases List.mem_append.mp he with h1 | h2
      · exact hm e h1 r2 (List.mem_cons_of_mem _ hr2)
      · simp only [List.mem_singleton] at h2
        subst h2
        exact hp.1 r2 hr2

theorem mapLoop_eval {ev : Evaluator RT RV C} (args : Args RT RV C) (elts : List Node)
    (rs : List (Data RT RV C × Data RT RV C))
    (hev : List.Forall₂ (fun e r => mapEltEval ev args e = .ok r) elts rs) :
    ∀ (m : GoMap (Data RT RV C) (Data RT RV C)),
      mapLoop h ev args elts m
        = .ok (rs.foldl (fun m r => GoMap.setBy h.dataEq m r.1 r.2) m) := by
  induction hev with
  | nil => intro m; rfl
  | @cons e r elts rs he _ ih =>
    intro m
    cases e
    case KeyValueExpr kp key value =>
      simp only [mapEltEval] at he
      cases hk : astExprAsData ev key args with
      | ok k =>
        rw [hk] at he
        simp only [Res.ok_bind] at he
        cases hd : astExprAsData ev value args with
        | ok d =>
          rw [hd] at he
          simp only [Res.ok_bind, Res.pure_eq, Res.ok.injEq] at he
          subst he
          simp only [mapLoop, hk, hd, Res.ok_bind, List.foldl_cons]
          exact ih _
        | err er => rw [hd] at he; simp at he
        | fault msg => rw [hd] at he; simp at he
      | err er => rw [hk] at he; simp at he
      | fault msg => rw [hk] at he; simp at he
    all_goals simp [mapEltEval] at he

/-- C9 (amended): in a composite literal of map type whose elements all
evaluate, the collection handed to the map builder is the result of writing the
pairs in order into a Go map keyed by the Data values, whose keys are compared
with == (dataEq). (1) The builder receives these writes. (2) A write whose key
is == to no key of the collection adds an entry and overwrites nothing; a write
whose key is == to the key of an entry replaces that entry. (3) Where == on the
keys of the literal is the equality of their values, the collection holds at
most one entry for a key, and for the last element with a given key exactly one
entry, which carries the value of that element. (4) Where no key of the literal
is == to an earlier one, whatever their values, every pair is handed to the
builder. -/
theorem astCompositeLit_map_overwrite (pos : Pos) (type : Node) (elts : List Node)
    (args : Args RT RV C) (vT : RT) (rs : List (Data RT RV C × Data RT RV C))
    (hT : compositeLitType h (astExpr h pkgPath) type elts args = .ok vT)
    (hk : h.typeKind vT = Kind.Map)
    (hev : List.Forall₂ (fun e r => mapEltEval (astExpr h pkgPath) args e = .ok r) elts rs) :
    astExpr h pkgPath (.CompositeLit pos type elts) args
      = (h.compositeLitMap vT
          (rs.foldl (fun m r => GoMap.setBy h.dataEq m r.1 r.2) [])).pos pos ∧
    ((∀ (m : GoMap (Data RT RV C) (Data RT RV C)) k v, (∀ e ∈ m, h.dataEq e.1 k = false) →
        GoMap.setBy h.dataEq m k v = m ++ [(k, v)]) ∧
      (∀ (pre : GoMap (Data RT RV C) (Data RT RV C)) k1 v1 post k v,
        (∀ e ∈ pre, h.dataEq e.1 k = false) → h.dataEq k1 k = true →
        GoMap.setBy h.dataEq (pre ++ (k1, v1) :: post) k v = pre ++ (k, v) :: post)) ∧
    ((∀ a ∈ rs, ∀ b ∈ rs, h.dataEq a.1 b.1 = decide (a.1 = b.1)) →
      (∀ k, ((rs.foldl (fun m r => GoMap.setBy h.dataEq m r.1 r.2) []).map Prod.fst).count k
        ≤ 1) ∧
      (∀ pre k d post, rs = pre ++ (k, d) :: post → (∀ r ∈ post, r.1 ≠ k) →
        (rs.foldl (fun m r => GoMap.setBy h.dataEq m r.1 r.2) []).get k = some d ∧
        ((rs.foldl (fun m r => GoMap.setBy h.dataEq m r.1 r.2) []).map Prod.fst).count k
          = 1)) ∧
    (rs.Pairwise (fun a b => h.dataEq a.1 b.1 = false) →
      rs.foldl (fun m r => GoMap.setBy h.dataEq m r.1 r.2) [] = rs) := by
  refine ⟨?_, ⟨?_, ?_⟩, ?_, ?_⟩
  · rw [astExpr_eq]
    simp only [astExprStep, astCompositeLit, hT, Res.ok_bind, hk,
      mapLoop_eval h args elts rs hev []]
  · intro m k v hm
    exact GoMap.setBy_of_no_match h.dataEq m k v hm
  · intro pre k1 v1 post k v hpre h1
    exact GoMap.setBy_of_first_match h.dataEq pre k1 v1 post k v hpre h1
  · intro hval
    have hfold : rs.foldl (fun m r => GoMap.setBy h.dataEq m r.1 r.2) []
        = rs.foldl (fun m r => GoMap.set m r.1 r.2) [] := by
      apply GoMap.foldl_setBy_eq_set
      intro a ha b hb
      simp only [List.map_nil, List.nil_append, List.mem_map] at ha hb
      obtain ⟨x, hx, rfl⟩ := ha
      obtain ⟨y, hy, rfl⟩ := hb
      exact hval x hx y hy
    rw [hfold]
    have hnd : ((rs.foldl (fun m r => GoMap.set m r.1 r.2)
        ([] : GoMap (Data RT RV C) (Data RT RV C))).map Prod.fst).Nodup :=
      GoMap.foldl_set_nodup rs [] List.nodup_nil
    refine ⟨fun k => List.nodup_iff_count_le_one.mp hnd k, ?_⟩
    intro pre k d post hrs hpost
    have hget : (rs.foldl (fun m r => GoMap.set m r.1 r.2)
        ([] : GoMap (Data RT RV C) (Data RT RV C))).get k = some d := by
      rw [hrs, List.foldl_append, List.foldl_cons]
      exact GoMap.foldl_set_get post k d hpost _ (GoMap.get_set_self _ k d)
    exact ⟨hget, List.count_eq_one_of_mem hnd (GoMap.mem_keys_of_get _ k d hget)⟩
  · intro hp
    have hf := GoMap.foldl_setBy_fresh h.dataEq rs [] (fun e he => by cases he) hp
    simpa using hf

/-- Witness of C9 (amended): in the map literal map[int]int{3: a, 3: b} the two
keys are == (small integer constants are compared by value), the builder is
given one entry, and it carries the value of b. -/
theorem astCompositeLit_map_overwrite_witness :
    demoHost.dataEq (.UntypedConst (.int 3)) (.UntypedConst (.int 3)) = true ∧
    astExpr demoHost "pkg" (.CompositeLit 1 (.MapType 1 (.Ident 5 "int") (.Ident 9 "int"))
        [.KeyValueExpr 14 (.BasicLit 14 5 "3") (.Ident 17 "a"),
         .KeyValueExpr 20 (.BasicLit 20 5 "3") (.Ident 23 "b")]) demoArgs
      = .ok (.Datas (.Regular (.built (.map .int .int) 1))) ∧
    ([(.UntypedConst (.int 3), .Regular (.int 1)),
        (.UntypedConst (.int 3), .Regular (.int 2))] : List (DemoData × DemoData)).foldl
          (fun m r => GoMap.setBy demoHost.dataEq m r.1 r.2) []
      = [(.UntypedConst (.int 3), .Regular (.int 2))] :=
  ⟨rfl,
   (astCompositeLit_map_overwrite demoHost "pkg" 1 (.MapType 1 (.Ident 5 "int") (.Ident 9 "int"))
      [.KeyValueExpr 14 (.BasicLit 14 5 "3") (.Ident 17 "a"),
       .KeyValueExpr 20 (.BasicLit 20 5 "3") (.Ident 23 "b")] demoArgs (.map .int .int)
      [(.UntypedConst (.int 3), .Regular (.int 1)), (.UntypedConst (.int 3), .Regular (.int 2))]
      rfl rfl (List.Forall₂.cons rfl (List.Forall₂.cons rfl List.Forall₂.nil))).1.trans rfl,
   rfl⟩

/-- C9 as stated fails: in the map literal map[string]int{"k": a, "k": b} the
two keys evaluate to the same value, the string constant k, but each evaluation
of the literal makes its own constant and == on them is false, so the second
write overwrites nothing and the builder is given two entries. -/
theorem astCompositeLit_map_equal_keys_kept :
    astExpr demoHost "pkg" (.BasicLit 17 9 "\"k\"") demoArgs
      = .ok (.Datas (.UntypedConst (.str "\"k\""))) ∧
    astExpr demoHost "pkg" (.BasicLit 25 9 "\"k\"") demoArgs
      = .ok (.Datas (.UntypedConst (.str "\"k\""))) ∧
    demoHost.dataEq (.UntypedConst (.str "\"k\"")) (.UntypedConst (.str "\"k\"")) = false ∧
    mapLoop demoHost (astExpr demoHost "pkg") demoArgs
        [.KeyValueExpr 17 (.BasicLit 17 9 "\"k\"") (.Ident 22 "a"),
         .KeyValueExpr 25 (.BasicLit 25 9 "\"k\"") (.Ident 30 "b")] []
      = .ok [(.UntypedConst (.str "\"k\""), .Regular (.int 1)),
          (.UntypedConst (.str "\"k\""), .Regular (.int 2))] ∧
    astExpr demoHost "pkg" (.CompositeLit 1 (.MapType 1 (.Ident 5 "string") (.Ident 12 "int"))
        [.KeyValueExpr 17 (.BasicLit 17 9 "\"k\"") (.Ident 22 "a"),
         .KeyValueExpr 25 (.BasicLit 25 9 "\"k\"") (.Ident 30 "b")]) demoArgs
      = .ok (.Datas (.Regular (.built (.map .string .int) 2))) :=
  ⟨rfl, rfl, rfl, rfl, rfl⟩

/-! ### Calls -/

theorem evalArgsAsData_eval {ev : Evaluator RT RV C} (args : Args RT RV C) (l : List Node)
    (ds : List (Data RT RV C))
    (hev : List.Forall₂ (fun a d => astExprAsData ev a args = .ok d) l ds) :
    evalArgsAsData ev args l = .ok ds := by
  induction hev with
  | nil => rfl
  | @cons a d l ds ha _ ih => simp only [evalArgsAsData, ha, ih, Res.ok_bind, Res.pure_eq]

/-- C10: when the callee of a call evaluates to a Type and every argument
evaluates as Data, a call with the ellipsis flag returns the conversion with
ellipsis error positioned at the call, whatever convertCall would do (it is not
invoked); a call without the flag returns the result of convertCall on the type
and the evaluated arguments, an error of it positioned at the call. -/
theorem astCallExpr_conversion (pos : Pos) (func : Node) (callArgs : List Node)
    (ellipsis : Pos) (args : Args RT RV C) (t : RT) (ds : List (Data RT RV C))
    (hf : astExpr h pkgPath func args = .ok (.Type t))
    (hargs : List.Forall₂ (fun a d => astExprAsData (astExpr h pkgPath) a args = .ok d)
      callArgs ds) :
    (ellipsis ≠ NoPos →
      astExpr h pkgPath (.CallExpr pos func callArgs ellipsis) args
        = .err ⟨.convertWithEllipsis t, pos⟩) ∧
    (ellipsis ≠ NoPos → ∀ cc,
      astCallExpr { h with convertCall := cc } (astExpr h pkgPath) pos func callArgs ellipsis args
        = .err ⟨.convertWithEllipsis t, pos⟩) ∧
    (ellipsis = NoPos →
      astExpr h pkgPath (.CallExpr pos func callArgs ellipsis) args
        = (h.convertCall t ds).pos pos) := by
  have hds := evalArgsAsData_eval args callArgs ds hargs
  refine ⟨?_, ?_, ?_⟩
  · intro he
    rw [astExpr_eq]
    simp only [astExprStep, astCallExpr, hf, Res.ok_bind, hds]
    simp [he]
  · intro he cc
    simp only [astCallExpr, hf, Res.ok_bind, hds]
    simp [he]
  · intro he
    rw [astExpr_eq]
    simp only [astExprStep, astCallExpr, hf, Res.ok_bind, hds]
    simp [he]

/-- Witness of C10: the conversion int(a, b...) is rejected, int(a) is handed to
convertCall. -/
theorem astCallExpr_conversion_witness :
    astExpr demoHost "pkg" (.CallExpr 1 (.Ident 1 "int") [.Ident 5 "a", .Ident 8 "b"] 9) demoArgs
      = .err ⟨.convertWithEllipsis .int, 1⟩ ∧
    astExpr demoHost "pkg" (.CallExpr 1 (.Ident 1 "int") [.Ident 5 "a"] NoPos) demoArgs
      = .ok (.Datas (.Regular (.built .int 1))) :=
  ⟨(astCallExpr_conversion demoHost "pkg" 1 (.Ident 1 "int") [.Ident 5 "a", .Ident 8 "b"] 9
      demoArgs .int [.Regular (.int 1), .Regular (.int 2)] rfl
      (List.Forall₂.cons rfl (List.Forall₂.cons rfl List.Forall₂.nil))).1 (by decide),
   ((astCallExpr_conversion demoHost "pkg" 1 (.Ident 1 "int") [.Ident 5 "a"] NoPos
      demoArgs .int [.Regular (.int 1)] rfl
      (List.Forall₂.cons rfl List.Forall₂.nil)).2.2 rfl).trans rfl⟩

theorem evalArgsAsValue_eval {ev : Evaluator RT RV C} (args : Args RT RV C) (l : List Node)
    (vs : List (Value RT RV C))
    (hev : List.Forall₂ (fun a v => ev a args = .ok v) l vs) :
    evalArgsAsValue ev args l = .ok vs := by
  induction hev with
  | nil => rfl
  | @cons a v l vs ha _ ih => simp only [evalArgsAsValue, ha, ih, Res.ok_bind, Res.pure_eq]

theorem astExprAsData_of_data {ev : Evaluator RT RV C} {a : Node} {args : Args RT RV C}
    {d : Data RT RV C} (ha : ev a args = .ok (.Datas d)) : astExprAsData ev a args = .ok d := by
  simp only [astExprAsData, ha]

theorem astExprAsData_of_not_data {ev : Evaluator RT RV C} {a : Node} {args : Args RT RV C}
    {v : Value RT RV C} (ha : ev a args = .ok v) (hv : ∀ d, v ≠ .Datas d) :
    astExprAsData ev a args = .err ⟨.notExpr v, a.pos⟩ := by
  cases v <;> first
    | exact absurd rfl (hv _)
    | simp only [astExprAsData, ha]

/-- The argument loop for a callee that is no built-in function stops at the
first argument that does not evaluate as Data. -/
theorem evalArgsAsData_first_failure {ev : Evaluator RT RV C} (args : Args RT RV C)
    (pre : List Node) (a : Node) (post : List Node) (ds : List (Data RT RV C))
    (er : PosError RT RV C)
    (hpre : List.Forall₂ (fun a d => ev a args = .ok (.Datas d)) pre ds)
    (ha : astExprAsData ev a args = .err er) :
    evalArgsAsData ev args (pre ++ a :: post) = .err er := by
  induction hpre with
  | nil => simp only [List.nil_append, evalArgsAsData, ha, Res.err_bind]
  | @cons b d pre ds hb _ ih =>
    simp only [List.cons_append, evalArgsAsData, astExprAsData_of_data hb, Res.ok_bind,
      List.append_eq, ih, Res.err_bind]

/-- C11: in astCallExpr, when the callee evaluates to a built-in function the
arguments are evaluated as raw Values and, when they all evaluate, handed to the
built-in dispatch unchanged and in order, a Type among them included; when the
callee evaluates to anything else the arguments are evaluated as Data, and the
first argument that evaluates to a Value that is no Data (the arguments before
it being Data) makes the call return the not an expression error positioned at
that argument. -/
theorem astCallExpr_argument_evaluation (pos : Pos) (func : Node) (callArgs : List Node)
    (ellipsis : Pos) (args : Args RT RV C) :
    (∀ name vs, astExpr h pkgPath func args = .ok (.BuiltInFunc name) →
      List.Forall₂ (fun a v => astExpr h pkgPath a args = .ok v) callArgs vs →
      astExpr h pkgPath (.CallExpr pos func callArgs ellipsis) args
        = (h.callBuiltInFunc name vs (decide (ellipsis ≠ NoPos))).pos pos) ∧
    (∀ fv pre a post ds v, astExpr h pkgPath func args = .ok fv →
      (∀ name, fv ≠ .BuiltInFunc name) → callArgs = pre ++ a :: post →
      List.Forall₂ (fun a d => astExpr h pkgPath a args = .ok (.Datas d)) pre ds →
      astExpr h pkgPath a args = .ok v → (∀ d, v ≠ .Datas d) →
      astExpr h pkgPath (.CallExpr pos func callArgs ellipsis) args
        = .err ⟨.notExpr v, a.pos⟩) := by
  refine ⟨?_, ?_⟩
  · intro name vs hf hvs
    rw [astExpr_eq]
    simp only [astExprStep, astCallExpr, hf, Res.ok_bind, evalArgsAsValue_eval args callArgs vs hvs]
  · intro fv pre a post ds v hf hnb hargs hpre ha hv
    have hloop := evalArgsAsData_first_failure args pre a post ds _ hpre
      (astExprAsData_of_not_data ha hv)
    rw [astExpr_eq]
    subst hargs
    cases fv <;> first
      | exact absurd rfl (hnb _)
      | simp only [astExprStep, astCallExpr, hf, Res.ok_bind, hloop, Res.err_bind]

/-- Witness of C11: new(int) hands the Type int to the built-in dispatch, and
p(a, int) returns the not an expression error at the argument int. -/
theorem astCallExpr_argument_evaluation_witness :
    astExpr demoHost "pkg" (.CallExpr 1 (.Ident 1 "new") [.Ident 5 "int"] NoPos) demoArgs
      = (demoHost.callBuiltInFunc "new" [.Type .int] false).pos 1 ∧
    astExpr demoHost "pkg" (.CallExpr 1 (.Ident 1 "p") [.Ident 3 "a", .Ident 6 "int"] NoPos)
        demoArgs
      = .err ⟨.notExpr (.Type .int), 6⟩ :=
  ⟨(astCallExpr_argument_evaluation demoHost "pkg" 1 (.Ident 1 "new") [.Ident 5 "int"] NoPos
      demoArgs).1 "new" [.Type .int] rfl (List.Forall₂.cons rfl List.Forall₂.nil),
   (astCallExpr_argument_evaluation demoHost "pkg" 1 (.Ident 1 "p")
      [.Ident 3 "a", .Ident 6 "int"] NoPos demoArgs).2 (.Datas (.Regular .ptrS))
      [.Ident 3 "a"] (.Ident 6 "int") [] [.Regular (.int 1)] (.Type .int) rfl
      (by intro name hc; cases hc) rfl (List.Forall₂.cons rfl List.Forall₂.nil) rfl
      (by intro d hc; cases hc)⟩

/-! ### Indirection -/

/-- C12: when the operand of a star expression evaluates, the result is the
pointer type of the operand when it is a Type, the pointee (Elem) as Regular
data when it is Regular data of pointer kind, and in every other case (a
constant, nil, Regular data of another kind, a package, a built-in function)
the invalid indirection error positioned at the star expression. -/
theorem astStarExpr_cases (pos : Pos) (x : Node) (args : Args RT RV C) (v : Value RT RV C)
    (hx : astExpr h pkgPath x args = .ok v) :
    (∀ t, v = .Type t →
      astExpr h pkgPath (.StarExpr pos x) args = .ok (MakeType (h.ptrTo t))) ∧
    (∀ r, v = .Datas (.Regular r) → h.kind r = Kind.Ptr →
      astExpr h pkgPath (.StarExpr pos x) args = .ok (MakeDataRegular (h.elem r))) ∧
    ((∀ t, v ≠ .Type t) → (∀ r, v = .Datas (.Regular r) → h.kind r ≠ Kind.Ptr) →
      astExpr h pkgPath (.StarExpr pos x) args = .err ⟨.indirectInval v, pos⟩) := by
  rw [astExpr_eq]
  simp only [astExprStep, astStarExpr, hx, Res.ok_bind]
  refine ⟨?_, ?_, ?_⟩
  · rintro t rfl
    rfl
  · rintro r rfl hk
    simp [hk]
  · intro hnt hnp
    cases v
    case Datas d =>
      cases d with
      | Regular r => simp [hnp r rfl]
      | Nil => rfl
      | TypedConst ty c => rfl
      | UntypedConst c => rfl
    all_goals first
      | exact absurd rfl (hnt _)
      | rfl

/-- Witness of C12: *int is the pointer type of int, *p the struct p points to,
and *a, with a an int, is an invalid indirection. -/
theorem astStarExpr_cases_witness :
    astExpr demoHost "pkg" (.StarExpr 1 (.Ident 2 "int")) demoArgs = .ok (.Type (.ptr .int)) ∧
    astExpr demoHost "pkg" (.StarExpr 1 (.Ident 2 "p")) demoArgs
      = .ok (.Datas (.Regular .structS)) ∧
    astExpr demoHost "pkg" (.StarExpr 1 (.Ident 2 "a")) demoArgs
      = .err ⟨.indirectInval (.Datas (.Regular (.int 1))), 1⟩ :=
  ⟨(astStarExpr_cases demoHost "pkg" 1 (.Ident 2 "int") demoArgs (.Type .int) rfl).1 .int rfl,
   (astStarExpr_cases demoHost "pkg" 1 (.Ident 2 "p") demoArgs (.Datas (.Regular .ptrS))
      rfl).2.1 .ptrS rfl rfl,
   (astStarExpr_cases demoHost "pkg" 1 (.Ident 2 "a") demoArgs (.Datas (.Regular (.int 1)))
      rfl).2.2 (by intro t hc; cases hc)
      (by intro r hr; cases hr; decide)⟩


/-! ### Array types -/

theorem astExprAsType_of_type {ev : Evaluator RT RV C} {a : Node} {args : Args RT RV C}
    {t : RT} (ha : ev a args = .ok (.Type t)) : astExprAsType ev a args = .ok t := by
  simp only [astExprAsType, ha]

/-- C13 (amended): for an array-type node whose element type resolves to t, the
result is the slice type of t when there is no length expression; when the
length expression evaluates to an untyped constant, or to a typed constant
assignable to int, that IntVal converts to the non-negative int n, the result is
the array type the builder returns for the length n over t, and a panic of the
builder (the size of the array would exceed the address space) is a fault, for
nothing recovers it. -/
theorem astArrayType_result (pos : Pos) (len elt : Node) (args : Args RT RV C) (t : RT)
    (ht : astExpr h pkgPath elt args = .ok (.Type t)) :
    (len = .nilExpr →
      astExpr h pkgPath (.ArrayType pos len elt) args = .ok (MakeType (h.sliceOf t))) ∧
    (∀ l n, astExpr h pkgPath len args = .ok (.Datas l) →
      ((∃ c, l = .UntypedConst c ∧ h.intVal c = (n, true)) ∨
        (∃ ty c, l = .TypedConst ty c ∧ h.tcAssignableTo ty c h.typeInt = true ∧
          h.intVal c = (n, true))) →
      0 ≤ n →
      (∀ aT, h.arrayOf n t = .ok aT →
        astExpr h pkgPath (.ArrayType pos len elt) args = .ok (MakeType aT)) ∧
      (∀ msg, h.arrayOf n t = .error msg →
        astExpr h pkgPath (.ArrayType pos len elt) args = .fault msg)) := by
  refine ⟨?_, ?_⟩
  · rintro rfl
    rw [astExpr_eq]
    simp only [astExprStep, astArrayType, astExprAsType_of_type ht, Res.ok_bind, Res.pure_eq]
  · intro l n hlen hl hn
    rw [astArrayType_const_len h pkgPath pos len elt args l n hn hlen hl,
      astExprAsType_of_type ht]
    refine ⟨fun aT ha => ?_, fun msg ha => ?_⟩
    · simp only [Res.ok_bind, arrayOfCall, ha]
    · simp only [Res.ok_bind, arrayOfCall, ha, Res.fault_bind]

/-- Witness of C13 (amended): []int is the slice type and [2]int the array type
of length 2 over int; for [2305843009213693952]int, whose size is 2^64 bytes,
the builder panics and astArrayType faults. -/
theorem astArrayType_result_witness :
    astExpr demoHost "pkg" (.ArrayType 1 .nilExpr (.Ident 3 "int")) demoArgs
      = .ok (.Type (.slice .int)) ∧
    astExpr demoHost "pkg" (.ArrayType 1 (.BasicLit 2 5 "2") (.Ident 4 "int")) demoArgs
      = .ok (.Type (.array 2 .int)) ∧
    astExpr demoHost "pkg" (.ArrayType 1 (.BasicLit 2 5 "2305843009213693952")
        (.Ident 22 "int")) demoArgs
      = .fault "reflect.ArrayOf: array size would exceed virtual address space" :=
  ⟨(astArrayType_result demoHost "pkg" 1 .nilExpr (.Ident 3 "int") demoArgs .int rfl).1 rfl,
   ((astArrayType_result demoHost "pkg" 1 (.BasicLit 2 5 "2") (.Ident 4 "int") demoArgs .int
      rfl).2 (.UntypedConst (.int 2)) 2 rfl (Or.inl ⟨_, rfl, rfl⟩) (by decide)).1 _ rfl,
   ((astArrayType_result demoHost "pkg" 1 (.BasicLit 2 5 "2305843009213693952")
      (.Ident 22 "int") demoArgs .int rfl).2 (.UntypedConst (.int 2305843009213693952))
      2305843009213693952 rfl (Or.inl ⟨_, rfl, rfl⟩) (by decide)).2 _ rfl⟩

/-- C13 as stated fails: the length one8 evaluates to the typed constant 1 of
type int8, which IntVal converts to the non-negative int 1 but which is not
assignable to int, and [one8]int is rejected with the invalid bound error
positioned at the length. -/
theorem astArrayType_typed_len_rejected :
    astExpr demoHost "pkg" (.Ident 2 "one8") demoArgs
      = .ok (.Datas (.TypedConst .int8 (.int 1))) ∧
    demoHost.intVal (.int 1) = (1, true) ∧
    astExpr demoHost "pkg" (.ArrayType 1 (.Ident 2 "one8") (.Ident 7 "int")) demoArgs
      = .err ⟨.arrayBoundInvBound (.TypedConst .int8 (.int 1)), 2⟩ :=
  ⟨rfl, rfl, rfl⟩

theorem astExpr_nilExpr_ne_ok (args : Args RT RV C) (v : Value RT RV C) :
    astExpr h pkgPath .nilExpr args ≠ .ok v := by
  rw [astExpr_eq]
  simp [astExprStep]

/-- Method astArrayType on a length expression that evaluates to an untyped
constant. -/
theorem astArrayType_len_untyped (pos : Pos) (len elt : Node) (args : Args RT RV C) (t : RT)
    (c : C) (ht : astExpr h pkgPath elt args = .ok (.Type t))
    (hl : astExpr h pkgPath len args = .ok (.Datas (.UntypedConst c))) :
    astExpr h pkgPath (.ArrayType pos len elt) args =
      if (!(h.intVal c).2) = true then .err ⟨.arrayBoundInvBound (.UntypedConst c), len.pos⟩
      else arrayOfLen h pos t (h.intVal c).1 := by
  have hd := astExprAsData_of_data hl
  rw [astExpr_eq]
  simp only [astExprStep, astArrayType, astExprAsType_of_type ht, Res.ok_bind]
  cases len <;> first
    | exact absurd hl (astExpr_nilExpr_ne_ok h pkgPath args _)
    | simp only [hd, Res.ok_bind]

/-- Method astArrayType on a length expression that evaluates to a typed
constant. -/
theorem astArrayType_len_typed (pos : Pos) (len elt : Node) (args : Args RT RV C) (t : RT)
    (ty : RT) (c : C) (ht : astExpr h pkgPath elt args = .ok (.Type t))
    (hl : astExpr h pkgPath len args = .ok (.Datas (.TypedConst ty c))) :
    astExpr h pkgPath (.ArrayType pos len elt) args =
      if (!h.tcAssignableTo ty c h.typeInt || !(h.intVal c).2) = true then
        .err ⟨.arrayBoundInvBound (.TypedConst ty c), len.pos⟩
      else arrayOfLen h pos t (h.intVal c).1 := by
  have hd := astExprAsData_of_data hl
  rw [astExpr_eq]
  simp only [astExprStep, astArrayType, astExprAsType_of_type ht, Res.ok_bind]
  cases len <;> first
    | exact absurd hl (astExpr_nilExpr_ne_ok h pkgPath args _)
    | simp only [hd, Res.ok_bind]

/-- Method astArrayType on a length expression that evaluates to Data that is no
constant. -/
theorem astArrayType_len_not_const (pos : Pos) (len elt : Node) (args : Args RT RV C) (t : RT)
    (l : Data RT RV C) (ht : astExpr h pkgPath elt args = .ok (.Type t))
    (hl : astExpr h pkgPath len args = .ok (.Datas l))
    (hu : ∀ c, l ≠ .UntypedConst c) (hty : ∀ ty c, l ≠ .TypedConst ty c) :
    astExpr h pkgPath (.ArrayType pos len elt) args
      = .err ⟨.arrayBoundInvBound l, len.pos⟩ := by
  have hd := astExprAsData_of_data hl
  rw [astExpr_eq]
  simp only [astExprStep, astArrayType, astExprAsType_of_type ht, Res.ok_bind]
  cases l with
  | UntypedConst c => exact absurd rfl (hu c)
  | TypedConst ty c => exact absurd rfl (hty ty c)
  | Nil =>
    cases len <;> first
      | exact absurd hl (astExpr_nilExpr_ne_ok h pkgPath args _)
      | simp only [hd, Res.ok_bind]
  | Regular r =>
    cases len <;> first
      | exact absurd hl (astExpr_nilExpr_ne_ok h pkgPath args _)
      | simp only [hd, Res.ok_bind]

/-- C14 (amended): for an array-type node whose element type resolves and whose
length expression evaluates as Data, a length that is no constant, an untyped
constant that IntVal does not convert, or a typed constant that is not
assignable to int or that IntVal does not convert, is rejected with the invalid
bound error positioned at the length expression; a constant that is accepted
but negative is rejected with the negative bound error positioned at the
array-type node, which is a different error. -/
theorem astArrayType_rejected_bound (pos : Pos) (len elt : Node) (args : Args RT RV C)
    (t : RT) (l : Data RT RV C)
    (ht : astExpr h pkgPath elt args = .ok (.Type t))
    (hl : astExpr h pkgPath len args = .ok (.Datas l)) :
    ((∀ c, l = .UntypedConst c → (h.intVal c).2 = false) →
      (∀ ty c, l = .TypedConst ty c →
        h.tcAssignableTo ty c h.typeInt = false ∨ (h.intVal c).2 = false) →
      astExpr h pkgPath (.ArrayType pos len elt) args
        = .err ⟨.arrayBoundInvBound l, len.pos⟩) ∧
    (∀ n, ((∃ c, l = .UntypedConst c ∧ h.intVal c = (n, true)) ∨
        (∃ ty c, l = .TypedConst ty c ∧ h.tcAssignableTo ty c h.typeInt = true ∧
          h.intVal c = (n, true))) →
      n < 0 →
      astExpr h pkgPath (.ArrayType pos len elt) args = .err ⟨.arrayBoundNeg, pos⟩) ∧
    (IntError.arrayBoundNeg : IntError RT RV C) ≠ .arrayBoundInvBound l := by
  refine ⟨?_, ?_, ?_⟩
  · intro hu hty
    cases l with
    | Nil =>
      exact astArrayType_len_not_const h pkgPath pos len elt args t _ ht hl
        (by intro c hc; cases hc) (by intro ty c hc; cases hc)
    | Regular r =>
      exact astArrayType_len_not_const h pkgPath pos len elt args t _ ht hl
        (by intro c hc; cases hc) (by intro ty c hc; cases hc)
    | UntypedConst c =>
      rw [astArrayType_len_untyped h pkgPath pos len elt args t c ht hl]
      simp [hu c rfl]
    | TypedConst ty c =>
      rw [astArrayType_len_typed h pkgPath pos len elt args t ty c ht hl]
      rcases hty ty c rfl with ha | hi
      · simp [ha]
      · simp [hi]
  · intro n hacc hneg
    rcases hacc with ⟨c, rfl, hc⟩ | ⟨ty, c, rfl, hty, hc⟩
    · rw [astArrayType_len_untyped h pkgPath pos len elt args t c ht hl]
      simp [hc, arrayOfLen, hneg]
    · rw [astArrayType_len_typed h pkgPath pos len elt args t ty c ht hl]
      simp [hc, hty, arrayOfLen, hneg]
  · intro hc
    cases hc

/-- Witness of C14 (amended): the length 9223372036854775808 is no int and is
rejected with the invalid bound error at the length; the length -1 is rejected
with the negative bound error at the array type. -/
theorem astArrayType_rejected_bound_witness :
    astExpr demoHost "pkg" (.ArrayType 1 (.BasicLit 2 5 "9223372036854775808") (.Ident 22 "int"))
        demoArgs
      = .err ⟨.arrayBoundInvBound (.UntypedConst (.int 9223372036854775808)), 2⟩ ∧
    astExpr demoHost "pkg" (.ArrayType 1 (.UnaryExpr 2 13 (.BasicLit 3 5 "1")) (.Ident 5 "int"))
        demoArgs
      = .err ⟨.arrayBoundNeg, 1⟩ :=
  ⟨(astArrayType_rejected_bound demoHost "pkg" 1 (.BasicLit 2 5 "9223372036854775808")
      (.Ident 22 "int") demoArgs .int (.UntypedConst (.int 9223372036854775808)) rfl rfl).1
      (by intro c hc; cases hc; rfl) (by intro ty c hc; cases hc),
   (astArrayType_rejected_bound demoHost "pkg" 1 (.UnaryExpr 2 13 (.BasicLit 3 5 "1"))
      (.Ident 5 "int") demoArgs .int (.UntypedConst (.int (-1))) rfl rfl).2.1 (-1)
      (Or.inl ⟨_, rfl, rfl⟩) (by decide)⟩

/-- C14 as stated fails: the length of [-1]int evaluates to the negative
constant -1 and the node is rejected with the negative bound error positioned at
the array type, not with the invalid bound error. -/
theorem astArrayType_negative_len :
    astExpr demoHost "pkg" (.UnaryExpr 2 13 (.BasicLit 3 5 "1")) demoArgs
      = .ok (.Datas (.UntypedConst (.int (-1)))) ∧
    astExpr demoHost "pkg" (.ArrayType 1 (.UnaryExpr 2 13 (.BasicLit 3 5 "1")) (.Ident 5 "int"))
        demoArgs
      = .err ⟨.arrayBoundNeg, 1⟩ ∧
    astExpr demoHost "pkg" (.ArrayType 1 (.UnaryExpr 2 13 (.BasicLit 3 5 "1")) (.Ident 5 "int"))
        demoArgs
      ≠ .err ⟨.arrayBoundInvBound (.UntypedConst (.int (-1))), 2⟩ := by
  refine ⟨rfl, rfl, ?_⟩
  intro hc
  have h2 : astExpr demoHost "pkg"
      (.ArrayType 1 (.UnaryExpr 2 13 (.BasicLit 3 5 "1")) (.Ident 5 "int")) demoArgs
      = .err ⟨.arrayBoundNeg, 1⟩ := rfl
  rw [h2] at hc
  cases hc

/-! ### Slice expressions -/

/-- C15: when the operand of a slice expression and its bounds evaluate, the
operand is handed to a slicing algorithm when it is Regular data, a typed
constant whose type is of string kind or an untyped constant of string kind, as
a reflect.Value, and the algorithm is slice3 exactly when the node has the
3-bound flag, slice2 otherwise; every other operand (nil, a typed constant of
another kind, an untyped constant that is no string) gives the invalid type for
slicing error positioned at the operand. -/
theorem astSliceExpr_operand (pos : Pos) (x low high max : Node) (slice3 : Bool)
    (args : Args RT RV C) (xd : Data RT RV C) (lowI highI maxI : Int)
    (hx : astExpr h pkgPath x args = .ok (.Datas xd))
    (hlow : indexResolve h (astExpr h pkgPath) low args = .ok lowI)
    (hhigh : indexResolve h (astExpr h pkgPath) high args = .ok highI)
    (hmax : slice3 = true → indexResolve h (astExpr h pkgPath) max args = .ok maxI) :
    (∀ v, (xd = .Regular v ∨
        (∃ ty c, xd = .TypedConst ty c ∧ h.typeKind ty = Kind.String ∧ v = h.tcValue ty c) ∨
        (∃ c, xd = .UntypedConst c ∧ (h.stringVal c).2 = true ∧
          v = h.valueOfString (h.stringVal c).1)) →
      (slice3 = true →
        astExpr h pkgPath (.SliceExpr pos x low high max slice3) args
          = (h.slice3 v lowI highI maxI).pos pos) ∧
      (slice3 = false →
        astExpr h pkgPath (.SliceExpr pos x low high max slice3) args
          = (h.slice2 v lowI highI).pos pos)) ∧
    ((xd = .Nil ∨ (∃ ty c, xd = .TypedConst ty c ∧ h.typeKind ty ≠ Kind.String) ∨
        (∃ c, xd = .UntypedConst c ∧ (h.stringVal c).2 = false)) →
      astExpr h pkgPath (.SliceExpr pos x low high max slice3) args
        = .err ⟨.sliceInvType xd, x.pos⟩) := by
  have hd := astExprAsData_of_data hx
  rw [astExpr_eq]
  simp only [astExprStep, astSliceExpr, hd, hlow, hhigh, Res.ok_bind]
  cases slice3 with
  | false =>
    simp only [Bool.false_eq_true, if_false, Res.pure_eq, Res.ok_bind]
    refine ⟨?_, ?_⟩
    · intro v hv
      rcases hv with rfl | ⟨ty, c, rfl, hk, rfl⟩ | ⟨c, rfl, hs, rfl⟩
      · simp
      · simp [hk]
      · simp [hs]
    · intro hv
      rcases hv with rfl | ⟨ty, c, rfl, hk⟩ | ⟨c, rfl, hs⟩
      · simp
      · simp [hk]
      · simp [hs]
  | true =>
    simp only [if_true, hmax rfl, Res.ok_bind]
    refine ⟨?_, ?_⟩
    · intro v hv
      rcases hv with rfl | ⟨ty, c, rfl, hk, rfl⟩ | ⟨c, rfl, hs, rfl⟩
      · simp
      · simp [hk]
      · simp [hs]
    · intro hv
      rcases hv with rfl | ⟨ty, c, rfl, hk⟩ | ⟨c, rfl, hs⟩
      · simp
      · simp [hk]
      · simp [hs]

/-- Witness of C15: the string constant "abc" is sliced by slice2 without the
3-bound flag and by slice3 with it; the numeric constant 1 is rejected with the
error positioned at the operand. -/
theorem astSliceExpr_operand_witness :
    astExpr demoHost "pkg" (.SliceExpr 1 (.BasicLit 1 9 "abc") (.BasicLit 7 5 "1")
        (.BasicLit 9 5 "2") .nilExpr false) demoArgs
      = .ok (.Datas (.Regular (.built .string 2))) ∧
    astExpr demoHost "pkg" (.SliceExpr 1 (.BasicLit 1 9 "abc") (.BasicLit 7 5 "1")
        (.BasicLit 9 5 "2") (.BasicLit 11 5 "3") true) demoArgs
      = .ok (.Datas (.Regular (.built .string 3))) ∧
    astExpr demoHost "pkg" (.SliceExpr 1 (.BasicLit 1 5 "1") (.BasicLit 3 5 "0")
        (.BasicLit 5 5 "1") .nilExpr false) demoArgs
      = .err ⟨.sliceInvType (.UntypedConst (.int 1)), 1⟩ :=
  ⟨(((astSliceExpr_operand demoHost "pkg" 1 (.BasicLit 1 9 "abc") (.BasicLit 7 5 "1")
      (.BasicLit 9 5 "2") .nilExpr false demoArgs (.UntypedConst (.str "abc")) 0 0 0 rfl rfl rfl
      (by intro hc; cases hc)).1 (.str "abc") (Or.inr (Or.inr ⟨_, rfl, rfl, rfl⟩))).2 rfl).trans
      rfl,
   (((astSliceExpr_operand demoHost "pkg" 1 (.BasicLit 1 9 "abc") (.BasicLit 7 5 "1")
      (.BasicLit 9 5 "2") (.BasicLit 11 5 "3") true demoArgs (.UntypedConst (.str "abc")) 0 0 0
      rfl rfl rfl (by intro _; rfl)).1 (.str "abc") (Or.inr (Or.inr ⟨_, rfl, rfl, rfl⟩))).1
      rfl).trans rfl,
   (astSliceExpr_operand demoHost "pkg" 1 (.BasicLit 1 5 "1") (.BasicLit 3 5 "0")
      (.BasicLit 5 5 "1") .nilExpr false demoArgs (.UntypedConst (.int 1)) 0 0 0 rfl rfl rfl
      (by intro hc; cases hc)).2 (Or.inr (Or.inr ⟨_, rfl, rfl⟩))⟩

/-! ### Type assertions -/

/-- C16: when the operand of a type assertion evaluates as Data, the outcome is
decided in this order: an operand that is no Regular data of interface kind
gives the invalid operand error, whatever the type expression is (the theorem
holds for every type expression, one that does not evaluate included); otherwise an error of the type expression is returned as it is;
otherwise, from the result of TypeAssert, the impossible assertion error when
the assertion is not valid, the assertion failed error when it is valid and not
ok, and the asserted value as Regular data when it is valid and ok. -/
theorem astTypeAssertExpr_order (pos : Pos) (x type : Node) (args : Args RT RV C)
    (xd : Data RT RV C) (hx : astExpr h pkgPath x args = .ok (.Datas xd)) :
    ((∀ v, xd = .Regular v → h.kind v ≠ Kind.Interface) →
      astExpr h pkgPath (.TypeAssertExpr pos x type) args
        = .err ⟨.typeAssertLeftInval xd, pos⟩) ∧
    (∀ v, xd = .Regular v → h.kind v = Kind.Interface →
      (∀ er, astExprAsType (astExpr h pkgPath) type args = .err er →
        astExpr h pkgPath (.TypeAssertExpr pos x type) args = .err er) ∧
      (∀ t, astExprAsType (astExpr h pkgPath) type args = .ok t →
        ((h.typeAssert v t).2.2 = false →
          astExpr h pkgPath (.TypeAssertExpr pos x type) args
            = .err ⟨.typeAssertImpos v t, pos⟩) ∧
        ((h.typeAssert v t).2.2 = true → (h.typeAssert v t).2.1 = false →
          astExpr h pkgPath (.TypeAssertExpr pos x type) args
            = .err ⟨.typeAssertFalse v t, pos⟩) ∧
        ((h.typeAssert v t).2.2 = true → (h.typeAssert v t).2.1 = true →
          astExpr h pkgPath (.TypeAssertExpr pos x type) args
            = .ok (MakeDataRegular (h.typeAssert v t).1)))) := by
  have hd := astExprAsData_of_data hx
  have hinv : (∀ v, xd = .Regular v → h.kind v ≠ Kind.Interface) →
      astExpr h pkgPath (.TypeAssertExpr pos x type) args
        = .err ⟨.typeAssertLeftInval xd, pos⟩ := by
    intro hni
    rw [astExpr_eq]
    simp only [astExprStep, astTypeAssertExpr, hd, Res.ok_bind]
    cases xd with
    | Regular v => simp [hni v rfl]
    | Nil => rfl
    | TypedConst ty c => rfl
    | UntypedConst c => rfl
  refine ⟨hinv, ?_⟩
  rintro v rfl hk
  rw [astExpr_eq]
  simp only [astExprStep, astTypeAssertExpr, hd, Res.ok_bind, hk]
  refine ⟨?_, ?_⟩
  · intro er her
    simp [her]
  · intro t ht
    refine ⟨?_, ?_, ?_⟩
    · intro hv
      simp [ht, hv]
    · intro hv hok
      simp [ht, hv, hok]
    · intro hv hok
      simp [ht, hv, hok]

/-- Witness of C16: i holds the int 5 in an interface; i.(int) is the int 5,
i.(string) is a failed assertion, a.(zz) with the int a is an invalid operand
although zz is undefined, and i.(zz) returns the error of zz. -/
theorem astTypeAssertExpr_order_witness :
    astExpr demoHost "pkg" (.TypeAssertExpr 1 (.Ident 1 "i") (.Ident 4 "int")) demoArgs
      = .ok (.Datas (.Regular (.int 5))) ∧
    astExpr demoHost "pkg" (.TypeAssertExpr 1 (.Ident 1 "i") (.Ident 4 "string")) demoArgs
      = .err ⟨.typeAssertFalse (.iface (.int 5)) .string, 1⟩ ∧
    astExpr demoHost "pkg" (.TypeAssertExpr 1 (.Ident 1 "a") (.Ident 4 "zz")) demoArgs
      = .err ⟨.typeAssertLeftInval (.Regular (.int 1)), 1⟩ ∧
    astExpr demoHost "pkg" (.TypeAssertExpr 1 (.Ident 1 "i") (.Ident 4 "zz")) demoArgs
      = .err ⟨.identUndefined "zz", 4⟩ :=
  ⟨((((astTypeAssertExpr_order demoHost "pkg" 1 (.Ident 1 "i") (.Ident 4 "int") demoArgs
      (.Regular (.iface (.int 5))) rfl).2 _ rfl rfl).2 .int rfl).2.2 rfl rfl).trans rfl,
   (((astTypeAssertExpr_order demoHost "pkg" 1 (.Ident 1 "i") (.Ident 4 "string") demoArgs
      (.Regular (.iface (.int 5))) rfl).2 _ rfl rfl).2 .string rfl).2.1 rfl rfl,
   (astTypeAssertExpr_order demoHost "pkg" 1 (.Ident 1 "a") (.Ident 4 "zz") demoArgs
      (.Regular (.int 1)) rfl).1 (by intro v hv; cases hv; decide),
   ((astTypeAssertExpr_order demoHost "pkg" 1 (.Ident 1 "i") (.Ident 4 "zz") demoArgs
      (.Regular (.iface (.int 5))) rfl).2 _ rfl rfl).1 _ rfl⟩

/-! ### Interface types -/

/-- C17 (amended): an interface-type node whose method list is present and empty
evaluates, for every Args, to the empty interface Type without error; one whose
method list is present and not empty gives the unsupported interface type error
at the node; one whose method list is absent (nil) is rejected with the nil
method list error at the node. -/
theorem astInterfaceType_cases (pos : Pos) (methods : Option (List Field))
    (args : Args RT RV C) :
    (methods = some [] →
      astExpr h pkgPath (.InterfaceType pos methods) args
        = .ok (MakeType h.typeEmptyInterface)) ∧
    (∀ l, methods = some l → l ≠ [] →
      astExpr h pkgPath (.InterfaceType pos methods) args
        = .err ⟨.unsupportedInterfaceType, pos⟩) ∧
    (methods = none →
      astExpr h pkgPath (.InterfaceType pos methods) args
        = .err ⟨.invAstNilInterfaceMethods, pos⟩) := by
  rw [astExpr_eq]
  simp only [astExprStep, astInterfaceType]
  refine ⟨?_, ?_, ?_⟩
  · rintro rfl
    rfl
  · rintro l rfl hl
    have : l.length ≠ 0 := by
      intro hc
      exact hl (List.length_eq_zero.mp hc)
    simp [this]
  · rintro rfl
    rfl

/-- Witness of C17 (amended): interface{} with its empty method list is the
empty interface type; an interface type with one method is unsupported. -/
theorem astInterfaceType_cases_witness :
    astExpr demoHost "pkg" (.InterfaceType 1 (some [])) demoArgs = .ok (.Type .emptyInterface) ∧
    astExpr demoHost "pkg" (.InterfaceType 1
        (some [⟨11, some [⟨11, "M"⟩], .FuncType 12 (some []) none, none⟩])) demoArgs
      = .err ⟨.unsupportedInterfaceType, 1⟩ :=
  ⟨(astInterfaceType_cases demoHost "pkg" 1 (some []) demoArgs).1 rfl,
   (astInterfaceType_cases demoHost "pkg" 1
      (some [⟨11, some [⟨11, "M"⟩], .FuncType 12 (some []) none, none⟩]) demoArgs).2.1 _ rfl
      (by intro hc; cases hc)⟩

/-- C17 as stated fails: an interface-type node without method list (Methods is
nil) declares no method and is rejected with an error. -/
theorem astInterfaceType_nil_methods_rejected :
    numFields none = 0 ∧
    astExpr demoHost "pkg" (.InterfaceType 1 none) demoArgs
      = .err ⟨.invAstNilInterfaceMethods, 1⟩ :=
  ⟨rfl, rfl⟩

/-! ### Recovered builder faults -/

/-- C19: when reflect.StructOf panics on the descriptors astStructType has
filled in, astStructType returns, instead of the panic, an error that carries
the text of the panic and is positioned at the struct-type node; and when
reflect.MapOf panics on the key and value types astMapType has resolved,
astMapType returns the error with the text of the panic positioned at the
map-type node. -/
theorem builder_fault_recovered (pos : Pos) (args : Args RT RV C) :
    (∀ l fields i msg,
      structFieldsLoop h pkgPath (astExpr h pkgPath) args l
        (List.replicate (numFields (some l)) ⟨"", "", none, "", false⟩) 0 = .ok (fields, i) →
      h.structOf fields = .error msg →
      astExpr h pkgPath (.StructType pos (some l)) args = .err ⟨.recovered msg, pos⟩) ∧
    (∀ key value k v msg, astExpr h pkgPath key args = .ok (.Type k) →
      astExpr h pkgPath value args = .ok (.Type v) → h.mapOf k v = .error msg →
      astExpr h pkgPath (.MapType pos key value) args = .err ⟨.recovered msg, pos⟩) := by
  refine ⟨?_, ?_⟩
  · intro l fields i msg hloop hs
    rw [astExpr_eq]
    simp only [astExprStep, astStructType, hloop, Res.ok_bind, hs]
  · intro key value k v msg hk hv hm
    rw [astExpr_eq]
    simp only [astExprStep, astMapType, astExprAsType_of_type hk, astExprAsType_of_type hv,
      Res.ok_bind, hm]

/-- Witness of C19: struct{X int; X int} and map[[]int]int make the builders
panic, and both nodes return a positioned error with the text of the panic. -/
theorem builder_fault_recovered_witness :
    astExpr demoHost "pkg" (.StructType 1 (some [⟨8, some [⟨8, "X"⟩], .Ident 10 "int", none⟩,
        ⟨15, some [⟨15, "X"⟩], .Ident 17 "int", none⟩])) demoArgs
      = .err ⟨.recovered "reflect.StructOf: duplicate field", 1⟩ ∧
    astExpr demoHost "pkg" (.MapType 1 (.ArrayType 5 .nilExpr (.Ident 7 "int")) (.Ident 11 "int"))
        demoArgs
      = .err ⟨.recovered "reflect.MapOf: invalid key type", 1⟩ :=
  ⟨(builder_fault_recovered demoHost "pkg" 1 demoArgs).1
      [⟨8, some [⟨8, "X"⟩], .Ident 10 "int", none⟩, ⟨15, some [⟨15, "X"⟩], .Ident 17 "int", none⟩]
      [⟨"X", "pkg", some .int, "", false⟩, ⟨"X", "pkg", some .int, "", false⟩] 2
      "reflect.StructOf: duplicate field" rfl rfl,
   (builder_fault_recovered demoHost "pkg" 1 demoArgs).2
      (.ArrayType 5 .nilExpr (.Ident 7 "int")) (.Ident 11 "int") (.slice .int) .int
      "reflect.MapOf: invalid key type" rfl rfl rfl⟩

/-! ### Struct types -/

theorem writeField_append (done : List (StructField RT)) (z d : StructField RT)
    (zs : List (StructField RT)) :
    (writeField (done ++ z :: zs) done.length d : Res RT RV C _) = .ok (done ++ d :: zs) := by
  simp [writeField]

theorem namedFieldsLoop_spec (fsT : RT) (tag : Option BasicLit) (t : String)
    (htag : extractTag h tag = .ok t) (names : List Ident) :
    ∀ (done rest : List (StructField RT)), names.length ≤ rest.length →
      namedFieldsLoop h pkgPath fsT tag names (done ++ rest) done.length
        = .ok (done ++ names.map (fun f => ⟨f.name, pkgPath, some fsT, t, false⟩)
            ++ rest.drop names.length, done.length + names.length) := by
  induction names with
  | nil => intro done rest _; simp [namedFieldsLoop]
  | cons f fs ih =>
    intro done rest hlen
    cases rest with
    | nil => simp at hlen
    | cons z zs =>
      simp only [List.length_cons, Nat.add_le_add_iff_right] at hlen
      simp only [namedFieldsLoop, writeField_append, Res.ok_bind, htag]
      have := ih (done ++ [⟨f.name, pkgPath, some fsT, t, false⟩]) zs hlen
      simp only [List.length_append, List.length_singleton, List.append_assoc,
        List.singleton_append] at this
      rw [this]
      simp [Nat.add_assoc, Nat.add_comm 1]

theorem groupDescriptors_named (g : Field) (ns : List Ident) (t : RT) (tag : String)
    (hg : g.names = some ns) (hne : ns ≠ []) :
    groupDescriptors pkgPath g t tag
      = ns.map (fun f => ⟨f.name, pkgPath, some t, tag, false⟩) := by
  unfold groupDescriptors
  rw [hg]
  cases ns with
  | nil => exact absurd rfl hne
  | cons a as => rfl

/-- The loop of astStructType over field groups whose types resolve and whose
tags parse, none of them with an empty list of names: the descriptors of the
groups are written one after the other from index i on. -/
theorem structFieldsLoop_spec {ev : Evaluator RT RV C} (args : Args RT RV C) (l : List Field)
    (rs : List (RT × String))
    (hev : List.Forall₂ (fun g r => astExprAsType ev g.type args = .ok r.1 ∧
      extractTag h g.tag = (.ok r.2 : Res RT RV C String)) l rs)
    (hnames : ∀ g ∈ l, g.names ≠ some []) :
    ∀ (done rest : List (StructField RT)),
      (structDescriptors pkgPath l rs).length ≤ rest.length →
      structFieldsLoop h pkgPath ev args l (done ++ rest) done.length
        = .ok (done ++ structDescriptors pkgPath l rs
            ++ rest.drop (structDescriptors pkgPath l rs).length,
          done.length + (structDescriptors pkgPath l rs).length) := by
  induction hev with
  | nil => intro done rest _; simp [structFieldsLoop, structDescriptors]
  | @cons g r l rs hg _ ih =>
    intro done rest hlen
    obtain ⟨hty, htag⟩ := hg
    have hrest := ih (fun g2 hg2 => hnames g2 (List.mem_cons_of_mem _ hg2))
    simp only [structDescriptors, List.length_append] at hlen ⊢
    simp only [structFieldsLoop, hty, Res.ok_bind]
    cases hn : g.names with
    | none =>
      have hgd : groupDescriptors pkgPath g r.1 r.2 = [⟨"", pkgPath, some r.1, r.2, true⟩] := by
        simp [groupDescriptors, hn]
      rw [hgd] at hlen ⊢
      cases rest with
      | nil => simp at hlen
      | cons z zs =>
        simp only [List.length_cons, List.length_nil, Nat.zero_add] at hlen
        simp only [writeField_append, Res.ok_bind, htag]
        have := hrest (done ++ [⟨"", pkgPath, some r.1, r.2, true⟩]) zs (by omega)
        simp only [List.length_append, List.length_singleton, List.append_assoc,
          List.singleton_append] at this
        rw [this]
        simp [Nat.add_assoc, Nat.add_comm 1]
    | some ns =>
      have hne : ns ≠ [] := by
        rintro rfl
        exact hnames g (List.mem_cons_self _ _) hn
      have hgd := groupDescriptors_named pkgPath g ns r.1 r.2 hn hne
      rw [hgd] at hlen ⊢
      simp only [List.length_map] at hlen ⊢
      rw [namedFieldsLoop_spec h pkgPath r.1 g.tag r.2 htag ns done rest (by omega)]
      simp only [Res.ok_bind]
      have := hrest (done ++ ns.map (fun f => ⟨f.name, pkgPath, some r.1, r.2, false⟩))
        (rest.drop ns.length) (by simp only [List.length_drop]; omega)
      simp only [List.length_append, List.length_map] at this
      rw [this]
      simp [List.append_assoc, Nat.add_assoc, Nat.add_comm ns.length]

theorem numFields_eq_structDescriptors (l : List Field) :
    ∀ (rs : List (RT × String)), l.length = rs.length →
      numFields (some l) = (structDescriptors pkgPath l rs).length := by
  induction l with
  | nil => intro rs _; simp [numFields, structDescriptors]
  | cons g gs ih =>
    intro rs hlen
    cases rs with
    | nil => simp at hlen
    | cons r rs =>
      have := ih rs (by simpa using hlen)
      simp only [numFields, List.map_cons, List.sum_cons, structDescriptors,
        List.length_append] at this ⊢
      rw [this]
      congr 1
      unfold groupDescriptors
      cases hn : g.names with
      | none => rfl
      | some ns =>
        cases ns with
        | nil => rfl
        | cons a as => simp

/-- C18 (amended): for a struct-type node with a field list whose field types
all resolve and whose tags parse as string literals (or are absent), and in
which no group has an empty, non-nil list of names, the loop of astStructType
writes, in declaration order, one named descriptor per declared name or one
anonymous descriptor with empty name for a group without names, each with the
resolved type of the group, its parsed tag and the package path of the
evaluator; no write falls outside the allocated list, the number of descriptors
written is the length of that list (the field count of the node), and these
descriptors are what reflect.StructOf is called on. -/
theorem astStructType_descriptors (pos : Pos) (l : List Field) (args : Args RT RV C)
    (rs : List (RT × String))
    (hev : List.Forall₂ (fun g r => astExprAsType (astExpr h pkgPath) g.type args = .ok r.1 ∧
      extractTag h g.tag = (.ok r.2 : Res RT RV C String)) l rs)
    (hnames : ∀ g ∈ l, g.names ≠ some []) :
    structFieldsLoop h pkgPath (astExpr h pkgPath) args l
        (List.replicate (numFields (some l)) ⟨"", "", none, "", false⟩) 0
      = .ok (structDescriptors pkgPath l rs, numFields (some l)) ∧
    (structDescriptors pkgPath l rs).length = numFields (some l) ∧
    astExpr h pkgPath (.StructType pos (some l)) args =
      (match h.structOf (structDescriptors pkgPath l rs) with
        | .error msg => .err ⟨.recovered msg, pos⟩
        | .ok rT => .ok (MakeType rT)) := by
  have hnum := numFields_eq_structDescriptors pkgPath l rs hev.length_eq
  have hloop : structFieldsLoop h pkgPath (astExpr h pkgPath) args l
      (List.replicate (numFields (some l)) ⟨"", "", none, "", false⟩) 0
      = .ok (structDescriptors pkgPath l rs, numFields (some l)) := by
    have := structFieldsLoop_spec h pkgPath args l rs hev hnames []
      (List.replicate (numFields (some l)) ⟨"", "", none, "", false⟩)
      (by simp [hnum])
    simp only [List.nil_append, List.length_nil, Nat.zero_add] at this
    rw [this, ← hnum]
    simp
  refine ⟨hloop, hnum.symm, ?_⟩
  rw [astExpr_eq]
  simp only [astExprStep, astStructType, hloop, Res.ok_bind]
  try (cases h.structOf (structDescriptors pkgPath l rs) <;> rfl)

/-- Witness of C18 (amended): struct { A, B int; S } gives the descriptors of
A, of B and of the embedded S. -/
theorem astStructType_descriptors_witness :
    structDescriptors "pkg" [⟨8, some [⟨8, "A"⟩, ⟨11, "B"⟩], .Ident 13 "int", none⟩,
        ⟨18, none, .Ident 18 "S", none⟩] [(DemoType.int, ""), (DemoType.structS, "")]
      = [⟨"A", "pkg", some .int, "", false⟩, ⟨"B", "pkg", some .int, "", false⟩,
         ⟨"", "pkg", some .structS, "", true⟩] ∧
    astExpr demoHost "pkg" (.StructType 1 (some [⟨8, some [⟨8, "A"⟩, ⟨11, "B"⟩],
        .Ident 13 "int", none⟩, ⟨18, none, .Ident 18 "S", none⟩])) demoArgs
      = .ok (.Type (.structOf 3)) :=
  ⟨rfl, ((astStructType_descriptors demoHost "pkg" 1 [⟨8, some [⟨8, "A"⟩, ⟨11, "B"⟩],
      .Ident 13 "int", none⟩, ⟨18, none, .Ident 18 "S", none⟩] demoArgs
      [(.int, ""), (.structS, "")]
      (List.Forall₂.cons ⟨rfl, rfl⟩ (List.Forall₂.cons ⟨rfl, rfl⟩ List.Forall₂.nil))
      (by decide)).2.2).trans rfl⟩

/-- C18 as stated fails on two inputs. A struct-type node without field list is
rejected before any descriptor is built. And for a group whose list of names is
empty but not nil the field count is 1 and the specification gives one
anonymous descriptor of type int, but the loop writes nothing: the list handed
to reflect.StructOf holds one descriptor that was never written. -/
theorem astStructType_descriptor_mismatch :
    astExpr demoHost "pkg" (.StructType 1 none) demoArgs
      = .err ⟨.invAstNilStructFields, 1⟩ ∧
    numFields (some [⟨8, some [], .Ident 8 "int", none⟩]) = 1 ∧
    structDescriptors "pkg" [⟨8, some [], .Ident 8 "int", none⟩] [(DemoType.int, "")]
      = [⟨"", "pkg", some .int, "", true⟩] ∧
    structFieldsLoop demoHost "pkg" (astExpr demoHost "pkg") demoArgs
        [⟨8, some [], .Ident 8 "int", none⟩] [⟨"", "", none, "", false⟩] 0
      = .ok ([⟨"", "", none, "", false⟩], 0) ∧
    astExpr demoHost "pkg" (.StructType 1 (some [⟨8, some [], .Ident 8 "int", none⟩])) demoArgs
      = .err ⟨.recovered "reflect.StructOf: field has no type", 1⟩ :=
  ⟨rfl, rfl, rfl, rfl, rfl⟩

/-! ### Error propagation -/

/-- C20: an error of a child is returned unchanged, and it is the error of the
first failing child. (1) For every node, every Args and whatever the children
evaluate to, the handler of the node propagates the first failure among its
operands: its outcome either rests on values of children only, or is the failure
(an error with its message and its position) of one operand, whatever every
other failing child returns. (2) astExprAsData and astExprAsType return the
error of astExpr as it is. (3) For every node with operands, an error of the
operand evaluated first is the outcome of the node. (4) For a binary expression
the error of the left operand is returned whatever the right operand is, and the
error of the right operand when the left operand evaluates to Data. (5) Every
error astExpr returns for a node is the very error of one of its operands, or is
raised by the handler of the node from the values of its children. -/
theorem child_error_propagation :
    (∀ (e : Node) (args : Args RT RV C) (ev : Evaluator RT RV C),
      FirstFailure (fun c => c ∈ e.operands) args
        (fun ev2 => astExprStep h pkgPath ev2 e args) ev) ∧
    (∀ (ev : Evaluator RT RV C) (c : Node) (args : Args RT RV C) (er : PosError RT RV C),
      ev c args = .err er →
        astExprAsData ev c args = .err er ∧ astExprAsType ev c args = .err er) ∧
    (∀ (e c : Node) (args : Args RT RV C) (er : PosError RT RV C),
      e.operands.head? = some c → astExpr h pkgPath c args = .err er →
        astExpr h pkgPath e args = .err er) ∧
    (∀ (p : Pos) (x : Node) (op : Token) (y : Node) (args : Args RT RV C)
        (er : PosError RT RV C),
      (astExpr h pkgPath x args = .err er →
        astExpr h pkgPath (.BinaryExpr p x op y) args = .err er) ∧
      (∀ d, astExpr h pkgPath x args = .ok (.Datas d) → astExpr h pkgPath y args = .err er →
        astExpr h pkgPath (.BinaryExpr p x op y) args = .err er)) ∧
    (∀ (e : Node) (args : Args RT RV C) (er : PosError RT RV C),
      astExpr h pkgPath e args = .err er →
        (∃ c ∈ e.operands, astExpr h pkgPath c args = .err er) ∨
        (∀ ev2, AgreeOnValues args (astExpr h pkgPath) ev2 →
          astExprStep h pkgPath ev2 e args = .err er)) := by
  refine ⟨fun e args ev => firstFailure_astExprStep h pkgPath e,
    fun ev c args er hc => ⟨astExprAsData_err hc, astExprAsType_err hc⟩,
    fun e c args er hh hc => astExpr_head_operand_err h pkgPath e c args er hh hc,
    fun p x op y args er => ⟨fun hx => ?_, fun d hx hy => ?_⟩,
    fun e args er he => ?_⟩
  · exact astExpr_head_operand_err h pkgPath _ x args er rfl hx
  · rw [astExpr_eq]
    simp only [astExprStep, astBinaryExpr, astExprAsData, hx, hy, Res.ok_bind, Res.err_bind]
  · have hstep := astExpr_eq h pkgPath e args
    have hff : FirstFailure (fun c => c ∈ e.operands) args
        (fun ev2 => astExprStep h pkgPath ev2 e args) (astExpr h pkgPath) :=
      firstFailure_astExprStep h pkgPath e
    rcases hff with hA | ⟨c, hc, hf, hB⟩
    · refine Or.inr (fun ev2 h2 => ?_)
      exact (hA ev2 h2).trans (hstep.symm.trans he)
    · refine Or.inl ⟨c, hc, ?_⟩
      have h3 : (astExpr h pkgPath e args).failure = (astExpr h pkgPath c args).failure := by
        rw [hstep]
        exact hB _ (agreeOnValues_refl args _) hf
      exact Res.failure_eq_err he h3

/-- In x + y with both names unbound, the error is that of x, at the position
of x. -/
theorem child_error_propagation_witness :
    astExpr demoHost "pkg" (.Ident 2 "zz") demoArgs = .err ⟨.identUndefined "zz", 2⟩ ∧
    astExpr demoHost "pkg" (.Ident 3 "yy") demoArgs = .err ⟨.identUndefined "yy", 3⟩ ∧
    astExpr demoHost "pkg" (.BinaryExpr 1 (.Ident 2 "zz") 12 (.Ident 3 "yy")) demoArgs
      = .err ⟨.identUndefined "zz", 2⟩ :=
  ⟨rfl, rfl,
    ((child_error_propagation demoHost "pkg").2.2.2.1 1 (.Ident 2 "zz") 12 (.Ident 3 "yy")
      demoArgs ⟨.identUndefined "zz", 2⟩).1 rfl⟩

/-! ### Selectors on pointers -/

/-- C21 is not met by the code. For a selector whose base evaluates to Regular
data of pointer kind: (1) astSelectorExpr faults exactly when the method lookup
on the pointer panics, or when that lookup misses, the pointee is no struct with
a visible field of the name, and the method lookup on the pointee panics; (2) so
where neither method lookup panics the outcome is a Value or a positioned error;
(3) and where the lookup on the pointer misses, the pointee is no struct and the
method lookup on the pointee panics, as for the zero Value that Elem gives for a
nil pointer, the selector faults with that panic. -/
theorem astSelectorExpr_pointer_fault (pos : Pos) (x : Node) (sp : Pos) (name : String)
    (args : Args RT RV C) (xV : RV)
    (hx : astExpr h pkgPath x args = .ok (.Datas (.Regular xV)))
    (hp : h.kind xV = Kind.Ptr) :
    (∀ msg, astExpr h pkgPath (.SelectorExpr pos x (some ⟨sp, name⟩)) args = .fault msg ↔
      (h.methodByName xV name = .error msg ∨
        ((∃ m0, h.methodByName xV name = .ok m0 ∧ h.isValid m0 = false) ∧
          ¬ (h.kind (h.elem xV) = Kind.Struct ∧
            h.isValid (h.fieldByName (h.elem xV) name pkgPath) = true) ∧
          h.methodByName (h.elem xV) name = .error msg))) ∧
    ((∀ msg, h.methodByName xV name ≠ .error msg) →
      (∀ msg, h.methodByName (h.elem xV) name ≠ .error msg) →
      (∃ v, astExpr h pkgPath (.SelectorExpr pos x (some ⟨sp, name⟩)) args = .ok v) ∨
      (∃ er, astExpr h pkgPath (.SelectorExpr pos x (some ⟨sp, name⟩)) args = .err er)) ∧
    (∀ m0 msg, h.methodByName xV name = .ok m0 → h.isValid m0 = false →
      h.kind (h.elem xV) ≠ Kind.Struct → h.methodByName (h.elem xV) name = .error msg →
      astExpr h pkgPath (.SelectorExpr pos x (some ⟨sp, name⟩)) args = .fault msg) := by
  have hsel : astExpr h pkgPath (.SelectorExpr pos x (some ⟨sp, name⟩)) args
      = selectorRegular h pkgPath pos name xV := by
    rw [astExpr_eq]
    simp only [astExprStep, astSelectorExpr, hx]
  rw [hsel]
  unfold selectorRegular selectorAfterDeref
  simp only [hp, if_true]
  refine ⟨?_, ?_, ?_⟩
  · intro msg
    cases hm : h.methodByName xV name with
    | error m1 => simp
    | ok m0 =>
      cases hv : h.isValid m0
      · by_cases hf : h.kind (h.elem xV) = Kind.Struct ∧
            h.isValid (h.fieldByName (h.elem xV) name pkgPath) = true
        · simp [hv, hf]
        · cases hm2 : h.methodByName (h.elem xV) name with
          | error m2 => simp [hv, hf]
          | ok m3 => cases hv3 : h.isValid m3 <;> simp [hv, hf, hv3]
      · simp [hv]
  · intro h1 h2
    cases hm : h.methodByName xV name with
    | error m1 => exact absurd hm (h1 m1)
    | ok m0 =>
      cases hv : h.isValid m0
      · by_cases hf : h.kind (h.elem xV) = Kind.Struct ∧
            h.isValid (h.fieldByName (h.elem xV) name pkgPath) = true
        · simp [hv, hf]
        · cases hm2 : h.methodByName (h.elem xV) name with
          | error m2 => exact absurd hm2 (h2 m2)
          | ok m3 => cases hv3 : h.isValid m3 <;> simp [hv, hf, hv3]
      · simp [hv]
  · intro m0 msg hm hv hk hm2
    simp [hm, hv, hk, hm2]

/-- The selector q.F on the nil pointer q to the struct S, which has the field
F: the pointer has no method F, its pointee is the zero Value, and the method
lookup on it panics. -/
theorem astSelectorExpr_pointer_fault_witness :
    astExpr demoHost "pkg" (.Ident 3 "q") demoArgs = .ok (.Datas (.Regular .nilPtrS)) ∧
    demoHost.kind .nilPtrS = Kind.Ptr ∧
    demoHost.isValid (demoHost.fieldByName .structS "F" "pkg") = true ∧
    astExpr demoHost "pkg" (.SelectorExpr 1 (.Ident 3 "q") (some ⟨4, "F"⟩)) demoArgs
      = .fault "reflect: call of reflect.Value.MethodByName on zero Value" :=
  ⟨rfl, rfl, rfl,
    (astSelectorExpr_pointer_fault demoHost "pkg" 1 (.Ident 3 "q") 4 "F" demoArgs .nilPtrS
      rfl rfl).2.2 .invalid _ rfl rfl (by decide) rfl⟩

end Claims

end Eval
